import Mathlib

/-!
# GraphStd: COO to CSR conversion and export

A shallow embedding of `src/src/GraphIO/GraphStd.cpp` (class `graph::GraphStd<vid_t, eoff_t>`).

* Vertex ids, edge offsets and degrees are natural numbers. Every value the conversion
  stores is a vertex id below `_nV`, or a count or offset bounded by `_nE`; both bounds
  pass `xlib::check_overflow` in `allocate`, so no operation on `vid_t` or `eoff_t`
  wraps. The type `degree_t` is declared in a header that is not among the sources; the
  model covers the runs in which it holds every degree and running sum (at most `_nE`),
  as it does in `GraphStd<int, int>` when it is `int`.
* Two computations are made in types narrower than the values they receive and are
  modelled modulo the range of the type: the product of line 94 of `allocate`, formed in
  `size_t` (`GraphStd.allocate_size_t`), and the `int` accumulators of
  `print_degree_distrib` (`GraphStd.degree_distrib`).
* The arrays created by the `new` expressions of `allocate` live in a `Heap` indexed by
  allocation site (`Addr`); the pointer members of the class are `Ptr` values
  (`none` is `nullptr`). Two members alias when they hold the same address.
* Loops are folds over the index range (or over the cells read, when the loop does not
  write the array it reads).
* Console output (`std::cout`) is not modelled.
-/

namespace graph

/-! ## Structure and parsing properties -/

/-- Direction constants `structure_prop::UNDIRECTED` and `structure_prop::DIRECTED`. -/
inductive Direction
  | UNDIRECTED
  | DIRECTED
  deriving DecidableEq, Repr

/-- Modelled from the spec: the header declaring `StructureProp` is not among the sources.
The structure descriptor is a direction (possibly unset), the reverse flag and the
retain-COO flag. -/
structure StructureProp where
  direction : Option Direction
  reverse : Bool
  coo : Bool
  deriving DecidableEq, Repr

/-- Method `StructureProp::is_direction_set`. -/
def StructureProp.is_direction_set (s : StructureProp) : Bool := s.direction.isSome

/-- Method `StructureProp::is_directed`. -/
def StructureProp.is_directed (s : StructureProp) : Bool :=
  decide (s.direction = some Direction.DIRECTED)

/-- Method `StructureProp::is_undirected`. -/
def StructureProp.is_undirected (s : StructureProp) : Bool :=
  decide (s.direction = some Direction.UNDIRECTED)

/-- Method `StructureProp::is_reverse`. -/
def StructureProp.is_reverse (s : StructureProp) : Bool := s.reverse

/-- Method `StructureProp::is_coo`. -/
def StructureProp.is_coo (s : StructureProp) : Bool := s.coo

/-- Operator `_structure += ginfo.direction`, used only when no direction is set. -/
def StructureProp.add_direction (s : StructureProp) (d : Direction) : StructureProp :=
  { s with direction := some d }

/-- Modelled from the spec: the header declaring `ParsingProp` is not among the sources.
The build options are the orthogonal flags print, sort and randomize. -/
structure ParsingProp where
  print : Bool
  sort : Bool
  randomize : Bool
  deriving DecidableEq, Repr

/-- Method `ParsingProp::is_sort`. -/
def ParsingProp.is_sort (p : ParsingProp) : Bool := p.sort

/-- Method `ParsingProp::is_randomize`. -/
def ParsingProp.is_randomize (p : ParsingProp) : Bool := p.randomize

/-- The aggregate `GInfo` handed to `allocate`:
`{ num_vertices, num_edges, num_lines, direction }`. -/
structure GInfo where
  num_vertices : Nat
  num_edges : Nat
  num_lines : Nat
  direction : Direction
  deriving DecidableEq, Repr

/-- The template parameters `vid_t` and `eoff_t`, given by their sizes in bytes
(`GraphStd<int, int>` is 4 and 4, `GraphStd<int64_t, int64_t>` is 8 and 8), with the
length of the type tag written by `writeBinary` and the size of the structure flags. -/
structure TypeParams where
  sizeof_vid : Nat
  sizeof_eoff : Nat
  sizeof_structure : Nat
  class_id : List Nat
  deriving DecidableEq, Repr

/-- Largest value of the signed type `vid_t`. -/
def TypeParams.vid_max (T : TypeParams) : Nat := 2 ^ (8 * T.sizeof_vid - 1) - 1

/-- Largest value of the signed type `eoff_t`. -/
def TypeParams.eoff_max (T : TypeParams) : Nat := 2 ^ (8 * T.sizeof_eoff - 1) - 1

/-! ## Memory -/

/-- Allocation sites of the integer arrays in `allocate` (lines 130-132 and 140-142). -/
inductive Addr
  | out_offsets
  | out_edges
  | out_degrees
  | in_offsets
  | in_edges
  | in_degrees
  deriving DecidableEq, Repr

/-- A pointer member: `none` is `nullptr`. -/
abbrev Ptr := Option Addr

/-- Contents of the arrays, one per allocation site. -/
structure Heap where
  out_offsets : List Nat
  out_edges : List Nat
  out_degrees : List Nat
  in_offsets : List Nat
  in_edges : List Nat
  in_degrees : List Nat
  deriving DecidableEq, Repr

/-- The array stored at an address. -/
def Heap.get (h : Heap) : Addr → List Nat
  | Addr.out_offsets => h.out_offsets
  | Addr.out_edges => h.out_edges
  | Addr.out_degrees => h.out_degrees
  | Addr.in_offsets => h.in_offsets
  | Addr.in_edges => h.in_edges
  | Addr.in_degrees => h.in_degrees

/-- Replace the array stored at an address. -/
def Heap.put (h : Heap) (a : Addr) (v : List Nat) : Heap :=
  match a with
  | Addr.out_offsets => { h with out_offsets := v }
  | Addr.out_edges => { h with out_edges := v }
  | Addr.out_degrees => { h with out_degrees := v }
  | Addr.in_offsets => { h with in_offsets := v }
  | Addr.in_edges => { h with in_edges := v }
  | Addr.in_degrees => { h with in_degrees := v }

/-- The read `p[i]`. A read through `nullptr` or past the end is undefined in C++;
the model returns 0. -/
def Heap.read (h : Heap) (p : Ptr) (i : Nat) : Nat :=
  match p with
  | none => 0
  | some a => (h.get a).getD i 0

/-- The write `p[i] = v`. A write through `nullptr` or past the end is undefined in C++;
the model leaves the heap unchanged. -/
def Heap.write (h : Heap) (p : Ptr) (i : Nat) (v : Nat) : Heap :=
  match p with
  | none => h
  | some a => h.put a ((h.get a).set i v)

/-- The increment `p[i]++`. -/
def Heap.incr (h : Heap) (p : Ptr) (i : Nat) : Heap :=
  h.write p i (h.read p i + 1)

/-- An array `new T[n]` without initialiser: its cells hold indeterminate values,
drawn here from `junk`. -/
def new_array (junk : Nat → Nat) (n : Nat) : List Nat := (List.range n).map junk

/-- An array `new T[n]()`: value-initialised, every cell is 0. -/
def new_array_zero (n : Nat) : List Nat := List.replicate n 0

/-! ## The graph object -/

/-- Data members of `GraphStd` (with those inherited from `GraphBase`) that the modelled
functions use. An edge of the COO buffer is the pair `(first, second)`. -/
structure GraphStd where
  _nV : Nat
  _nE : Nat
  _structure : StructureProp
  _prop : ParsingProp
  _stored_undirected : Bool
  _undirected_to_directed : Bool
  _directed_to_undirected : Bool
  _bitmask : List Bool
  _out_offsets : Ptr
  _out_edges : Ptr
  _out_degrees : Ptr
  _in_offsets : Ptr
  _in_edges : Ptr
  _in_degrees : Ptr
  _coo_edges : Option (List (Nat × Nat))
  heap : Heap

/-- Constructor `GraphStd(StructureProp structure)` followed by the part of
`GraphBase::read` that records the parsing property and whether the file stores both
directions of every edge: counts are zero, every pointer is `nullptr`. -/
def GraphStd.create (s : StructureProp) (p : ParsingProp) (stored_undirected : Bool) :
    GraphStd :=
  { _nV := 0, _nE := 0, _structure := s, _prop := p,
    _stored_undirected := stored_undirected,
    _undirected_to_directed := false, _directed_to_undirected := false,
    _bitmask := [],
    _out_offsets := none, _out_edges := none, _out_degrees := none,
    _in_offsets := none, _in_edges := none, _in_degrees := none,
    _coo_edges := none,
    heap := { out_offsets := [], out_edges := [], out_degrees := [],
              in_offsets := [], in_edges := [], in_degrees := [] } }

/-- Modelled from the spec: the class `xlib::Bitmask` is not among the sources. Its method
`size` gives the population count of the bitmask, the number of set bits. -/
def Bitmask_size (b : List Bool) : Nat := b.count true

/-- Function `GraphStd::allocate` (lines 84-148). The result is `none` when the assertion of
line 85 fails or `xlib::check_overflow` reports an overflow (both end the program).
`rnd` gives the bits produced by `_bitmask.randomize(_seed)`; `junk` and `junk_coo` give the
indeterminate contents of the arrays created without initialiser. Allocation failure
(`std::bad_alloc`, fatal) is not modelled. The product `ginfo.num_edges * 2` of line 94 is
that of natural numbers: this definition covers the runs in which the product does not
wrap `size_t` and every `new` yields its array; `GraphStd.allocate_size_t` covers every
run. -/
def GraphStd.allocate (T : TypeParams) (g : GraphStd) (ginfo : GInfo) (rnd : Nat → Bool)
    (junk : Nat → Nat) (junk_coo : Nat → Nat × Nat) : Option GraphStd :=
  if ginfo.num_vertices = 0 ∨ ginfo.num_edges = 0 then none
  else
    let s := if g._structure.is_direction_set then g._structure
             else g._structure.add_direction ginfo.direction
    let u2d := decide (ginfo.direction = Direction.UNDIRECTED) && s.is_directed
    let d2u := decide (ginfo.direction = Direction.DIRECTED) && s.is_undirected
    let bitmask := if d2u then g._bitmask
                   else if u2d then (List.range ginfo.num_edges).map rnd
                   else g._bitmask
    let new_num_edges := if d2u then ginfo.num_edges * 2
                         else if u2d then Bitmask_size bitmask
                         else ginfo.num_edges
    if T.vid_max < ginfo.num_vertices ∨ T.eoff_max < new_num_edges then none
    else
      let nV := ginfo.num_vertices
      let nE := new_num_edges
      let h1 : Heap :=
        { g.heap with out_offsets := new_array junk (nV + 1),
                      out_edges := new_array junk nE,
                      out_degrees := new_array_zero nV }
      let g1 : GraphStd :=
        { g with _nV := nV, _nE := nE, _structure := s,
                 _undirected_to_directed := u2d, _directed_to_undirected := d2u,
                 _bitmask := bitmask,
                 _out_offsets := some Addr.out_offsets,
                 _out_edges := some Addr.out_edges,
                 _out_degrees := some Addr.out_degrees,
                 _coo_edges := some ((List.range nE).map junk_coo),
                 heap := h1 }
      if s.is_undirected then
        some { g1 with _in_degrees := g1._out_degrees,
                       _in_offsets := g1._out_offsets,
                       _in_edges := g1._out_edges }
      else if s.is_reverse then
        some { g1 with _in_offsets := some Addr.in_offsets,
                       _in_edges := some Addr.in_edges,
                       _in_degrees := some Addr.in_degrees,
                       heap := { h1 with in_offsets := new_array junk (nV + 1),
                                         in_edges := new_array junk nE,
                                         in_degrees := new_array_zero nV } }
      else some g1

/-- The external reader (not part of the sources) stores edges in the COO buffer that
`allocate` created: afterwards the buffer holds `buf`, cell by cell (cells the reader did
not write keep indeterminate values). -/
def GraphStd.load (g : GraphStd) (buf : List (Nat × Nat)) : GraphStd :=
  { g with _coo_edges := some buf }

/-- Number of leading cells of the COO buffer that `COOtoCSR` reads as the native edge
list: the first half when the second half is to receive the reversed edges (line 165),
all `_nE` cells otherwise. -/
def GraphStd.native_count (g : GraphStd) : Nat :=
  if g._directed_to_undirected || g._stored_undirected then g._nE / 2 else g._nE

/-! ## COOtoCSR: preparation of the edge buffer (lines 165-226) -/

/-- Order of `std::pair`: lexicographic on `(first, second)`. -/
def coo_le (a b : Nat × Nat) : Prop := a.1 < b.1 ∨ (a.1 = b.1 ∧ a.2 ≤ b.2)

instance coo_le_decidable (a b : Nat × Nat) : Decidable (coo_le a b) :=
  inferInstanceAs (Decidable (a.1 < b.1 ∨ (a.1 = b.1 ∧ a.2 ≤ b.2)))

instance coo_le_total : IsTotal (Nat × Nat) coo_le :=
  ⟨fun a b => by unfold coo_le; omega⟩

instance coo_le_trans : IsTrans (Nat × Nat) coo_le :=
  ⟨fun a b c h1 h2 => by unfold coo_le at *; omega⟩

/-- Loop of lines 168-174: for every `i < half`, unless the edge in cell `i` is a
self-loop, its reverse is stored in cell `k` and `k` advances. The state is the buffer
and `k`. -/
def reverse_loop (coo : List (Nat × Nat)) (half : Nat) : List (Nat × Nat) × Nat :=
  (List.range half).foldl
    (fun st i =>
      if (st.1.getD i (0, 0)).1 = (st.1.getD i (0, 0)).2 then st
      else (st.1.set st.2 ((st.1.getD i (0, 0)).2, (st.1.getD i (0, 0)).1), st.2 + 1))
    (coo, half)

/-- Call `std::sort(_coo_edges, _coo_edges + n)`: the first `n` cells are put in
non-decreasing order, the other cells are untouched. Equal pairs are indistinguishable, so
the result does not depend on the sorting algorithm. -/
def std_sort (n : Nat) (coo : List (Nat × Nat)) : List (Nat × Nat) :=
  (coo.take n).insertionSort coo_le ++ coo.drop n

/-- Result range of `std::unique`: of every run of equal consecutive elements one is
kept. -/
def std_unique : List (Nat × Nat) → List (Nat × Nat)
  | [] => []
  | [a] => [a]
  | a :: b :: t => if a = b then std_unique (b :: t) else a :: std_unique (b :: t)

/-- Lines 189-196 on the pair (buffer, edge count): sort the first `nE` cells, collapse
equal neighbours, and make the edge count the length of the collapsed range. The cells
past the collapsed range are left with unspecified values by `std::unique`; the model
keeps what the sort put there, and nothing later reads them. -/
def dedup (c : List (Nat × Nat) × Nat) : List (Nat × Nat) × Nat :=
  ((std_unique ((std_sort c.2 c.1).take c.2)) ++
      (std_sort c.2 c.1).drop (std_unique ((std_sort c.2 c.1).take c.2)).length,
   (std_unique ((std_sort c.2 c.1).take c.2)).length)

/-- Loop of lines 201-204: for every `i < nE`, when bit `i` of the bitmask is set the
edge of cell `i` is copied to cell `k` and `k` advances. The state is the buffer and
`k`. -/
def select_loop (bitmask : List Bool) (coo : List (Nat × Nat)) (nE : Nat) :
    List (Nat × Nat) × Nat :=
  (List.range nE).foldl
    (fun st i =>
      if bitmask.getD i false then (st.1.set st.2 (st.1.getD i (0, 0)), st.2 + 1)
      else st)
    (coo, 0)

/-- Loop of lines 216-219: both endpoints of each of the first `nE` edges are replaced by
their images in `random_array`. -/
def remap (random_array : List Nat) (nE : Nat) (coo : List (Nat × Nat)) :
    List (Nat × Nat) :=
  (coo.take nE).map (fun e => (random_array.getD e.1 0, random_array.getD e.2 0)) ++
    coo.drop nE

/-- Lines 165-181 on the pair (buffer, edge count). -/
def GraphStd.phase_reverse (g : GraphStd) (c : List (Nat × Nat) × Nat) :
    List (Nat × Nat) × Nat :=
  if g._directed_to_undirected || g._stored_undirected then reverse_loop c.1 (c.2 / 2)
  else c

/-- Lines 183-206 on the pair (buffer, edge count): deduplication when converting
directed to undirected, selection by the bitmask when converting undirected to directed
(the edge count is not assigned in that branch). -/
def GraphStd.phase_convert (g : GraphStd) (c : List (Nat × Nat) × Nat) :
    List (Nat × Nat) × Nat :=
  if g._directed_to_undirected then dedup c
  else if g._undirected_to_directed then ((select_loop g._bitmask c.1 c.2).1, c.2)
  else c

/-- Lines 208-221 on the pair (buffer, edge count). `random_array` is the shuffled
identity array (the shuffle is seeded from the clock, so it is an input here). -/
def GraphStd.phase_randomize (g : GraphStd) (random_array : List Nat)
    (c : List (Nat × Nat) × Nat) : List (Nat × Nat) × Nat :=
  if g._prop.is_randomize then (remap random_array c.2 c.1, c.2) else c

/-- Lines 222-226 on the pair (buffer, edge count). -/
def GraphStd.phase_sort (g : GraphStd) (c : List (Nat × Nat) × Nat) :
    List (Nat × Nat) × Nat :=
  if g._prop.is_sort && (!g._directed_to_undirected || g._prop.is_randomize) then
    (std_sort c.2 c.1, c.2)
  else c

/-- Lines 165-226 on the pair (buffer, edge count). -/
def GraphStd.prepare_coo (g : GraphStd) (random_array : List Nat) :
    List (Nat × Nat) × Nat :=
  g.phase_sort (g.phase_randomize random_array
    (g.phase_convert (g.phase_reverse (g._coo_edges.getD [], g._nE))))

/-- The graph after lines 165-226: the buffer and the edge count are updated and the
bitmask is freed when it was used. -/
def GraphStd.prepare (g : GraphStd) (random_array : List Nat) : GraphStd :=
  { g with _coo_edges := some (g.prepare_coo random_array).1,
           _nE := (g.prepare_coo random_array).2,
           _bitmask := if !g._directed_to_undirected && g._undirected_to_directed then []
                       else g._bitmask }

/-- The final COO buffer: the first `_nE` cells after lines 165-226, which the
construction of the CSR reads. -/
def GraphStd.final_coo (g : GraphStd) (random_array : List Nat) : List (Nat × Nat) :=
  (g.prepare_coo random_array).1.take (g.prepare_coo random_array).2

/-! ## COOtoCSR: construction of the CSR (lines 231-265) -/

/-- Lines 231-240: degree counting over the edges `es` (the cells `0 .. _nE - 1` of
the buffer, which the loop does not write). -/
def GraphStd.count_degrees (g : GraphStd) (es : List (Nat × Nat)) (h : Heap) : Heap :=
  if g._structure.is_reverse && g._structure.is_directed then
    es.foldl (fun h e => (h.incr g._out_degrees e.1).incr g._in_degrees e.2) h
  else
    es.foldl (fun h e => h.incr g._out_degrees e.1) h

/-- Call `std::partial_sum(src, src + n, dst + 1)`: the running sum of `src[0 .. n - 1]` is
stored in `dst[1 .. n]`. The state is the heap and the running sum. -/
def partial_sum (src : Ptr) (n : Nat) (dst : Ptr) (h : Heap) : Heap :=
  ((List.range n).foldl
    (fun st i => (st.1.write dst (i + 1) (st.2 + st.1.read src i), st.2 + st.1.read src i))
    (h, 0)).1

/-- Lines 245-250: bucket fill of the out-edges. The state is the heap and the
scratch array `tmp`, created zeroed with `_nV` cells. -/
def GraphStd.fill_out (g : GraphStd) (es : List (Nat × Nat)) (h : Heap) : Heap :=
  (es.foldl
    (fun st e =>
      (st.1.write g._out_edges (st.1.read g._out_offsets e.1 + st.2.getD e.1 0) e.2,
       st.2.set e.1 (st.2.getD e.1 0 + 1)))
    (h, new_array_zero g._nV)).1

/-- Lines 255-259: bucket fill of the in-edges, with `tmp` zeroed again by `std::fill`. -/
def GraphStd.fill_in (g : GraphStd) (es : List (Nat × Nat)) (h : Heap) : Heap :=
  (es.foldl
    (fun st e =>
      (st.1.write g._in_edges (st.1.read g._in_offsets e.2 + st.2.getD e.2 0) e.1,
       st.2.set e.2 (st.2.getD e.2 0 + 1)))
    (h, new_array_zero g._nV)).1

/-- Lines 231-260 on the heap, for the edges `es`. -/
def GraphStd.build_csr (g : GraphStd) (es : List (Nat × Nat)) (h : Heap) : Heap :=
  let h1 := g.count_degrees es h
  let h2 := partial_sum g._out_degrees g._nV g._out_offsets (h1.write g._out_offsets 0 0)
  let h3 := g.fill_out es h2
  if g._structure.is_directed && g._structure.is_reverse then
    g.fill_in es
      (partial_sum g._in_degrees g._nV g._in_offsets (h3.write g._in_offsets 0 0))
  else h3

/-- Function `GraphStd::COOtoCSR` (lines 163-268). -/
def GraphStd.COOtoCSR (g : GraphStd) (random_array : List Nat) : GraphStd :=
  let g1 := g.prepare random_array
  { g1 with heap := g1.build_csr (g.final_coo random_array) g1.heap,
            _coo_edges := if g1._structure.is_coo then g1._coo_edges else none }

/-! ## Views of the built graph -/

/-- The cells `a[lo .. hi - 1]` of an array. -/
def slice (a : List Nat) (lo hi : Nat) : List Nat := (a.drop lo).take (hi - lo)

/-- The array `_out_offsets`. -/
def GraphStd.out_offsets (g : GraphStd) : List Nat :=
  (List.range (g._nV + 1)).map (g.heap.read g._out_offsets)

/-- The array `_out_degrees`. -/
def GraphStd.out_degrees (g : GraphStd) : List Nat :=
  (List.range g._nV).map (g.heap.read g._out_degrees)

/-- The cells `_out_edges[_out_offsets[v] .. _out_offsets[v + 1] - 1]`. -/
def GraphStd.out_neighbours (g : GraphStd) (v : Nat) : List Nat :=
  (List.range' (g.heap.read g._out_offsets v)
      (g.heap.read g._out_offsets (v + 1) - g.heap.read g._out_offsets v)).map
    (g.heap.read g._out_edges)

/-- The cells `_in_edges[_in_offsets[v] .. _in_offsets[v + 1] - 1]`. -/
def GraphStd.in_neighbours (g : GraphStd) (v : Nat) : List Nat :=
  (List.range' (g.heap.read g._in_offsets v)
      (g.heap.read g._in_offsets (v + 1) - g.heap.read g._in_offsets v)).map
    (g.heap.read g._in_edges)

end graph

namespace graph

/-! ## Export (lines 298-370) -/

/-- Constant `structure_prop::DIRECTED` as a structure descriptor. -/
def DIRECTED : StructureProp :=
  { direction := some Direction.DIRECTED, reverse := false, coo := false }

/-- Value `DIRECTED | REVERSE`. -/
def DIRECTED_REVERSE : StructureProp :=
  { direction := some Direction.DIRECTED, reverse := true, coo := false }

/-- One item of the binary file: a character of the type tag or an integer (vertex
count, edge count, array cell), or the structure flags. -/
inductive Word
  | num (n : Nat)
  | flags (s : StructureProp)
  deriving DecidableEq, Repr

/-- The cells `p[0 .. n - 1]`. -/
def Heap.cells (h : Heap) (p : Ptr) (n : Nat) : List Nat := (List.range n).map (h.read p)

/-- Function `GraphStd::writeBinary` (lines 298-332): the items handed to
`memory_mapped.write`, in order. -/
def GraphStd.writeBinary (T : TypeParams) (g : GraphStd) : List Word :=
  if g._structure.is_directed && g._structure.is_reverse then
    T.class_id.map Word.num ++
      [Word.num g._nV, Word.num g._nE, Word.flags DIRECTED_REVERSE] ++
      (g.heap.cells g._out_offsets (g._nV + 1)).map Word.num ++
      (g.heap.cells g._in_offsets (g._nV + 1)).map Word.num ++
      (g.heap.cells g._out_edges g._nE).map Word.num ++
      (g.heap.cells g._in_edges g._nE).map Word.num
  else
    T.class_id.map Word.num ++
      [Word.num g._nV, Word.num g._nE, Word.flags DIRECTED] ++
      (g.heap.cells g._out_offsets (g._nV + 1)).map Word.num ++
      (g.heap.cells g._out_edges g._nE).map Word.num

/-- What a reader recovers from a binary file. -/
structure BinaryGraph where
  nV : Nat
  nE : Nat
  flags : StructureProp
  out_offsets : List Nat
  in_offsets : Option (List Nat)
  out_edges : List Nat
  in_edges : Option (List Nat)
  deriving DecidableEq, Repr

/-- Read `n` integers from the head of the file. -/
def read_nums : Nat → List Word → Option (List Nat × List Word)
  | 0, ws => some ([], ws)
  | n + 1, Word.num k :: ws =>
    match read_nums n ws with
    | some r => some (k :: r.1, r.2)
    | none => none
  | _ + 1, _ => none

/-- Read the arrays that follow the flags: out-offsets, in-offsets if reverse, out-edges,
in-edges if reverse; nothing may remain. -/
def read_arrays (nV nE : Nat) (s : StructureProp) (ws : List Word) : Option BinaryGraph :=
  match read_nums (nV + 1) ws with
  | none => none
  | some (oo, ws1) =>
    if s.reverse then
      match read_nums (nV + 1) ws1 with
      | none => none
      | some (io, ws2) =>
        match read_nums nE ws2 with
        | none => none
        | some (oe, ws3) =>
          match read_nums nE ws3 with
          | some (ie, []) =>
            some { nV := nV, nE := nE, flags := s, out_offsets := oo, in_offsets := some io,
                   out_edges := oe, in_edges := some ie }
          | _ => none
    else
      match read_nums nE ws1 with
      | some (oe, []) =>
        some { nV := nV, nE := nE, flags := s, out_offsets := oo, in_offsets := none,
               out_edges := oe, in_edges := none }
      | _ => none

/-- Modelled from the spec: the reader of the binary format is external. It decodes the
documented layout `[type-tag][vertex_count][edge_count][structure flags][out-offsets:
vertex_count+1][in-offsets: vertex_count+1, only if reverse][out-edges: edge_count]
[in-edges: edge_count, only if reverse]`, and fails on any other shape or type tag. -/
def readBinary (tag : List Nat) (ws : List Word) : Option BinaryGraph :=
  match read_nums tag.length ws with
  | none => none
  | some (t, ws1) =>
    if t = tag then
      match ws1 with
      | Word.num nV :: Word.num nE :: Word.flags s :: ws2 => read_arrays nV nE s ws2
      | _ => none
    else none

/-- Successive insertions `fout << s1 << s2 << ...` into the output stream. -/
def stream : List String → String
  | [] => ""
  | s :: ss => s ++ stream ss

/-- The lines written by the loops of lines 345-348 of `writeMarket`. -/
def GraphStd.market_lines (g : GraphStd) : List String :=
  (List.range g._nV).flatMap (fun i =>
    (List.range' (g.heap.read g._out_offsets i)
        (g.heap.read g._out_offsets (i + 1) - g.heap.read g._out_offsets i)).map
      (fun j => toString (i + 1) ++ " " ++ toString (g.heap.read g._out_edges j + 1) ++ "\n"))

/-- Function `GraphStd::writeMarket` (lines 337-350): the text written to the file. -/
def GraphStd.writeMarket (g : GraphStd) : String :=
  "%%MatrixMarket matrix coordinate pattern general\n" ++
    (toString g._nV ++ " " ++ toString g._nV ++ " " ++ toString g._nE ++ "\n") ++
    stream g.market_lines

/-- The line written for vertex `i` by lines 362-367 of `writeDimacs10th`. -/
def GraphStd.dimacs_line (g : GraphStd) (i : Nat) : String :=
  stream ((List.range' (g.heap.read g._out_offsets i)
        (g.heap.read g._out_offsets (i + 1) - g.heap.read g._out_offsets i)).map
      (fun j => toString (g.heap.read g._out_edges j + 1) ++
        (if j < g.heap.read g._out_offsets (i + 1) - 1 then " " else ""))) ++ "\n"

/-- Function `GraphStd::writeDimacs10th` (lines 352-370): the text written to the file. -/
def GraphStd.writeDimacs10th (g : GraphStd) : String :=
  (toString g._nV ++ " " ++ toString g._nE ++ " 100\n") ++
    stream ((List.range g._nV).map g.dimacs_line)

/-- A list of words joined by single spaces. -/
def join_spaces : List String → String
  | [] => ""
  | [a] => a
  | a :: b :: t => a ++ " " ++ join_spaces (b :: t)

/-- Market text as the format describes it: the banner, the size line, then one line
`src+1 dst+1` for every vertex in ascending order and every neighbour in stored order. -/
def market_text (nV nE : Nat) (adj : Nat → List Nat) : String :=
  "%%MatrixMarket matrix coordinate pattern general\n" ++
    (toString nV ++ " " ++ toString nV ++ " " ++ toString nE ++ "\n") ++
    stream ((List.range nV).flatMap (fun i =>
      (adj i).map (fun n => toString (i + 1) ++ " " ++ toString (n + 1) ++ "\n")))

/-- Dimacs10th text as the format describes it: the header, then for every vertex the
line of its neighbours plus one, separated by single spaces. -/
def dimacs_text (nV nE : Nat) (adj : Nat → List Nat) : String :=
  (toString nV ++ " " ++ toString nE ++ " 100\n") ++
    stream ((List.range nV).map (fun i =>
      join_spaces ((adj i).map (fun n => toString (n + 1))) ++ "\n"))

/-! ## Array-level descriptions of the loops

The loops of the CSR construction, restated on the single arrays they act on; the heap
versions above are shown to compute these. -/

/-- Degree counting on one array: cell `k` is incremented once for every occurrence of
`k` in `ks`. -/
def count_keys (d : List Nat) (ks : List Nat) : List Nat :=
  ks.foldl (fun d k => d.set k (d.getD k 0 + 1)) d

/-- Running sums `acc + l[0]`, `acc + l[0] + l[1]`, ... of a list. -/
def running_sum (acc : Nat) : List Nat → List Nat
  | [] => []
  | x :: xs => (acc + x) :: running_sum (acc + x) xs

/-- Bucket fill on the arrays: `kv` lists the pairs (bucket, value) in buffer order;
the state is the edge array and the scratch counters. -/
def fill_buckets (off : List Nat) (kv : List (Nat × Nat)) (st : List Nat × List Nat) :
    List Nat × List Nat :=
  kv.foldl
    (fun st e => (st.1.set (off.getD e.1 0 + st.2.getD e.1 0) e.2,
                  st.2.set e.1 (st.2.getD e.1 0 + 1)))
    st

/-- Values of the pairs of `kv` whose bucket is `k`, in order. -/
def bucket (kv : List (Nat × Nat)) (k : Nat) : List Nat :=
  (kv.filter (fun e => e.1 = k)).map Prod.snd

/-- Invariant of the bucket fill after the pairs `p` have been placed: the arrays keep
their lengths, counter `k` holds the number of pairs of bucket `k` placed so far, and
these pairs occupy, in order, the first cells of the bucket's range. -/
def FillInv (off : List Nat) (nV N : Nat) (p : List (Nat × Nat))
    (st : List Nat × List Nat) : Prop :=
  st.1.length = N ∧ st.2.length = nV ∧
  (∀ k, k < nV → st.2.getD k 0 = (p.map Prod.fst).count k) ∧
  (∀ k, k < nV → ∀ j, j < (p.map Prod.fst).count k →
    st.1.getD (off.getD k 0 + j) 0 = (bucket p k).getD j 0)

/-- Reverses of the edges of `es` that are not self-loops, in order. -/
def reversed_edges (es : List (Nat × Nat)) : List (Nat × Nat) :=
  (es.filter (fun e => decide (e.1 ≠ e.2))).map (fun e => (e.2, e.1))

/-- Both endpoints of every edge are vertex ids below `nV`. -/
def Bounded (nV : Nat) (es : List (Nat × Nat)) : Prop :=
  ∀ e ∈ es, e.1 < nV ∧ e.2 < nV

instance Bounded_decidable (nV : Nat) (es : List (Nat × Nat)) : Decidable (Bounded nV es) :=
  inferInstanceAs (Decidable (∀ e ∈ es, e.1 < nV ∧ e.2 < nV))

/-- A pair (buffer, edge count) whose buffer has `L` cells, whose count does not exceed
`L`, and whose first `count` edges have endpoints below `nV`. -/
def CooOk (nV L : Nat) (c : List (Nat × Nat) × Nat) : Prop :=
  c.1.length = L ∧ c.2 ≤ L ∧ Bounded nV (c.1.take c.2)

/-- The arrays `deg`, `off` and `edges` are the CSR of the pairs `kv` (bucket, value) on
`nV` buckets: `deg` counts the pairs of each bucket, cell `j` of `off` is the number of
pairs whose bucket is below `j`, and the values of bucket `k` fill, in order, the cells of
`edges` from `off[k]` on. -/
def IsCSR (nV : Nat) (kv : List (Nat × Nat)) (deg off edges : List Nat) : Prop :=
  deg = count_keys (new_array_zero nV) (kv.map Prod.fst) ∧
  off.length = nV + 1 ∧
  (∀ j, j ≤ nV → off.getD j 0 = (kv.map Prod.fst).countP (fun x => decide (x < j))) ∧
  (∀ k, k < nV → ∀ j, j < (kv.map Prod.fst).count k →
    edges.getD (off.getD k 0 + j) 0 = (bucket kv k).getD j 0)

/-- The out-pointers are those set by `allocate`, the out-degrees are zero and the
out-offsets have `_nV + 1` cells. -/
def OutReady (g : GraphStd) : Prop :=
  g._out_offsets = some Addr.out_offsets ∧ g._out_edges = some Addr.out_edges ∧
  g._out_degrees = some Addr.out_degrees ∧
  g.heap.out_degrees = new_array_zero g._nV ∧ g.heap.out_offsets.length = g._nV + 1

/-- The in-pointers are those of the independent arrays of `allocate`, the in-degrees are
zero and the in-offsets have `_nV + 1` cells. -/
def InReady (g : GraphStd) : Prop :=
  g._in_offsets = some Addr.in_offsets ∧ g._in_edges = some Addr.in_edges ∧
  g._in_degrees = some Addr.in_degrees ∧
  g.heap.in_degrees = new_array_zero g._nV ∧ g.heap.in_offsets.length = g._nV + 1

/-- The graph after the reader has stored `buf` in the COO buffer of `g` and `COOtoCSR`
has run with the shuffled array `random_array`. -/
def GraphStd.built (g : GraphStd) (buf : List (Nat × Nat)) (random_array : List Nat) :
    GraphStd :=
  (g.load buf).COOtoCSR random_array

/-- The pairs `(v, _out_edges[j])` read from the CSR, vertex by vertex. -/
def GraphStd.csr_pairs (g : GraphStd) : List (Nat × Nat) :=
  (List.range g._nV).flatMap (fun v => (g.out_neighbours v).map (fun d => (v, d)))

/-! ## Concrete inputs -/

/-- The instantiation `GraphStd<int, int>`; the type tag is the two characters "ii". -/
def ex_T : TypeParams :=
  { sizeof_vid := 4, sizeof_eoff := 4, sizeof_structure := 4, class_id := [105, 105] }

/-- A fresh graph whose requested structure leaves the direction unset and asks for a
reverse view, with the sort and randomize options on. -/
def ex_g0 : GraphStd :=
  GraphStd.create { direction := none, reverse := true, coo := false }
    { print := false, sort := true, randomize := true } false

/-- Header of a directed edge list with 3 vertices and 4 edges. -/
def ex_ginfo : GInfo :=
  { num_vertices := 3, num_edges := 4, num_lines := 4, direction := Direction.DIRECTED }

/-- The graph `ex_g0` after `allocate`. -/
def ex_g1 : GraphStd :=
  (ex_g0.allocate ex_T ex_ginfo (fun _ => true) (fun _ => 7) (fun _ => (9, 9))).getD ex_g0

/-- A directed edge list on 3 vertices with a repeated edge and a self-loop. -/
def ex_buf : List (Nat × Nat) := [(0, 1), (2, 2), (0, 1), (1, 0)]

/-- A shuffled identity array on 3 vertices. -/
def ex_ra : List Nat := [2, 0, 1]

/-- The array `_in_degrees`. -/
def GraphStd.in_degrees (g : GraphStd) : List Nat :=
  (List.range g._nV).map (g.heap.read g._in_degrees)

/-- Destructor `~GraphStd` (lines 150-161): the pointers handed to `delete[]`, in order,
among the integer arrays (`delete[]` of `nullptr` does nothing). -/
def GraphStd.destructor_deletes (g : GraphStd) : List Ptr :=
  [g._out_offsets, g._out_edges, g._out_degrees] ++
    (if g._structure.is_directed && g._structure.is_reverse then
      [g._in_offsets, g._in_edges, g._in_degrees]
     else [])

/-- The graph after `allocate` when an undirected structure is requested for the directed
edge list of `ex_ginfo` (directed to undirected: 8 cells). -/
def ex_g1u : GraphStd :=
  ((GraphStd.create { direction := some Direction.UNDIRECTED, reverse := false, coo := false }
      { print := false, sort := false, randomize := false } false).allocate
    ex_T ex_ginfo (fun _ => true) (fun _ => 7) (fun _ => (9, 9))).getD ex_g0

/-- The COO buffer of `ex_g1u` after the reader stored the 4 native edges: the second
half holds indeterminate values. -/
def ex_bufu : List (Nat × Nat) :=
  [(0, 1), (2, 2), (0, 1), (1, 0), (9, 9), (9, 9), (9, 9), (9, 9)]

/-- A directed graph with 3 vertices and the edges (0,1) and (1,2), built without
conversion. -/
def ex_g3 : GraphStd :=
  (((GraphStd.create { direction := none, reverse := false, coo := false }
      { print := false, sort := false, randomize := false } false).allocate
    ex_T { num_vertices := 3, num_edges := 2, num_lines := 2,
           direction := Direction.DIRECTED }
    (fun _ => true) (fun _ => 7) (fun _ => (9, 9))).getD ex_g0).built
    [(0, 1), (1, 2)] []

/-- The graph after `allocate` when a directed structure is requested for an
undirected edge list of 4 edges, with the bitmask 1010 (undirected to directed: 2 cells). -/
def ex_g1d : GraphStd :=
  ((GraphStd.create { direction := some Direction.DIRECTED, reverse := false, coo := false }
      { print := false, sort := false, randomize := false } false).allocate
    ex_T { num_vertices := 3, num_edges := 4, num_lines := 4,
           direction := Direction.UNDIRECTED }
    (fun i => decide (i % 2 = 0)) (fun _ => 7) (fun _ => (9, 9))).getD ex_g0

/-! ## Conversion, statistics and file size -/

/-- Inverse of a permutation given as an array: cell `j` holds the position of `j` in
`p`. -/
def inverse_perm (p : List Nat) : List Nat :=
  (List.range p.length).map (fun j => p.indexOf j)

/-- Strict order of `std::pair`: lexicographic on `(first, second)`. -/
def coo_lt (a b : Nat × Nat) : Prop := a.1 < b.1 ∨ (a.1 = b.1 ∧ a.2 < b.2)

instance coo_lt_decidable (a b : Nat × Nat) : Decidable (coo_lt a b) :=
  inferInstanceAs (Decidable (a.1 < b.1 ∨ (a.1 = b.1 ∧ a.2 < b.2)))

instance coo_lt_trans : IsTrans (Nat × Nat) coo_lt :=
  ⟨fun a b c h1 h2 => by unfold coo_lt at *; omega⟩

instance coo_lt_irrefl : IsIrrefl (Nat × Nat) coo_lt :=
  ⟨fun a h => by unfold coo_lt at h; omega⟩

/-- Vertex `v` after the randomization phase: its image in `random_array` when the
randomize option is on, `v` itself otherwise. -/
def GraphStd.renamed (g : GraphStd) (random_array : List Nat) (v : Nat) : Nat :=
  if g._prop.is_randomize then random_array.getD v 0 else v

/-- The graph after `allocate` when an undirected structure is requested, with the
randomize option on, for a directed edge list of 2 edges on 3 vertices (4 cells). -/
def ex_g1r : GraphStd :=
  ((GraphStd.create { direction := some Direction.UNDIRECTED, reverse := false, coo := false }
      { print := false, sort := false, randomize := true } false).allocate
    ex_T { num_vertices := 3, num_edges := 2, num_lines := 2,
           direction := Direction.DIRECTED }
    (fun _ => true) (fun _ => 7) (fun _ => (9, 9))).getD ex_g0

/-- The COO buffer of `ex_g1r` after the reader stored the native edges (0,0) and (1,2). -/
def ex_bufr : List (Nat × Nat) := [(0, 0), (1, 2), (9, 9), (9, 9)]

/-- The graph after `allocate` when an undirected structure is requested for the directed
edge list (0,1), (1,0), (2,2) on 3 vertices (6 cells). -/
def ex_g1l : GraphStd :=
  ((GraphStd.create { direction := some Direction.UNDIRECTED, reverse := false, coo := false }
      { print := false, sort := false, randomize := false } false).allocate
    ex_T { num_vertices := 3, num_edges := 3, num_lines := 3,
           direction := Direction.DIRECTED }
    (fun _ => true) (fun _ => 7) (fun _ => (9, 9))).getD ex_g0

/-- The COO buffer of `ex_g1l` after the reader stored the three native edges. -/
def ex_bufl : List (Nat × Nat) := [(0, 1), (1, 0), (2, 2), (9, 9), (9, 9), (9, 9)]

/-- The edges `e[i]` whose bit `b[i]` is set, in their original order. -/
def selected_edges (b : List Bool) (e : List (Nat × Nat)) : List (Nat × Nat) :=
  ((e.zip b).filter (fun p => p.2)).map Prod.fst

/-- An undirected edge list of 4 edges on 3 vertices. -/
def ex_edges4 : List (Nat × Nat) := [(0, 1), (1, 2), (2, 0), (0, 2)]

/-- The graph after `allocate` when a directed structure is requested for the undirected
edge list `ex_edges4`, with the bitmask 0101 (bits 1 and 3 set): 2 cells. -/
def ex_g1m : GraphStd :=
  ((GraphStd.create { direction := some Direction.DIRECTED, reverse := false, coo := false }
      { print := false, sort := false, randomize := false } false).allocate
    ex_T { num_vertices := 3, num_edges := 4, num_lines := 4,
           direction := Direction.UNDIRECTED }
    (fun i => decide (i % 2 = 1)) (fun _ => 7) (fun _ => (9, 9))).getD ex_g0

/-- Lines 302-315 of `writeBinary`: the size of the mapped region, in bytes. -/
def GraphStd.writeBinary_file_size (T : TypeParams) (g : GraphStd) : Nat :=
  let base_size := T.sizeof_vid + T.sizeof_eoff + T.sizeof_structure
  let file_size1 := (g._nV + 1) * T.sizeof_eoff + g._nE * T.sizeof_vid
  let twice := g._structure.is_directed && g._structure.is_reverse
  let file_size := base_size + (if twice then file_size1 * 2 else file_size1)
  file_size + T.class_id.length

/-- Lines 319-331 of `writeBinary`: the arguments of `memory_mapped.write`, each a pair
(number of elements, size of one element in bytes). The characters of the type tag have
size 1; `struct_tmp` has the type of the structure descriptor. -/
def GraphStd.writeBinary_items (T : TypeParams) (g : GraphStd) : List (Nat × Nat) :=
  if g._structure.is_directed && g._structure.is_reverse then
    [(T.class_id.length, 1), (1, T.sizeof_vid), (1, T.sizeof_eoff),
     (1, T.sizeof_structure),
     (g._nV + 1, T.sizeof_eoff), (g._nV + 1, T.sizeof_eoff),
     (g._nE, T.sizeof_vid), (g._nE, T.sizeof_vid)]
  else
    [(T.class_id.length, 1), (1, T.sizeof_vid), (1, T.sizeof_eoff),
     (1, T.sizeof_structure),
     (g._nV + 1, T.sizeof_eoff), (g._nE, T.sizeof_vid)]

/-- Number of bytes of a list of items. -/
def bytes_of (items : List (Nat × Nat)) : Nat := (items.map (fun p => p.1 * p.2)).sum

/-- Base-2 logarithm rounded down, by repeated halving (`fuel` bounds the number of
halvings). -/
def log2_halving : Nat → Nat → Nat
  | 0, _ => 0
  | fuel + 1, n => if n < 2 then 0 else log2_halving fuel (n / 2) + 1

/-- Modelled from the spec: the header declaring `xlib::log2` is not among the sources.
It gives the base-2 logarithm of a positive integer, rounded down. -/
def xlib_log2 (n : Nat) : Nat := log2_halving n n

/-- Constant `MAX_LOG` of `print_degree_distrib`. -/
def MAX_LOG : Nat := 32

/-- Number of values of the type `int` (32 bits). A cell of an `int` array is held as the
bit pattern of its value in two's complement, a number below `INT_RANGE`; arithmetic on
the cell is modulo `INT_RANGE`. An overflow of `int` is undefined in C++; on the targets
of the library the value wraps, which is what the bit pattern modulo `INT_RANGE` gives. -/
def INT_RANGE : Nat := 2 ^ 32

/-- Value of the `int` whose bit pattern is `pattern`. -/
def int_value (pattern : Nat) : Int :=
  if pattern < 2 ^ 31 then (pattern : Int) else (pattern : Int) - 2 ^ 32

/-- Lines 376-386 of `print_degree_distrib`: the arrays `int distribution[MAX_LOG]` and
`int cumulative[MAX_LOG]` after the loop over the vertices, as bit patterns:
`distribution[log_value]++` and `cumulative[log_value] += degree` are additions of
`int`. -/
def GraphStd.degree_distrib (g : GraphStd) : List Nat × List Nat :=
  (List.range g._nV).foldl
    (fun st i =>
      if g.heap.read g._out_degrees i = 0 then st
      else
        (st.1.set (xlib_log2 (g.heap.read g._out_degrees i))
            ((st.1.getD (xlib_log2 (g.heap.read g._out_degrees i)) 0 + 1) % INT_RANGE),
         st.2.set (xlib_log2 (g.heap.read g._out_degrees i))
            ((st.2.getD (xlib_log2 (g.heap.read g._out_degrees i)) 0 +
              g.heap.read g._out_degrees i) % INT_RANGE)))
    (List.replicate MAX_LOG 0, List.replicate MAX_LOG 0)

/-- A directed graph on 5 vertices with the out-degrees 0, 1, 1, 2, 4, built without
conversion. -/
def ex_g5 : GraphStd :=
  (((GraphStd.create { direction := none, reverse := false, coo := false }
      { print := false, sort := false, randomize := false } false).allocate
    ex_T { num_vertices := 5, num_edges := 8, num_lines := 8,
           direction := Direction.DIRECTED }
    (fun _ => true) (fun _ => 7) (fun _ => (9, 9))).getD ex_g0).built
    [(1, 0), (2, 0), (3, 0), (3, 1), (4, 0), (4, 1), (4, 2), (4, 3)] []

/-- Read of `distribution[i]` for a signed index `i`: the cell of the array when `i` is
within it, and otherwise `junk`, whatever the memory next to the array holds. -/
def read_bucket (distribution : List Nat) (junk : Nat) (i : Int) : Nat :=
  if 0 ≤ i ∧ i < distribution.length then distribution.getD i.toNat 0 else junk

/-- Line 397 of `print_degree_distrib`, `while (pos >= 0 && distribution[--pos] == 0);`,
from the value `pos`: one unit of `fuel` per evaluation of the condition. The result is the
final `pos` with the indices at which `distribution` was read, in the order of the reads
(`reads` holds those made so far), and `none` when the fuel runs out. -/
def scan_back (distribution : List Nat) (junk : Nat) :
    Nat → Int → List Int → Option (Int × List Int)
  | 0, _, _ => none
  | fuel + 1, pos, reads =>
    if 0 ≤ pos then
      if read_bucket distribution junk (pos - 1) = 0 then
        scan_back distribution junk fuel (pos - 1) (reads ++ [pos - 1])
      else some (pos - 1, reads ++ [pos - 1])
    else some (pos, reads)

/-- Lines 396-397 of `print_degree_distrib`: `int pos = MAX_LOG;` and the backwards scan
over the array `distribution` filled by the loop of lines 380-386. -/
def GraphStd.degree_scan (g : GraphStd) (junk : Nat) : Option (Int × List Int) :=
  scan_back g.degree_distrib.1 junk (MAX_LOG + 2) MAX_LOG []

/-- Loops of lines 404 and 412 of `print_degree_distrib`, `for (i = 0; i <= pos; i++)`: the
buckets reported for a final value `pos` of the scan. -/
def reported_buckets (pos : Int) : List Nat := List.range (pos + 1).toNat

/-- A graph with 1 vertex built for a directed structure from an undirected list with 1
edge when the sampling bitmask has no bit set: no edge is left, the only degree is 0. -/
def ex_gz : GraphStd :=
  (((GraphStd.create { direction := some Direction.DIRECTED, reverse := false, coo := false }
      { print := false, sort := false, randomize := false } false).allocate
    ex_T { num_vertices := 1, num_edges := 1, num_lines := 1,
           direction := Direction.UNDIRECTED }
    (fun _ => false) (fun _ => 7) (fun _ => (9, 9))).getD ex_g0).built [] []

/-! ## Write indices, CSR constructor and degree analysis -/

/-- Lines 245-250 of `COOtoCSR` with the write indices recorded: the indices
`_out_offsets[src] + tmp[src]` of the cells of `_out_edges` that the bucket fill writes, in
the order of the edges. The state is the heap and `tmp` as in `fill_out`, with the list
of the indices written so far. -/
def GraphStd.fill_out_writes (g : GraphStd) (es : List (Nat × Nat)) (h : Heap) : List Nat :=
  (es.foldl
    (fun st e =>
      ((st.1.1.write g._out_edges (st.1.1.read g._out_offsets e.1 + st.1.2.getD e.1 0) e.2,
        st.1.2.set e.1 (st.1.2.getD e.1 0 + 1)),
       st.2 ++ [st.1.1.read g._out_offsets e.1 + st.1.2.getD e.1 0]))
    ((h, new_array_zero g._nV), [])).2

/-- Write indices of the bucket fill of the out-edges within lines 231-250, for the edges
`es`: the fill runs on the heap left by the degree count and the prefix sum. -/
def GraphStd.build_csr_writes (g : GraphStd) (es : List (Nat × Nat)) (h : Heap) : List Nat :=
  g.fill_out_writes es
    (partial_sum g._out_degrees g._nV g._out_offsets
      ((g.count_degrees es h).write g._out_offsets 0 0))

/-- Write indices of the bucket fill of the out-edges within `COOtoCSR`. -/
def GraphStd.COOtoCSR_writes (g : GraphStd) (random_array : List Nat) : List Nat :=
  (g.prepare random_array).build_csr_writes (g.final_coo random_array)
    (g.prepare random_array).heap

/-- Write indices of a bucket fill on the arrays: `off` holds the offsets, `tmp` the
scratch counters. -/
def fill_writes (off : List Nat) : List (Nat × Nat) → List Nat → List Nat
  | [], _ => []
  | e :: t, tmp =>
    (off.getD e.1 0 + tmp.getD e.1 0) :: fill_writes off t (tmp.set e.1 (tmp.getD e.1 0 + 1))

/-- Position of the key at index `i` in a stable counting sort of `ks`: the number of keys
below it plus the number of equal keys before it. -/
def stable_rank (ks : List Nat) (i : Nat) : Nat :=
  ks.countP (fun x => decide (x < ks.getD i 0)) + (ks.take i).count (ks.getD i 0)

/-- The graph after `allocate` for the directed edge list of `ex_ginfo` when no direction
is requested and no option is set (4 cells). -/
def ex_g1p : GraphStd :=
  ((GraphStd.create { direction := none, reverse := false, coo := false }
      { print := false, sort := false, randomize := false } false).allocate
    ex_T ex_ginfo (fun _ => true) (fun _ => 7) (fun _ => (9, 9))).getD ex_g0

/-- A directed edge list on 3 vertices whose sources are not in order. -/
def ex_bufp : List (Nat × Nat) := [(2, 0), (0, 1), (2, 1), (0, 2)]

/-- Constant `structure_prop::UNDIRECTED` as a structure descriptor. -/
def UNDIRECTED : StructureProp :=
  { direction := some Direction.UNDIRECTED, reverse := false, coo := false }

/-- Call `std::copy(src, src + n, dst)`: cell `i` of `dst` receives `src[i]`, for every
`i < n`. -/
def std_copy (src : List Nat) (n : Nat) (dst : Ptr) (h : Heap) : Heap :=
  (List.range n).foldl (fun h i => h.write dst i (src.getD i 0)) h

/-- Constructor `GraphStd(csr_offsets, nV, csr_edges, nE)` (lines 49-59). The base
constructor `GraphBase(nV, nE, structure_prop::UNDIRECTED)` is declared in a header that is
not among the sources and is modelled from the spec: it records the two counts and the
structure and leaves every pointer `nullptr`; `p` is the parsing property it leaves. The
result is `none` when `allocate` ends the program. The difference
`csr_offsets[i + 1] - csr_offsets[i]` is that of natural numbers: it is the value the code
stores wherever the offsets do not decrease. -/
def GraphStd.create_csr (T : TypeParams) (p : ParsingProp) (csr_offsets : List Nat) (nV : Nat)
    (csr_edges : List Nat) (nE : Nat) (rnd : Nat → Bool) (junk : Nat → Nat)
    (junk_coo : Nat → Nat × Nat) : Option GraphStd :=
  match ({ (GraphStd.create UNDIRECTED p false) with _nV := nV, _nE := nE }).allocate T
      { num_vertices := nV, num_edges := nE, num_lines := nE,
        direction := Direction.UNDIRECTED } rnd junk junk_coo with
  | none => none
  | some g =>
    let h1 := std_copy csr_offsets (nV + 1) g._out_offsets g.heap
    let h2 := std_copy csr_edges nE g._out_edges h1
    let h3 := (List.range nV).foldl
      (fun h i =>
        h.write g._out_degrees i (csr_offsets.getD (i + 1) 0 - csr_offsets.getD i 0)) h2
    some { g with heap := h3 }

/-- A CSR on 3 vertices with the 4 edges 0-1, 0-2, 1-0, 2-0. -/
def ex_csr_offsets : List Nat := [0, 2, 3, 4]

/-- Edge array of the CSR `ex_csr_offsets`. -/
def ex_csr_edges : List Nat := [1, 2, 0, 0]

/-- Loop of lines 447-465 of `print_degree_analysis`: the array cells it reads, as pairs
(pointer, index). In every iteration `i < _nV` the condition of line 448 reads
`_out_degrees[i]` and the condition of line 450 reads `_in_degrees[i]`, whatever the
data; the other statements of the body read these two cells again. -/
def GraphStd.degree_analysis_reads (g : GraphStd) : List (Ptr × Nat) :=
  (List.range g._nV).flatMap (fun i => [(g._out_degrees, i), (g._in_degrees, i)])

/-- The read `p[i]` is defined: `p` points to an array and `i` is within it. -/
def Heap.valid_read (h : Heap) (p : Ptr) (i : Nat) : Prop :=
  match p with
  | none => False
  | some a => i < (h.get a).length

instance Heap.valid_read_decidable (h : Heap) (p : Ptr) (i : Nat) :
    Decidable (h.valid_read p i) := by
  unfold Heap.valid_read
  cases p with
  | none => exact instDecidableFalse
  | some a => exact Nat.decLt _ _

/-- A directed graph with a reverse view on 3 vertices with the edges (0,1) and (1,2),
built without conversion. -/
def ex_g3r : GraphStd :=
  (((GraphStd.create { direction := none, reverse := true, coo := false }
      { print := false, sort := false, randomize := false } false).allocate
    ex_T { num_vertices := 3, num_edges := 2, num_lines := 2,
           direction := Direction.DIRECTED }
    (fun _ => true) (fun _ => 7) (fun _ => (9, 9))).getD ex_g0).built
    [(0, 1), (1, 2)] []

/-! ## allocate in `size_t` arithmetic, and large degree sums -/

/-- Number of values of `size_t` on the 64-bit targets of the library: arithmetic on
`size_t` is modulo this number. -/
def SIZE_RANGE : Nat := 2 ^ 64

/-- How a run of `allocate` ends: `ended` when the program ends before the counts are
stored (the assertion of line 85 fails, `_bitmask.init` finds no memory and its exception
leaves the `noexcept` function, or `xlib::check_overflow` reports an overflow);
`not_allocated g` when lines 102-103 stored the counts in `g` and a `new` expression of
lines 130-142 then did not yield its array; `allocated g` when every array was created. -/
inductive AllocateResult
  | ended
  | not_allocated (g : GraphStd)
  | allocated (g : GraphStd)

/-- The graph in which the run stored the counts (lines 102-103), if it got there. -/
def AllocateResult.stored : AllocateResult → Option GraphStd
  | AllocateResult.ended => none
  | AllocateResult.not_allocated g => some g
  | AllocateResult.allocated g => some g

/-- The graph with its arrays, if the run created them. -/
def AllocateResult.graph : AllocateResult → Option GraphStd
  | AllocateResult.ended => none
  | AllocateResult.not_allocated _ => none
  | AllocateResult.allocated g => some g

/-- Lines 85-103 of `allocate`, with `new_num_edges` computed in `size_t` as in the source:
the product `ginfo.num_edges * 2` of line 94 wraps modulo `SIZE_RANGE` before
`xlib::check_overflow` sees it. The result is the graph with the structure, the flags,
the bitmask and the counts stored, and `none` when the program ends before: the assertion
of line 85 fails, `_bitmask.init` finds no memory (`bitmask_memory` is false; its
exception leaves the `noexcept` function), or `xlib::check_overflow` reports an
overflow. -/
def GraphStd.allocate_counts (T : TypeParams) (g : GraphStd) (ginfo : GInfo)
    (rnd : Nat → Bool) (bitmask_memory : Bool) : Option GraphStd :=
  if ginfo.num_vertices = 0 ∨ ginfo.num_edges = 0 then none
  else
    let s := if g._structure.is_direction_set then g._structure
             else g._structure.add_direction ginfo.direction
    let u2d := decide (ginfo.direction = Direction.UNDIRECTED) && s.is_directed
    let d2u := decide (ginfo.direction = Direction.DIRECTED) && s.is_undirected
    if (!d2u && u2d && !bitmask_memory) = true then none
    else
      let bitmask := if d2u then g._bitmask
                     else if u2d then (List.range ginfo.num_edges).map rnd
                     else g._bitmask
      let new_num_edges := if d2u then (ginfo.num_edges * 2) % SIZE_RANGE
                           else if u2d then Bitmask_size bitmask
                           else ginfo.num_edges
      if T.vid_max < ginfo.num_vertices ∨ T.eoff_max < new_num_edges then none
      else
        some { g with _nV := ginfo.num_vertices, _nE := new_num_edges, _structure := s,
                      _undirected_to_directed := u2d, _directed_to_undirected := d2u,
                      _bitmask := bitmask }

/-- Lines 129-143 of `allocate` when every `new` expression yields its array. -/
def GraphStd.allocate_arrays (g : GraphStd) (junk : Nat → Nat)
    (junk_coo : Nat → Nat × Nat) : GraphStd :=
  let h1 : Heap :=
    { g.heap with out_offsets := new_array junk (g._nV + 1),
                  out_edges := new_array junk g._nE,
                  out_degrees := new_array_zero g._nV }
  let g1 : GraphStd :=
    { g with _out_offsets := some Addr.out_offsets,
             _out_edges := some Addr.out_edges,
             _out_degrees := some Addr.out_degrees,
             _coo_edges := some ((List.range g._nE).map junk_coo),
             heap := h1 }
  if g._structure.is_undirected then
    { g1 with _in_degrees := g1._out_degrees,
              _in_offsets := g1._out_offsets,
              _in_edges := g1._out_edges }
  else if g._structure.is_reverse then
    { g1 with _in_offsets := some Addr.in_offsets,
              _in_edges := some Addr.in_edges,
              _in_degrees := some Addr.in_degrees,
              heap := { h1 with in_offsets := new_array junk (g._nV + 1),
                                in_edges := new_array junk g._nE,
                                in_degrees := new_array_zero g._nV } }
  else g1

/-- Function `GraphStd::allocate` (lines 84-148) in `size_t` arithmetic: lines 85-103, then
the `try` block. `array_memory` tells whether the `new` expressions of lines 130-142
obtain their memory (otherwise `std::bad_alloc` is caught and `ERROR` ends the run); the
size `_nV + 1` of line 130 overflows `vid_t` when `_nV` is its largest value (undefined),
and no array of that size is taken to exist. -/
def GraphStd.allocate_size_t (T : TypeParams) (g : GraphStd) (ginfo : GInfo)
    (rnd : Nat → Bool) (junk : Nat → Nat) (junk_coo : Nat → Nat × Nat)
    (bitmask_memory array_memory : Bool) : AllocateResult :=
  match g.allocate_counts T ginfo rnd bitmask_memory with
  | none => AllocateResult.ended
  | some g1 =>
    if array_memory = false ∨ T.vid_max < g1._nV + 1 then AllocateResult.not_allocated g1
    else AllocateResult.allocated (g1.allocate_arrays junk junk_coo)

/-- The instantiation `GraphStd<int64_t, int64_t>`; the type tag is not used here. -/
def ex_T64 : TypeParams :=
  { sizeof_vid := 8, sizeof_eoff := 8, sizeof_structure := 4, class_id := [] }

/-- Header of a directed edge list with 3 vertices that announces 2^63 + 1 edges. -/
def ex_ginfo_wrap : GInfo :=
  { num_vertices := 3, num_edges := 2 ^ 63 + 1, num_lines := 2 ^ 63 + 1,
    direction := Direction.DIRECTED }

/-- The run of `allocate` for the header `ex_ginfo_wrap` when an undirected structure is
requested (directed to undirected), with memory for every array. -/
def ex_alloc_wrap : AllocateResult :=
  (GraphStd.create { direction := some Direction.UNDIRECTED, reverse := false, coo := false }
      { print := false, sort := false, randomize := false } false).allocate_size_t
    ex_T64 ex_ginfo_wrap (fun _ => true) (fun _ => 7) (fun _ => (9, 9)) true true

/-- Offsets of a CSR on 2 vertices of out-degree 2^30 each: 2^31 edges. -/
def ex_big_offsets : List Nat := [0, 2 ^ 30, 2 ^ 31]

/-- The fields that `print_degree_distrib` reads, for a graph with 2 vertices of
out-degree 2^30 each, as the CSR constructor of `GraphStd<int64_t, int64_t>` leaves them
for the offsets `ex_big_offsets`. -/
def ex_gbig : GraphStd :=
  { (GraphStd.create UNDIRECTED { print := false, sort := false, randomize := false } false)
    with _nV := 2, _nE := 2 ^ 31, _out_degrees := some Addr.out_degrees,
         heap := { out_offsets := [], out_edges := [], out_degrees := [2 ^ 30, 2 ^ 30],
                   in_offsets := [], in_edges := [], in_degrees := [] } }

/-! ## Heap algebra -/

theorem Heap.get_put_same (h : Heap) (a : Addr) (v : List Nat) : (h.put a v).get a = v := by
  cases a <;> rfl

theorem Heap.get_put_ne (h : Heap) {a b : Addr} (hab : a ≠ b) (v : List Nat) :
    (h.put a v).get b = h.get b := by
  cases a <;> cases b <;> first | rfl | exact absurd rfl hab

theorem Heap.put_put_same (h : Heap) (a : Addr) (v w : List Nat) :
    (h.put a v).put a w = h.put a w := by
  cases a <;> rfl

theorem Heap.put_get_self (h : Heap) (a : Addr) : h.put a (h.get a) = h := by
  cases a <;> rfl

theorem Heap.put_comm (h : Heap) {a b : Addr} (hab : a ≠ b) (v w : List Nat) :
    (h.put a v).put b w = (h.put b w).put a v := by
  cases a <;> cases b <;> first | rfl | exact absurd rfl hab

/-! ## Degree counting -/

theorem count_keys_cons (d : List Nat) (k : Nat) (ks : List Nat) :
    count_keys d (k :: ks) = count_keys (d.set k (d.getD k 0 + 1)) ks := rfl

theorem length_count_keys (ks : List Nat) (d : List Nat) :
    (count_keys d ks).length = d.length := by
  induction ks generalizing d with
  | nil => rfl
  | cons k ks ih => rw [count_keys_cons, ih, List.length_set]

theorem getD_count_keys (ks : List Nat) (d : List Nat) (v : Nat) (hv : v < d.length) :
    (count_keys d ks).getD v 0 = d.getD v 0 + ks.count v := by
  induction ks generalizing d with
  | nil => simp [count_keys]
  | cons k ks ih =>
    rw [count_keys_cons, ih _ (by simpa using hv)]
    by_cases hkv : k = v
    · subst hkv
      simp [List.getD_eq_getElem?_getD, List.getElem?_set, hv]
      omega
    · have hvk : ¬ (v = k) := fun h => hkv h.symm
      simp [List.getD_eq_getElem?_getD, List.getElem?_set, hkv, List.count_cons, hvk]

theorem sum_set_succ (l : List Nat) (i : Nat) (hi : i < l.length) :
    (l.set i (l.getD i 0 + 1)).sum = l.sum + 1 := by
  induction l generalizing i with
  | nil => simp at hi
  | cons x xs ih =>
    cases i with
    | zero => simp; omega
    | succ j =>
      have := ih j (by simpa using hi)
      simp at this ⊢
      omega

theorem sum_count_keys (ks : List Nat) (d : List Nat) (hks : ∀ k ∈ ks, k < d.length) :
    (count_keys d ks).sum = d.sum + ks.length := by
  induction ks generalizing d with
  | nil => simp [count_keys]
  | cons k ks ih =>
    rw [count_keys_cons, ih, sum_set_succ _ _ (hks k (by simp))]
    · simp; omega
    · intro k' hk'
      simpa using hks k' (by simp [hk'])

theorem foldl_incr (a : Addr) (ks : List Nat) (h : Heap) :
    ks.foldl (fun h k => h.incr (some a) k) h = h.put a (count_keys (h.get a) ks) := by
  induction ks generalizing h with
  | nil => simp [count_keys, Heap.put_get_self]
  | cons k ks ih =>
    rw [List.foldl_cons, ih, count_keys_cons]
    simp [Heap.incr, Heap.write, Heap.read, Heap.get_put_same, Heap.put_put_same]

theorem foldl_incr_both {a b : Addr} (hab : a ≠ b) (es : List (Nat × Nat)) (h : Heap) :
    es.foldl (fun h e => (h.incr (some a) e.1).incr (some b) e.2) h =
      (h.put a (count_keys (h.get a) (es.map Prod.fst))).put b
        (count_keys (h.get b) (es.map Prod.snd)) := by
  induction es generalizing h with
  | nil => simp [count_keys, Heap.put_get_self]
  | cons e es ih =>
    rw [List.foldl_cons, ih]
    simp only [List.map_cons, count_keys_cons, Heap.incr, Heap.write, Heap.read]
    rw [Heap.get_put_ne _ hab, Heap.get_put_same, Heap.get_put_ne _ (Ne.symm hab),
      Heap.get_put_same]
    rw [Heap.put_comm _ hab, Heap.put_put_same, Heap.put_comm _ (Ne.symm hab),
      Heap.put_put_same]

/-! ## Prefix sums -/

theorem Heap.get_write_same (h : Heap) (b : Addr) (i v : Nat) :
    (h.write (some b) i v).get b = (h.get b).set i v := by
  simp [Heap.write, Heap.get_put_same]

theorem Heap.get_write_ne (h : Heap) {b c : Addr} (hbc : b ≠ c) (i v : Nat) :
    (h.write (some b) i v).get c = h.get c := by
  simp [Heap.write, Heap.get_put_ne _ hbc]

theorem Heap.read_some (h : Heap) (a : Addr) (i : Nat) :
    h.read (some a) i = (h.get a).getD i 0 := rfl

theorem sum_take_succ_getD (l : List Nat) (n : Nat) :
    (l.take (n + 1)).sum = (l.take n).sum + l.getD n 0 := by
  induction l generalizing n with
  | nil => simp
  | cons x xs ih =>
    cases n with
    | zero => simp
    | succ m =>
      have := ih m
      simp only [List.take_succ_cons, List.sum_cons, List.getD_cons_succ] at this ⊢
      omega

/-- The fold of `partial_sum` after `n` steps: the other arrays are untouched, the
running sum is the sum of the first `n` source cells, and the destination holds the
prefix sums in cells `1 .. n`. -/
theorem partial_sum_fold {a b : Addr} (hab : a ≠ b) (h : Heap) (n : Nat) :
    let F := (List.range n).foldl
      (fun (st : Heap × Nat) i =>
        (st.1.write (some b) (i + 1) (st.2 + st.1.read (some a) i),
         st.2 + st.1.read (some a) i)) (h, 0)
    (∀ c, c ≠ b → F.1.get c = h.get c) ∧
    F.2 = ((h.get a).take n).sum ∧
    (F.1.get b).length = (h.get b).length ∧
    (∀ j, j < (h.get b).length → (F.1.get b).getD j 0 =
      if 1 ≤ j ∧ j ≤ n then ((h.get a).take j).sum else (h.get b).getD j 0) := by
  induction n with
  | zero =>
    simp only [List.range_zero, List.foldl_nil]
    refine ⟨by simp, by simp, by simp, fun j _ => ?_⟩
    rw [if_neg (by omega)]
  | succ n ih =>
    simp only [List.range_succ, List.foldl_append, List.foldl_cons, List.foldl_nil]
    obtain ⟨ih1, ih2, ih3, ih4⟩ := ih
    refine ⟨?_, ?_, ?_, ?_⟩
    · intro c hc
      rw [Heap.get_write_ne _ (Ne.symm hc), ih1 c hc]
    · rw [Heap.read_some, ih1 a hab, ih2, sum_take_succ_getD]
    · rw [Heap.get_write_same, List.length_set, ih3]
    · intro j hj
      rw [Heap.get_write_same, Heap.read_some]
      rw [ih1 a hab, ih2, List.getD_eq_getElem?_getD, List.getElem?_set]
      by_cases hjn : n + 1 = j
      · subst hjn
        have hlt : n + 1 < (_ : List Nat).length := ih3 ▸ hj
        simp [hlt, sum_take_succ_getD]
      · have := ih4 j hj
        rw [List.getD_eq_getElem?_getD] at this
        rw [if_neg hjn, this]
        by_cases h1 : 1 ≤ j ∧ j ≤ n
        · rw [if_pos h1, if_pos ⟨h1.1, by omega⟩]
        · rw [if_neg h1, if_neg (by omega)]

theorem partial_sum_get_ne {a b : Addr} (hab : a ≠ b) (h : Heap) (n : Nat) {c : Addr}
    (hc : c ≠ b) : (partial_sum (some a) n (some b) h).get c = h.get c :=
  (partial_sum_fold hab h n).1 c hc

theorem partial_sum_length {a b : Addr} (hab : a ≠ b) (h : Heap) (n : Nat) :
    ((partial_sum (some a) n (some b) h).get b).length = (h.get b).length :=
  (partial_sum_fold hab h n).2.2.1

theorem partial_sum_getD {a b : Addr} (hab : a ≠ b) (h : Heap) (n j : Nat)
    (hj : j < (h.get b).length) :
    ((partial_sum (some a) n (some b) h).get b).getD j 0 =
      if 1 ≤ j ∧ j ≤ n then ((h.get a).take j).sum else (h.get b).getD j 0 :=
  (partial_sum_fold hab h n).2.2.2 j hj

/-- Lines 242-243 (and 253-254): after `dst[0] = 0` and the partial sum, cell `j` of the
offsets holds the sum of the first `j` degrees. -/
theorem offsets_getD {a b : Addr} (hab : a ≠ b) (h : Heap) (n j : Nat)
    (hlen : (h.get b).length = n + 1) (hj : j ≤ n) :
    ((partial_sum (some a) n (some b) (h.write (some b) 0 0)).get b).getD j 0 =
      ((h.get a).take j).sum := by
  rw [partial_sum_getD hab]
  · rw [Heap.get_write_ne _ (Ne.symm hab)]
    by_cases h1 : 1 ≤ j
    · rw [if_pos ⟨h1, hj⟩]
    · have : j = 0 := by omega
      subst this
      rw [Heap.get_write_same]
      simp [List.getD_eq_getElem?_getD, List.getElem?_set, hlen]
  · rw [Heap.get_write_same, List.length_set, hlen]
    omega

theorem countP_lt_succ (ks : List Nat) (j : Nat) :
    ks.countP (fun k => decide (k < j + 1)) =
      ks.countP (fun k => decide (k < j)) + ks.count j := by
  induction ks with
  | nil => simp
  | cons k ks ih =>
    simp only [List.countP_cons, List.count_cons, ih, decide_eq_true_eq, beq_iff_eq]
    by_cases h1 : k < j
    · have h2 : k < j + 1 := by omega
      have h3 : ¬ (k = j) := by omega
      simp [h1, h2, h3]
      omega
    · by_cases h3 : k = j
      · have h2 : k < j + 1 := by omega
        simp [h1, h2, h3]
        omega
      · have h2 : ¬ (k < j + 1) := by omega
        simp [h1, h2, h3]

/-- Prefix sums of the counted degrees: the sum of the first `j` degrees is the number
of keys below `j`. -/
theorem sum_take_count_keys (ks : List Nat) (n j : Nat) (hj : j ≤ n) :
    ((count_keys (new_array_zero n) ks).take j).sum =
      ks.countP (fun k => decide (k < j)) := by
  induction j with
  | zero => simp
  | succ j ih =>
    rw [sum_take_succ_getD, ih (by omega), countP_lt_succ,
      getD_count_keys _ _ _ (by simp [new_array_zero]; omega)]
    simp [new_array_zero, List.getD_eq_getElem?_getD]

theorem countP_lt_of_forall (ks : List Nat) (n : Nat) (hks : ∀ k ∈ ks, k < n) :
    ks.countP (fun k => decide (k < n)) = ks.length := by
  rw [List.countP_eq_length]
  intro k hk
  simpa using hks k hk

theorem countP_lt_mono (ks : List Nat) {i j : Nat} (hij : i ≤ j) :
    ks.countP (fun k => decide (k < i)) ≤ ks.countP (fun k => decide (k < j)) := by
  apply List.countP_mono_left
  intro k _ hk
  simp only [decide_eq_true_eq] at hk ⊢
  omega

/-! ## Bucket fill -/

theorem getD_set_nat (l : List Nat) (i j v : Nat) :
    (l.set i v).getD j 0 = if i = j ∧ i < l.length then v else l.getD j 0 := by
  rw [List.getD_eq_getElem?_getD, List.getElem?_set, List.getD_eq_getElem?_getD]
  by_cases h1 : i = j
  · subst h1
    by_cases h2 : i < l.length
    · simp [h2]
    · simp [h2]
      rw [List.getElem?_eq_none (by omega)]
      rfl
  · simp [h1]

theorem fill_buckets_cons (off : List Nat) (e : Nat × Nat) (kv : List (Nat × Nat))
    (st : List Nat × List Nat) :
    fill_buckets off (e :: kv) st =
      fill_buckets off kv (st.1.set (off.getD e.1 0 + st.2.getD e.1 0) e.2,
        st.2.set e.1 (st.2.getD e.1 0 + 1)) := rfl

theorem bucket_append (p q : List (Nat × Nat)) (k : Nat) :
    bucket (p ++ q) k = bucket p k ++ bucket q k := by
  simp [bucket]

theorem length_bucket (kv : List (Nat × Nat)) (k : Nat) :
    (bucket kv k).length = (kv.map Prod.fst).count k := by
  induction kv with
  | nil => rfl
  | cons e kv ih =>
    simp only [bucket, List.map_cons, List.count_cons, List.filter_cons] at ih ⊢
    by_cases h : e.1 = k
    · simp [h, ih]
    · simp [h, ih]

/-- Heap version of the bucket fill against its array-level description. -/
theorem foldl_fill {ao ae : Addr} (hne : ae ≠ ao) (kv : List (Nat × Nat)) (h : Heap)
    (tmp : List Nat) :
    kv.foldl
      (fun (st : Heap × List Nat) e =>
        (st.1.write (some ae) (st.1.read (some ao) e.1 + st.2.getD e.1 0) e.2,
         st.2.set e.1 (st.2.getD e.1 0 + 1))) (h, tmp) =
    (h.put ae (fill_buckets (h.get ao) kv (h.get ae, tmp)).1,
     (fill_buckets (h.get ao) kv (h.get ae, tmp)).2) := by
  induction kv generalizing h tmp with
  | nil => simp [fill_buckets, Heap.put_get_self]
  | cons e kv ih =>
    rw [List.foldl_cons, ih, fill_buckets_cons]
    simp only [Heap.get_write_ne _ hne, Heap.get_write_same, Heap.read_some]
    simp only [Heap.write, Heap.put_put_same]

theorem count_prefix_lt (p q : List (Nat × Nat)) (e : Nat × Nat) :
    (p.map Prod.fst).count e.1 < ((p ++ e :: q).map Prod.fst).count e.1 := by
  simp [List.count_append, List.count_cons]

theorem count_prefix_le (p q : List (Nat × Nat)) (k : Nat) :
    (p.map Prod.fst).count k ≤ ((p ++ q).map Prod.fst).count k := by
  simp [List.count_append]

/-- One step of the bucket fill preserves the invariant. -/
theorem fill_step_inv (off : List Nat) (nV N : Nat) (p q : List (Nat × Nat))
    (e : Nat × Nat) (st : List Nat × List Nat)
    (hk : e.1 < nV)
    (hoff : ∀ k, k ≤ nV → off.getD k 0 =
      ((p ++ e :: q).map Prod.fst).countP (fun x => decide (x < k)))
    (hN : (p ++ e :: q).length ≤ N)
    (hinv : FillInv off nV N p st) :
    FillInv off nV N (p ++ [e])
      (st.1.set (off.getD e.1 0 + st.2.getD e.1 0) e.2,
       st.2.set e.1 (st.2.getD e.1 0 + 1)) := by
  obtain ⟨h1, h2, h3, h4⟩ := hinv
  have hlt := count_prefix_lt p q e
  have hsucc := countP_lt_succ ((p ++ e :: q).map Prod.fst)
  have hoff1 := hoff (e.1 + 1) (by omega)
  have hoff0 := hoff e.1 (by omega)
  have hle : ((p ++ e :: q).map Prod.fst).countP (fun x => decide (x < e.1 + 1)) ≤
      ((p ++ e :: q).map Prod.fst).length := List.countP_le_length _
  have hlen : ((p ++ e :: q).map Prod.fst).length = (p ++ e :: q).length := by simp
  have hidx : off.getD e.1 0 + st.2.getD e.1 0 < st.1.length := by
    rw [h3 e.1 hk, h1, hoff0]
    have := hsucc e.1
    omega
  refine ⟨by simp [h1], by simp [h2], ?_, ?_⟩
  · intro k hkn
    rw [getD_set_nat]
    by_cases hek : e.1 = k
    · subst hek
      rw [if_pos ⟨rfl, by omega⟩, h3 _ hk]
      simp [List.count_append]
    · have hke : ¬ (k = e.1) := fun h => hek h.symm
      rw [if_neg (fun h => hek h.1), h3 k hkn]
      simp [List.count_append, List.count_cons, hke]
  · intro k hkn j hj
    rw [getD_set_nat, bucket_append]
    by_cases hek : e.1 = k
    · subst hek
      have hb : bucket [e] e.1 = [e.2] := by simp [bucket]
      rw [hb]
      by_cases hjt : j = (p.map Prod.fst).count e.1
      · rw [if_pos ⟨by rw [h3 _ hk, hjt], hidx⟩]
        rw [List.getD_eq_getElem?_getD, List.getElem?_append_right (by rw [length_bucket, hjt])]
        simp [length_bucket, hjt]
      · have hj2 : j < (p.map Prod.fst).count e.1 := by
          simp [List.count_append] at hj
          omega
        rw [if_neg (by rw [h3 _ hk]; omega), h4 _ hk j hj2]
        rw [List.getD_eq_getElem?_getD, List.getD_eq_getElem?_getD,
          List.getElem?_append_left (by rw [length_bucket]; exact hj2)]
    · have hb : bucket [e] k = [] := by simp [bucket, hek]
      have hj2 : j < (p.map Prod.fst).count k := by
        have hke : ¬ (k = e.1) := fun h => hek h.symm
        simpa [List.count_append, List.count_cons, hke] using hj
      have hle2 := count_prefix_le p (e :: q) k
      have hoffk := hoff k (by omega)
      have hoffk1 := hoff (k + 1) (by omega)
      have hne : ¬ (off.getD e.1 0 + st.2.getD e.1 0 = off.getD k 0 + j) := by
        rw [h3 _ hk]
        rcases Nat.lt_or_gt_of_ne hek with hlt2 | hgt2
        · have hm := countP_lt_mono ((p ++ e :: q).map Prod.fst) (show e.1 + 1 ≤ k by omega)
          have := hsucc e.1
          omega
        · have hm := countP_lt_mono ((p ++ e :: q).map Prod.fst) (show k + 1 ≤ e.1 by omega)
          have := hsucc k
          omega
      rw [if_neg (fun h => hne h.1), hb, List.append_nil, h4 k hkn j hj2]

/-- The bucket fill establishes the invariant for the whole list of pairs. -/
theorem fill_buckets_inv (off : List Nat) (nV N : Nat) (q : List (Nat × Nat)) :
    ∀ (p : List (Nat × Nat)) (st : List Nat × List Nat),
      (∀ e ∈ p ++ q, e.1 < nV) →
      (∀ k, k ≤ nV → off.getD k 0 =
        ((p ++ q).map Prod.fst).countP (fun x => decide (x < k))) →
      (p ++ q).length ≤ N →
      FillInv off nV N p st →
      FillInv off nV N (p ++ q) (fill_buckets off q st) := by
  induction q with
  | nil =>
    intro p st _ _ _ hinv
    simpa [fill_buckets] using hinv
  | cons e q ih =>
    intro p st hk hoff hN hinv
    rw [fill_buckets_cons]
    have hpq : p ++ e :: q = (p ++ [e]) ++ q := by simp
    rw [hpq]
    apply ih
    · rw [← hpq]; exact hk
    · rw [← hpq]; exact hoff
    · rw [← hpq]; exact hN
    · exact fill_step_inv off nV N p q e st (hk e (by simp)) hoff hN hinv

/-- Result of the bucket fill started from zeroed counters: bucket `k` of the pairs
occupies the cells `off[k] .. off[k] + count - 1`, in order. -/
theorem fill_buckets_spec (off : List Nat) (nV : Nat) (kv : List (Nat × Nat))
    (E0 : List Nat)
    (hk : ∀ e ∈ kv, e.1 < nV)
    (hoff : ∀ k, k ≤ nV → off.getD k 0 =
      (kv.map Prod.fst).countP (fun x => decide (x < k)))
    (hN : kv.length ≤ E0.length) :
    FillInv off nV E0.length kv (fill_buckets off kv (E0, new_array_zero nV)) := by
  have := fill_buckets_inv off nV E0.length kv [] (E0, new_array_zero nV)
    (by simpa using hk) (by simpa using hoff) (by simpa using hN)
    ⟨rfl, by simp [new_array_zero], by
      intro k hkn
      simp [new_array_zero, List.getD_eq_getElem?_getD, hkn], by
      intro k _ j hj
      simp at hj⟩
  simpa using this

/-! ## Preparation of the edge buffer -/

theorem set_length_append {α : Type} (A : List α) (y x : α) (ys : List α) (k : Nat)
    (hk : A.length = k) : (A ++ y :: ys).set k x = A ++ x :: ys := by
  subst hk
  induction A with
  | nil => rfl
  | cons a A ih => simp [ih]

theorem reversed_edges_append (p q : List (Nat × Nat)) :
    reversed_edges (p ++ q) = reversed_edges p ++ reversed_edges q := by
  simp [reversed_edges]

theorem length_reversed_edges_le (es : List (Nat × Nat)) :
    (reversed_edges es).length ≤ es.length := by
  simp only [reversed_edges, List.length_map]
  exact List.length_filter_le _ _

theorem bounded_reversed_edges {nV : Nat} {es : List (Nat × Nat)} (h : Bounded nV es) :
    Bounded nV (reversed_edges es) := by
  intro e he
  simp only [reversed_edges, List.mem_map, List.mem_filter] at he
  obtain ⟨x, ⟨hx, _⟩, rfl⟩ := he
  exact ⟨(h x hx).2, (h x hx).1⟩

/-- The loop of lines 168-174 after `m` iterations. -/
theorem reverse_loop_fold (coo : List (Nat × Nat)) (half : Nat)
    (h2 : 2 * half ≤ coo.length) (m : Nat) (hm : m ≤ half) :
    (List.range m).foldl
      (fun (st : List (Nat × Nat) × Nat) i =>
        if (st.1.getD i (0, 0)).1 = (st.1.getD i (0, 0)).2 then st
        else (st.1.set st.2 ((st.1.getD i (0, 0)).2, (st.1.getD i (0, 0)).1), st.2 + 1))
      (coo, half) =
    (coo.take half ++ reversed_edges (coo.take m) ++
        coo.drop (half + (reversed_edges (coo.take m)).length),
     half + (reversed_edges (coo.take m)).length) := by
  induction m with
  | zero => simp [reversed_edges]
  | succ m ih =>
    rw [List.range_succ, List.foldl_append, ih (by omega)]
    have hmlen : m < coo.length := by omega
    have hR := length_reversed_edges_le (coo.take m)
    have hRm : (reversed_edges (coo.take m)).length ≤ m := by
      simpa [Nat.min_eq_left (Nat.le_of_lt hmlen)] using hR
    have hget : (coo.take half ++ reversed_edges (coo.take m) ++
        coo.drop (half + (reversed_edges (coo.take m)).length)).getD m (0, 0) = coo[m] := by
      rw [List.getD_eq_getElem?_getD, List.append_assoc,
        List.getElem?_append_left (by simp; omega), List.getElem?_take_of_lt (by omega),
        List.getElem?_eq_getElem hmlen]
      rfl
    have htake : coo.take (m + 1) = coo.take m ++ [coo[m]] := by
      rw [List.take_succ, List.getElem?_eq_getElem hmlen]
      rfl
    simp only [List.foldl_cons, List.foldl_nil, hget]
    rw [htake, reversed_edges_append]
    by_cases hloop : coo[m].1 = coo[m].2
    · rw [if_pos hloop]
      simp [reversed_edges, hloop]
    · rw [if_neg hloop]
      have hone : reversed_edges [coo[m]] = [(coo[m].2, coo[m].1)] := by
        simp [reversed_edges, hloop]
      rw [hone]
      have hk : half + (reversed_edges (coo.take m)).length < coo.length := by omega
      have hdrop := List.drop_eq_getElem_cons hk
      have hlenA : (coo.take half ++ reversed_edges (coo.take m)).length =
          half + (reversed_edges (coo.take m)).length := by
        simp
        omega
      rw [hdrop, set_length_append _ _ _ _ _ hlenA]
      simp [Nat.add_assoc]

/-- Lines 166-179: the first half of the buffer is kept, the reverses of its edges that
are not self-loops follow, and the edge count is the number of these edges. -/
theorem reverse_loop_eq (coo : List (Nat × Nat)) (half : Nat) (h2 : 2 * half ≤ coo.length) :
    reverse_loop coo half =
      (coo.take half ++ reversed_edges (coo.take half) ++
          coo.drop (half + (reversed_edges (coo.take half)).length),
       half + (reversed_edges (coo.take half)).length) :=
  reverse_loop_fold coo half h2 half (Nat.le_refl _)

theorem phase_reverse_ok (g : GraphStd) (nV L : Nat) (c : List (Nat × Nat) × Nat)
    (hlen : c.1.length = L) (hc : c.2 ≤ L)
    (hb : Bounded nV (c.1.take
      (if g._directed_to_undirected || g._stored_undirected then c.2 / 2 else c.2))) :
    CooOk nV L (g.phase_reverse c) := by
  unfold GraphStd.phase_reverse
  by_cases hmode : (g._directed_to_undirected || g._stored_undirected) = true
  · rw [if_pos hmode] at hb ⊢
    have h2 : 2 * (c.2 / 2) ≤ c.1.length := by omega
    rw [reverse_loop_eq _ _ h2]
    have hR := length_reversed_edges_le (c.1.take (c.2 / 2))
    have hRm : (reversed_edges (c.1.take (c.2 / 2))).length ≤ c.2 / 2 := by
      have : (c.1.take (c.2 / 2)).length = c.2 / 2 := by simp; omega
      omega
    refine ⟨?_, ?_, ?_⟩
    · simp
      omega
    · show c.2 / 2 + _ ≤ L
      omega
    · show Bounded nV (List.take _ _)
      rw [List.take_left' (by simp; omega)]
      intro e he
      rcases List.mem_append.1 he with h | h
      · exact hb e h
      · exact bounded_reversed_edges hb e h
  · rw [if_neg hmode] at hb ⊢
    exact ⟨hlen, hc, hb⟩

theorem length_std_sort (n : Nat) (coo : List (Nat × Nat)) :
    (std_sort n coo).length = coo.length := by
  simp [std_sort, List.length_insertionSort]
  omega

theorem take_std_sort (n : Nat) (coo : List (Nat × Nat)) (hn : n ≤ coo.length) :
    (std_sort n coo).take n = (coo.take n).insertionSort coo_le := by
  unfold std_sort
  rw [List.take_left' (by simp [List.length_insertionSort]; omega)]

theorem std_sort_ok (nV L : Nat) (c : List (Nat × Nat) × Nat) (h : CooOk nV L c) :
    CooOk nV L (std_sort c.2 c.1, c.2) := by
  obtain ⟨h1, h2, h3⟩ := h
  refine ⟨by rw [length_std_sort]; exact h1, h2, ?_⟩
  show Bounded nV (List.take _ _)
  rw [take_std_sort _ _ (by omega)]
  intro e he
  exact h3 e ((List.perm_insertionSort coo_le _).mem_iff.1 he)

theorem std_unique_sublist : ∀ l : List (Nat × Nat), (std_unique l).Sublist l
  | [] => List.Sublist.refl _
  | [_] => List.Sublist.refl _
  | a :: b :: t => by
    have ih := std_unique_sublist (b :: t)
    simp only [std_unique]
    split
    · exact ih.cons a
    · exact ih.cons₂ a

theorem dedup_ok (nV L : Nat) (c : List (Nat × Nat) × Nat) (h : CooOk nV L c) :
    CooOk nV L (dedup c) := by
  obtain ⟨h1, h2, h3⟩ := h
  have hsub := std_unique_sublist ((std_sort c.2 c.1).take c.2)
  have hlenU : (std_unique ((std_sort c.2 c.1).take c.2)).length ≤ c.2 := by
    have := hsub.length_le
    simp [length_std_sort] at this
    omega
  refine ⟨?_, ?_, ?_⟩
  · simp [dedup, length_std_sort]
    omega
  · show (std_unique _).length ≤ L
    omega
  · show Bounded nV (List.take _ _)
    simp only [dedup]
    rw [List.take_left' rfl]
    intro e he
    have he2 := hsub.subset he
    rw [take_std_sort _ _ (by omega)] at he2
    exact h3 e ((List.perm_insertionSort coo_le _).mem_iff.1 he2)

/-- The loop of lines 201-204 keeps the buffer length and the bound on the endpoints of
its first `nE` cells. -/
theorem select_fold_ok (bitmask : List Bool) (nV L nE : Nat) (is : List Nat)
    (his : ∀ i ∈ is, i < nE) (hnE : nE ≤ L) :
    ∀ st : List (Nat × Nat) × Nat, st.1.length = L → Bounded nV (st.1.take nE) →
      (is.foldl
        (fun (st : List (Nat × Nat) × Nat) i =>
          if bitmask.getD i false then (st.1.set st.2 (st.1.getD i (0, 0)), st.2 + 1)
          else st) st).1.length = L ∧
      Bounded nV ((is.foldl
        (fun (st : List (Nat × Nat) × Nat) i =>
          if bitmask.getD i false then (st.1.set st.2 (st.1.getD i (0, 0)), st.2 + 1)
          else st) st).1.take nE) := by
  induction is with
  | nil => intro st h1 h2; exact ⟨h1, h2⟩
  | cons i is ih =>
    intro st h1 h2
    rw [List.foldl_cons]
    apply ih (fun j hj => his j (by simp [hj]))
    · split
      · simpa using h1
      · exact h1
    · split
      · intro e he
        rw [List.set_take] at he
        rcases List.mem_or_eq_of_mem_set he with h | h
        · exact h2 e h
        · have hi : i < st.1.length := by have := his i (by simp); omega
          apply h2 e
          rw [h, List.getD_eq_getElem?_getD, List.getElem?_eq_getElem hi]
          exact List.mem_take_iff_getElem.2 ⟨i, by have := his i (by simp); omega, rfl⟩
      · exact h2

theorem phase_convert_ok (g : GraphStd) (nV L : Nat) (c : List (Nat × Nat) × Nat)
    (h : CooOk nV L c) : CooOk nV L (g.phase_convert c) := by
  unfold GraphStd.phase_convert
  split
  · exact dedup_ok nV L c h
  · split
    · obtain ⟨h1, h2, h3⟩ := h
      have := select_fold_ok g._bitmask nV L c.2 (List.range c.2)
        (fun i hi => List.mem_range.1 hi) h2 (c.1, 0) h1 h3
      exact ⟨this.1, h2, this.2⟩
    · exact h

theorem remap_ok (ra : List Nat) (nV L : Nat) (c : List (Nat × Nat) × Nat)
    (hra : ∀ i, i < nV → ra.getD i 0 < nV) (h : CooOk nV L c) :
    CooOk nV L (remap ra c.2 c.1, c.2) := by
  obtain ⟨h1, h2, h3⟩ := h
  refine ⟨by simp [remap]; omega, h2, ?_⟩
  show Bounded nV (List.take _ _)
  unfold remap
  rw [List.take_left' (by simp; omega)]
  intro e he
  obtain ⟨x, hx, rfl⟩ := List.mem_map.1 he
  exact ⟨hra _ (h3 x hx).1, hra _ (h3 x hx).2⟩

theorem getD_lt_of_perm_range (ra : List Nat) (nV : Nat) (hperm : ra.Perm (List.range nV))
    (i : Nat) (hi : i < nV) : ra.getD i 0 < nV := by
  have hlen : ra.length = nV := by simpa using hperm.length_eq
  rw [List.getD_eq_getElem?_getD, List.getElem?_eq_getElem (by omega)]
  exact List.mem_range.1 (hperm.mem_iff.1 (List.getElem_mem _))

/-- Lines 165-226 keep the buffer length, do not increase the edge count, and leave
edges with endpoints below `_nV` in the final buffer. -/
theorem prepare_coo_ok (g : GraphStd) (ra : List Nat) (buf : List (Nat × Nat))
    (hcoo : g._coo_edges = some buf) (hlen : buf.length = g._nE)
    (hb : Bounded g._nV (buf.take g.native_count))
    (hperm : g._prop.is_randomize = true → ra.Perm (List.range g._nV)) :
    CooOk g._nV g._nE (g.prepare_coo ra) := by
  unfold GraphStd.prepare_coo
  rw [hcoo]
  have h1 := phase_reverse_ok g g._nV g._nE (buf, g._nE) hlen (Nat.le_refl _) hb
  have h2 := phase_convert_ok g g._nV g._nE _ h1
  have h3 : CooOk g._nV g._nE (g.phase_randomize ra
      (g.phase_convert (g.phase_reverse (buf, g._nE)))) := by
    unfold GraphStd.phase_randomize
    split
    · rename_i hr
      exact remap_ok ra _ _ _ (getD_lt_of_perm_range ra _ (hperm hr)) h2
    · exact h2
  unfold GraphStd.phase_sort
  split
  · exact std_sort_ok _ _ _ h3
  · exact h3

/-! ## One adjacency view -/

/-- Offsets and bucket fill of one view (lines 242-250, or 253-259 with the roles of the
endpoints exchanged), for pairwise distinct arrays of degrees, offsets and edges: the
other arrays are untouched, cell `j` of the offsets is the number of keys below `j`, and
bucket `k` occupies the cells from `offsets[k]` on, in order. -/
theorem view_spec {ad ao ae : Addr} (hdo : ad ≠ ao) (hoe : ao ≠ ae)
    (nV : Nat) (kv : List (Nat × Nat)) (h : Heap)
    (hdeg : h.get ad = count_keys (new_array_zero nV) (kv.map Prod.fst))
    (hoff : (h.get ao).length = nV + 1)
    (hE : kv.length ≤ (h.get ae).length)
    (hk : ∀ e ∈ kv, e.1 < nV) :
    let h3 := (kv.foldl
      (fun (st : Heap × List Nat) e =>
        (st.1.write (some ae) (st.1.read (some ao) e.1 + st.2.getD e.1 0) e.2,
         st.2.set e.1 (st.2.getD e.1 0 + 1)))
      (partial_sum (some ad) nV (some ao) (h.write (some ao) 0 0), new_array_zero nV)).1
    (∀ c, c ≠ ao → c ≠ ae → h3.get c = h.get c) ∧
    (h3.get ao).length = nV + 1 ∧
    (∀ j, j ≤ nV → (h3.get ao).getD j 0 =
      (kv.map Prod.fst).countP (fun x => decide (x < j))) ∧
    (h3.get ae).length = (h.get ae).length ∧
    (∀ k, k < nV → ∀ j, j < (kv.map Prod.fst).count k →
      (h3.get ae).getD ((h3.get ao).getD k 0 + j) 0 = (bucket kv k).getD j 0) := by
  intro h3
  have hh3 : h3 = (kv.foldl
      (fun (st : Heap × List Nat) e =>
        (st.1.write (some ae) (st.1.read (some ao) e.1 + st.2.getD e.1 0) e.2,
         st.2.set e.1 (st.2.getD e.1 0 + 1)))
      (partial_sum (some ad) nV (some ao) (h.write (some ao) 0 0), new_array_zero nV)).1 := rfl
  rw [foldl_fill (Ne.symm hoe)] at hh3
  have hps_e : (partial_sum (some ad) nV (some ao) (h.write (some ao) 0 0)).get ae =
      h.get ae := by
    rw [partial_sum_get_ne hdo _ _ (Ne.symm hoe), Heap.get_write_ne _ hoe]
  have hps_len : ((partial_sum (some ad) nV (some ao) (h.write (some ao) 0 0)).get ao).length
      = nV + 1 := by
    rw [partial_sum_length hdo, Heap.get_write_same, List.length_set, hoff]
  have hps_o : ∀ j, j ≤ nV →
      ((partial_sum (some ad) nV (some ao) (h.write (some ao) 0 0)).get ao).getD j 0 =
        (kv.map Prod.fst).countP (fun x => decide (x < j)) := by
    intro j hj
    rw [offsets_getD hdo h nV j hoff hj, hdeg, sum_take_count_keys _ _ _ hj]
  have hfill := fill_buckets_spec
    ((partial_sum (some ad) nV (some ao) (h.write (some ao) 0 0)).get ao) nV kv
    (h.get ae) hk hps_o hE
  rw [← hps_e] at hfill
  obtain ⟨f1, _, _, f4⟩ := hfill
  have hget_o : h3.get ao =
      (partial_sum (some ad) nV (some ao) (h.write (some ao) 0 0)).get ao := by
    rw [hh3, Heap.get_put_ne _ (Ne.symm hoe)]
  refine ⟨?_, ?_, ?_, ?_, ?_⟩
  · intro c hco hce
    rw [hh3, Heap.get_put_ne _ (Ne.symm hce), partial_sum_get_ne hdo _ _ hco,
      Heap.get_write_ne _ (Ne.symm hco)]
  · rw [hget_o, hps_len]
  · intro j hj
    rw [hget_o, hps_o j hj]
  · rw [hh3, Heap.get_put_same, f1, hps_e]
  · intro k hkn j hj
    rw [hget_o, hh3, Heap.get_put_same]
    exact f4 k hkn j hj

/-! ## allocate -/

theorem allocate_out_ready (T : TypeParams) (g0 g1 : GraphStd) (ginfo : GInfo)
    (rnd : Nat → Bool) (junk : Nat → Nat) (junk_coo : Nat → Nat × Nat)
    (h : g0.allocate T ginfo rnd junk junk_coo = some g1) :
    OutReady g1 ∧ g1.heap.out_edges.length = g1._nE ∧ 0 < g1._nV := by
  simp only [GraphStd.allocate] at h
  split_ifs at h <;> cases h <;>
    simp [OutReady, new_array, new_array_zero] <;> omega

theorem allocate_in_ready (T : TypeParams) (g0 g1 : GraphStd) (ginfo : GInfo)
    (rnd : Nat → Bool) (junk : Nat → Nat) (junk_coo : Nat → Nat × Nat)
    (h : g0.allocate T ginfo rnd junk junk_coo = some g1)
    (hd : g1._structure.is_directed = true) (hr : g1._structure.is_reverse = true) :
    InReady g1 ∧ g1.heap.in_edges.length = g1._nE := by
  simp only [GraphStd.allocate] at h
  split_ifs at h <;> cases h <;>
    simp_all [InReady, new_array, new_array_zero, StructureProp.is_directed,
      StructureProp.is_undirected]

/-! ## Construction of the CSR -/

theorem count_degrees_plain (g : GraphStd) (es : List (Nat × Nat)) (h : Heap)
    (hp : g._out_degrees = some Addr.out_degrees)
    (hrev : ¬ (g._structure.is_directed = true ∧ g._structure.is_reverse = true)) :
    g.count_degrees es h =
      h.put Addr.out_degrees (count_keys (h.get Addr.out_degrees) (es.map Prod.fst)) := by
  have hc : (g._structure.is_reverse && g._structure.is_directed) = false := by
    cases hd : g._structure.is_directed <;> cases hr : g._structure.is_reverse <;>
      simp_all
  unfold GraphStd.count_degrees
  rw [hc, hp, ← foldl_incr, List.foldl_map]
  rfl

theorem count_degrees_rev (g : GraphStd) (es : List (Nat × Nat)) (h : Heap)
    (hp : g._out_degrees = some Addr.out_degrees)
    (hpi : g._in_degrees = some Addr.in_degrees)
    (hd : g._structure.is_directed = true) (hr : g._structure.is_reverse = true) :
    g.count_degrees es h =
      (h.put Addr.out_degrees (count_keys (h.get Addr.out_degrees) (es.map Prod.fst))).put
        Addr.in_degrees (count_keys (h.get Addr.in_degrees) (es.map Prod.snd)) := by
  unfold GraphStd.count_degrees
  rw [hd, hr, hp, hpi, ← foldl_incr_both (by decide)]
  rfl

theorem fill_in_eq (g : GraphStd) (es : List (Nat × Nat)) (h : Heap) :
    g.fill_in es h =
      ((es.map Prod.swap).foldl
        (fun (st : Heap × List Nat) e =>
          (st.1.write g._in_edges (st.1.read g._in_offsets e.1 + st.2.getD e.1 0) e.2,
           st.2.set e.1 (st.2.getD e.1 0 + 1)))
        (h, new_array_zero g._nV)).1 := by
  unfold GraphStd.fill_in
  rw [List.foldl_map]
  rfl

theorem map_fst_map_swap (es : List (Nat × Nat)) :
    (es.map Prod.swap).map Prod.fst = es.map Prod.snd := by
  simp [List.map_map, Function.comp_def]

/-- Lines 231-260: the out-arrays are the CSR of the edges keyed by source, and, for a
directed graph with a reverse view, the in-arrays are the CSR of the edges keyed by
destination. -/
theorem build_csr_spec (g : GraphStd) (es : List (Nat × Nat)) (hout : OutReady g)
    (hin : g._structure.is_directed = true → g._structure.is_reverse = true →
      InReady g ∧ es.length ≤ g.heap.in_edges.length)
    (hE : es.length ≤ g.heap.out_edges.length) (hb : Bounded g._nV es) :
    IsCSR g._nV es (g.build_csr es g.heap).out_degrees (g.build_csr es g.heap).out_offsets
        (g.build_csr es g.heap).out_edges ∧
      (g.build_csr es g.heap).out_edges.length = g.heap.out_edges.length ∧
      (g._structure.is_directed = true → g._structure.is_reverse = true →
        IsCSR g._nV (es.map Prod.swap) (g.build_csr es g.heap).in_degrees
          (g.build_csr es g.heap).in_offsets (g.build_csr es g.heap).in_edges) := by
  obtain ⟨p1, p2, p3, hd0, ho0⟩ := hout
  have hk1 : ∀ e ∈ es, e.1 < g._nV := fun e he => (hb e he).1
  -- the out-view on any heap whose out-degrees hold the counts
  have hview : ∀ h1 : Heap,
      h1.get Addr.out_degrees = count_keys (new_array_zero g._nV) (es.map Prod.fst) →
      (h1.get Addr.out_offsets).length = g._nV + 1 →
      es.length ≤ (h1.get Addr.out_edges).length →
      (∀ c, c ≠ Addr.out_offsets → c ≠ Addr.out_edges →
        (g.fill_out es (partial_sum g._out_degrees g._nV g._out_offsets
          (h1.write g._out_offsets 0 0))).get c = h1.get c) ∧
      IsCSR g._nV es h1.out_degrees
        (g.fill_out es (partial_sum g._out_degrees g._nV g._out_offsets
          (h1.write g._out_offsets 0 0))).out_offsets
        (g.fill_out es (partial_sum g._out_degrees g._nV g._out_offsets
          (h1.write g._out_offsets 0 0))).out_edges ∧
      (g.fill_out es (partial_sum g._out_degrees g._nV g._out_offsets
          (h1.write g._out_offsets 0 0))).out_edges.length = h1.out_edges.length := by
    intro h1 a1 a2 a3
    have := @view_spec Addr.out_degrees Addr.out_offsets Addr.out_edges (by decide) (by decide) g._nV es h1 a1 a2 a3 hk1
    unfold GraphStd.fill_out
    rw [p1, p2, p3]
    obtain ⟨v1, v2, v3, v4, v5⟩ := this
    exact ⟨v1, ⟨a1, v2, v3, v5⟩, v4⟩
  by_cases hrev : g._structure.is_directed = true ∧ g._structure.is_reverse = true
  · obtain ⟨hd, hr⟩ := hrev
    obtain ⟨⟨q1, q2, q3, hd1, ho1⟩, hE1⟩ := hin hd hr
    have hcount := count_degrees_rev g es g.heap p3 q3 hd hr
    have hbuild : g.build_csr es g.heap =
        g.fill_in es (partial_sum g._in_degrees g._nV g._in_offsets
          ((g.fill_out es (partial_sum g._out_degrees g._nV g._out_offsets
            ((g.count_degrees es g.heap).write g._out_offsets 0 0))).write
              g._in_offsets 0 0)) := by
      unfold GraphStd.build_csr
      simp only [hd, hr, Bool.and_self, if_true]
    obtain ⟨w1, w2, w3⟩ := hview (g.count_degrees es g.heap)
      (by rw [hcount, Heap.get_put_ne _ (by decide), Heap.get_put_same]
          show count_keys g.heap.out_degrees _ = _
          rw [hd0])
      (by rw [hcount]; exact ho0)
      (by rw [hcount]; exact hE)
    have hk2 : ∀ e ∈ es.map Prod.swap, e.1 < g._nV := by
      intro e he
      obtain ⟨x, hx, rfl⟩ := List.mem_map.1 he
      exact (hb x hx).2
    have hv2 := @view_spec Addr.in_degrees Addr.in_offsets Addr.in_edges (by decide) (by decide) g._nV (es.map Prod.swap)
      (g.fill_out es (partial_sum g._out_degrees g._nV g._out_offsets
            ((g.count_degrees es g.heap).write g._out_offsets 0 0)))
      (by rw [w1 _ (by decide) (by decide), hcount, Heap.get_put_same, map_fst_map_swap]
          show count_keys g.heap.in_degrees _ = _
          rw [hd1])
      (by rw [w1 _ (by decide) (by decide), hcount]; exact ho1)
      (by rw [w1 _ (by decide) (by decide), hcount, List.length_map]; exact hE1)
      hk2
    have hbuild2 : g.build_csr es g.heap =
        ((es.map Prod.swap).foldl
          (fun (st : Heap × List Nat) e =>
            (st.1.write (some Addr.in_edges)
              (st.1.read (some Addr.in_offsets) e.1 + st.2.getD e.1 0) e.2,
             st.2.set e.1 (st.2.getD e.1 0 + 1)))
          (partial_sum (some Addr.in_degrees) g._nV (some Addr.in_offsets)
            ((g.fill_out es (partial_sum g._out_degrees g._nV g._out_offsets
              ((g.count_degrees es g.heap).write g._out_offsets 0 0))).write
                (some Addr.in_offsets) 0 0), new_array_zero g._nV)).1 := by
      rw [hbuild, fill_in_eq, q1, q2, q3]
    obtain ⟨v1, v2, v3, v4, v5⟩ := hv2
    rw [← hbuild2] at v1 v2 v3 v4 v5
    have e1 := v1 Addr.out_degrees (by decide) (by decide)
    have e2 := v1 Addr.out_offsets (by decide) (by decide)
    have e3 := v1 Addr.out_edges (by decide) (by decide)
    have e4 := v1 Addr.in_degrees (by decide) (by decide)
    have e5 := w1 Addr.out_degrees (by decide) (by decide)
    have e6 := w1 Addr.in_degrees (by decide) (by decide)
    refine ⟨?_, ?_, ?_⟩
    · show IsCSR g._nV es ((g.build_csr es g.heap).get Addr.out_degrees)
        ((g.build_csr es g.heap).get Addr.out_offsets)
        ((g.build_csr es g.heap).get Addr.out_edges)
      rw [e1, e2, e3, e5]
      exact w2
    · show ((g.build_csr es g.heap).get Addr.out_edges).length = _
      rw [e3]
      exact w3.trans (by rw [hcount]; rfl)
    · intro _ _
      refine ⟨?_, v2, v3, v5⟩
      show (g.build_csr es g.heap).get Addr.in_degrees = _
      rw [e4, e6, hcount, Heap.get_put_same, map_fst_map_swap]
      show count_keys g.heap.in_degrees _ = _
      rw [hd1]
  · have hcount := count_degrees_plain g es g.heap p3 hrev
    have hbuild : g.build_csr es g.heap =
        g.fill_out es (partial_sum g._out_degrees g._nV g._out_offsets
            ((g.count_degrees es g.heap).write g._out_offsets 0 0)) := by
      unfold GraphStd.build_csr
      have hc : (g._structure.is_directed && g._structure.is_reverse) = false := by
        cases hd : g._structure.is_directed <;> cases hr : g._structure.is_reverse <;>
          simp_all
      simp only [hc, Bool.false_eq_true, if_false]
    obtain ⟨w1, w2, w3⟩ := hview (g.count_degrees es g.heap)
      (by rw [hcount, Heap.get_put_same]
          show count_keys g.heap.out_degrees _ = _
          rw [hd0])
      (by rw [hcount]; exact ho0)
      (by rw [hcount]; exact hE)
    have e5 := w1 Addr.out_degrees (by decide) (by decide)
    rw [← hbuild] at w1 w2 w3 e5
    refine ⟨?_, ?_, ?_⟩
    · obtain ⟨a1, a2, a3, a4⟩ := w2
      refine ⟨?_, a2, a3, a4⟩
      show (g.build_csr es g.heap).get Addr.out_degrees = _
      rw [e5]
      exact a1
    · rw [w3, hcount]
      rfl
    · intro hd hr
      exact absurd ⟨hd, hr⟩ hrev

/-! ## Consequences of the CSR description -/

theorem IsCSR.off_zero {nV : Nat} {kv : List (Nat × Nat)} {deg off edges : List Nat}
    (h : IsCSR nV kv deg off edges) : off.getD 0 0 = 0 := by
  rw [h.2.2.1 0 (Nat.zero_le _)]
  simp

theorem IsCSR.off_last {nV : Nat} {kv : List (Nat × Nat)} {deg off edges : List Nat}
    (h : IsCSR nV kv deg off edges) (hk : ∀ e ∈ kv, e.1 < nV) :
    off.getD nV 0 = kv.length := by
  rw [h.2.2.1 nV (Nat.le_refl _), countP_lt_of_forall]
  · simp
  · intro k hk2
    obtain ⟨e, he, rfl⟩ := List.mem_map.1 hk2
    exact hk e he

theorem IsCSR.off_succ {nV : Nat} {kv : List (Nat × Nat)} {deg off edges : List Nat}
    (h : IsCSR nV kv deg off edges) (v : Nat) (hv : v < nV) :
    off.getD (v + 1) 0 = off.getD v 0 + (kv.map Prod.fst).count v := by
  rw [h.2.2.1 (v + 1) (by omega), h.2.2.1 v (by omega), countP_lt_succ]

theorem IsCSR.deg_getD {nV : Nat} {kv : List (Nat × Nat)} {deg off edges : List Nat}
    (h : IsCSR nV kv deg off edges) (v : Nat) (hv : v < nV) :
    deg.getD v 0 = (kv.map Prod.fst).count v := by
  rw [h.1, getD_count_keys _ _ _ (by simpa [new_array_zero] using hv)]
  simp [new_array_zero, List.getD_eq_getElem?_getD, hv]

theorem IsCSR.deg_length {nV : Nat} {kv : List (Nat × Nat)} {deg off edges : List Nat}
    (h : IsCSR nV kv deg off edges) : deg.length = nV := by
  rw [h.1, length_count_keys]
  simp [new_array_zero]

theorem IsCSR.deg_sum {nV : Nat} {kv : List (Nat × Nat)} {deg off edges : List Nat}
    (h : IsCSR nV kv deg off edges) (hk : ∀ e ∈ kv, e.1 < nV) : deg.sum = kv.length := by
  rw [h.1, sum_count_keys]
  · simp [new_array_zero]
  · intro k hk2
    obtain ⟨e, he, rfl⟩ := List.mem_map.1 hk2
    simpa [new_array_zero] using hk e he

theorem IsCSR.neighbours {nV : Nat} {kv : List (Nat × Nat)} {deg off edges : List Nat}
    (h : IsCSR nV kv deg off edges) (v : Nat) (hv : v < nV) :
    (List.range' (off.getD v 0) (off.getD (v + 1) 0 - off.getD v 0)).map
      (fun j => edges.getD j 0) = bucket kv v := by
  have hlen : off.getD (v + 1) 0 - off.getD v 0 = (bucket kv v).length := by
    rw [h.off_succ v hv, length_bucket]
    omega
  apply List.ext_getElem
  · rw [List.length_map, List.length_range', hlen]
  · intro j h1 h2
    have hj : j < (kv.map Prod.fst).count v := by rw [← length_bucket]; exact h2
    have := h.2.2.2 v hv j hj
    rw [List.getD_eq_getElem?_getD (bucket kv v), List.getElem?_eq_getElem h2] at this
    simp only [List.getElem_map, List.getElem_range', Nat.one_mul]
    exact this

theorem map_getD_range (l : List Nat) (n : Nat) (hn : l.length = n) :
    (List.range n).map (fun i => l.getD i 0) = l := by
  apply List.ext_getElem
  · simp [hn]
  · intro j h1 h2
    simp [List.getD_eq_getElem?_getD, List.getElem?_eq_getElem h2]

theorem flatMap_filter_fst (es : List (Nat × Nat)) (n : Nat) :
    ((List.range n).flatMap (fun v => es.filter (fun e => decide (e.1 = v)))).Perm
      (es.filter (fun e => decide (e.1 < n))) := by
  induction n with
  | zero => simp
  | succ n ih =>
    rw [List.range_succ, List.flatMap_append]
    simp only [List.flatMap_cons, List.flatMap_nil, List.append_nil]
    have h1 := List.filter_append_perm (fun e : Nat × Nat => decide (e.1 < n))
      (es.filter (fun e => decide (e.1 < n + 1)))
    have h2 : (es.filter (fun e => decide (e.1 < n + 1))).filter
        (fun e : Nat × Nat => decide (e.1 < n)) = es.filter (fun e => decide (e.1 < n)) := by
      rw [List.filter_filter]
      apply List.filter_congr
      intro e _
      by_cases h : e.1 < n
      · have : e.1 < n + 1 := by omega
        simp [h, this]
      · simp [h]
    have h3 : (es.filter (fun e => decide (e.1 < n + 1))).filter
        (fun e : Nat × Nat => !decide (e.1 < n)) = es.filter (fun e => decide (e.1 = n)) := by
      rw [List.filter_filter]
      apply List.filter_congr
      intro e _
      by_cases h : e.1 = n
      · simp [h]
      · by_cases h' : e.1 < n
        · simp [h, h']
        · have : ¬ (e.1 < n + 1) := by omega
          simp [h, h', this]
    rw [h2, h3] at h1
    exact (List.Perm.append_right _ ih).trans h1

theorem bucket_pairs (es : List (Nat × Nat)) (v : Nat) :
    (bucket es v).map (fun d => (v, d)) = es.filter (fun e => decide (e.1 = v)) := by
  unfold bucket
  rw [List.map_map]
  conv_rhs => rw [← List.map_id (es.filter (fun e => decide (e.1 = v)))]
  apply List.map_congr_left
  intro e he
  have := (List.mem_filter.1 he).2
  simp only [decide_eq_true_eq] at this
  simp [← this]

/-- The pairs read bucket by bucket from a CSR are a rearrangement of the pairs it was
built from. -/
theorem flatMap_bucket_perm (es : List (Nat × Nat)) (nV : Nat) (hk : ∀ e ∈ es, e.1 < nV) :
    ((List.range nV).flatMap (fun v => (bucket es v).map (fun d => (v, d)))).Perm es := by
  have h1 : (List.range nV).flatMap (fun v => (bucket es v).map (fun d => (v, d))) =
      (List.range nV).flatMap (fun v => es.filter (fun e => decide (e.1 = v))) := by
    simp only [bucket_pairs]
  rw [h1]
  have h2 : es.filter (fun e => decide (e.1 < nV)) = es := by
    rw [List.filter_eq_self]
    intro e he
    simpa using hk e he
  have := flatMap_filter_fst es nV
  rw [h2] at this
  exact this

/-! ## allocate followed by COOtoCSR -/

/-- The graph built by `allocate`, the reader and `COOtoCSR`: counts, pointers and
structure, the bound on the final edges, and the CSR description of both views. -/
theorem built_spec (T : TypeParams) (g0 g1 : GraphStd) (ginfo : GInfo)
    (rnd : Nat → Bool) (junk : Nat → Nat) (junk_coo : Nat → Nat × Nat)
    (buf : List (Nat × Nat)) (ra : List Nat)
    (halloc : g0.allocate T ginfo rnd junk junk_coo = some g1)
    (hlen : buf.length = g1._nE)
    (hb : Bounded g1._nV (buf.take (g1.load buf).native_count))
    (hperm : g1._prop.is_randomize = true → ra.Perm (List.range g1._nV)) :
    (g1.built buf ra)._nV = g1._nV ∧
    (g1.built buf ra)._nE = ((g1.load buf).final_coo ra).length ∧
    (g1.built buf ra)._nE ≤ g1._nE ∧
    Bounded g1._nV ((g1.load buf).final_coo ra) ∧
    (g1.built buf ra)._structure = g1._structure ∧
    ((g1.built buf ra)._out_offsets = some Addr.out_offsets ∧
      (g1.built buf ra)._out_edges = some Addr.out_edges ∧
      (g1.built buf ra)._out_degrees = some Addr.out_degrees) ∧
    IsCSR g1._nV ((g1.load buf).final_coo ra) (g1.built buf ra).heap.out_degrees
      (g1.built buf ra).heap.out_offsets (g1.built buf ra).heap.out_edges ∧
    (g1._structure.is_directed = true → g1._structure.is_reverse = true →
      ((g1.built buf ra)._in_offsets = some Addr.in_offsets ∧
        (g1.built buf ra)._in_edges = some Addr.in_edges ∧
        (g1.built buf ra)._in_degrees = some Addr.in_degrees) ∧
      IsCSR g1._nV (((g1.load buf).final_coo ra).map Prod.swap)
        (g1.built buf ra).heap.in_degrees (g1.built buf ra).heap.in_offsets
        (g1.built buf ra).heap.in_edges) := by
  obtain ⟨hout, hE, _⟩ := allocate_out_ready T g0 g1 ginfo rnd junk junk_coo halloc
  have hok := prepare_coo_ok (g1.load buf) ra buf rfl hlen hb hperm
  obtain ⟨c1, c2, c3⟩ := hok
  have hes : ((g1.load buf).final_coo ra).length = ((g1.load buf).prepare_coo ra).2 := by
    unfold GraphStd.final_coo
    rw [List.length_take, c1]
    exact Nat.min_eq_left c2
  have hspec := build_csr_spec ((g1.load buf).prepare ra) ((g1.load buf).final_coo ra)
    hout
    (by
      intro hd hr
      obtain ⟨hin, hEi⟩ := allocate_in_ready T g0 g1 ginfo rnd junk junk_coo halloc hd hr
      refine ⟨hin, ?_⟩
      rw [hes]
      exact Nat.le_trans c2 (Nat.le_of_eq hEi.symm))
    (by
      rw [hes]
      exact Nat.le_trans c2 (Nat.le_of_eq hE.symm))
    c3
  obtain ⟨s1, _, s3⟩ := hspec
  refine ⟨rfl, hes.symm, c2, c3, rfl, ⟨hout.1, hout.2.1, hout.2.2.1⟩, s1, ?_⟩
  intro hd hr
  obtain ⟨hin, _⟩ := allocate_in_ready T g0 g1 ginfo rnd junk junk_coo halloc hd hr
  exact ⟨⟨hin.1, hin.2.1, hin.2.2.1⟩, s3 hd hr⟩

/-! ## Properties of the built graph -/

/-- C1: for a graph built by `allocate` followed by `COOtoCSR` from a COO buffer whose
native edges have endpoints below `_nV`, the out-offsets start at 0, end at the final edge
count, and are non-decreasing. -/
theorem C1_out_offsets_shape (T : TypeParams) (g0 g1 : GraphStd) (ginfo : GInfo)
    (rnd : Nat → Bool) (junk : Nat → Nat) (junk_coo : Nat → Nat × Nat)
    (buf : List (Nat × Nat)) (ra : List Nat)
    (halloc : g0.allocate T ginfo rnd junk junk_coo = some g1)
    (hlen : buf.length = g1._nE)
    (hb : Bounded g1._nV (buf.take (g1.load buf).native_count))
    (hperm : g1._prop.is_randomize = true → ra.Perm (List.range g1._nV)) :
    (g1.built buf ra).heap.read (g1.built buf ra)._out_offsets 0 = 0 ∧
    (g1.built buf ra).heap.read (g1.built buf ra)._out_offsets (g1.built buf ra)._nV =
      (g1.built buf ra)._nE ∧
    ∀ i, i < (g1.built buf ra)._nV →
      (g1.built buf ra).heap.read (g1.built buf ra)._out_offsets i ≤
        (g1.built buf ra).heap.read (g1.built buf ra)._out_offsets (i + 1) := by
  obtain ⟨b1, b2, _, b4, _, ⟨b6, _, _⟩, b7, _⟩ :=
    built_spec T g0 g1 ginfo rnd junk junk_coo buf ra halloc hlen hb hperm
  rw [b6, b1, b2]
  refine ⟨b7.off_zero, b7.off_last (fun e he => (b4 e he).1), ?_⟩
  intro i hi
  have := b7.off_succ i hi
  show (g1.built buf ra).heap.out_offsets.getD i 0 ≤
    (g1.built buf ra).heap.out_offsets.getD (i + 1) 0
  omega

/-- C2: after the build, for every vertex the difference of consecutive out-offsets is
its out-degree, and the out-degrees sum to the final edge count. -/
theorem C2_degrees_match_offsets (T : TypeParams) (g0 g1 : GraphStd) (ginfo : GInfo)
    (rnd : Nat → Bool) (junk : Nat → Nat) (junk_coo : Nat → Nat × Nat)
    (buf : List (Nat × Nat)) (ra : List Nat)
    (halloc : g0.allocate T ginfo rnd junk junk_coo = some g1)
    (hlen : buf.length = g1._nE)
    (hb : Bounded g1._nV (buf.take (g1.load buf).native_count))
    (hperm : g1._prop.is_randomize = true → ra.Perm (List.range g1._nV)) :
    (∀ v, v < (g1.built buf ra)._nV →
      (g1.built buf ra).heap.read (g1.built buf ra)._out_offsets (v + 1) -
          (g1.built buf ra).heap.read (g1.built buf ra)._out_offsets v =
        (g1.built buf ra).heap.read (g1.built buf ra)._out_degrees v) ∧
    (g1.built buf ra).out_degrees.sum = (g1.built buf ra)._nE := by
  obtain ⟨b1, b2, _, b4, _, ⟨b6, _, b8⟩, b7, _⟩ :=
    built_spec T g0 g1 ginfo rnd junk junk_coo buf ra halloc hlen hb hperm
  unfold GraphStd.out_degrees
  rw [b6, b8, b1, b2]
  constructor
  · intro v hv
    have h1 := b7.off_succ v hv
    have h2 := b7.deg_getD v hv
    show (g1.built buf ra).heap.out_offsets.getD (v + 1) 0 -
        (g1.built buf ra).heap.out_offsets.getD v 0 =
      (g1.built buf ra).heap.out_degrees.getD v 0
    omega
  · have h3 : (List.range g1._nV).map ((g1.built buf ra).heap.read (some Addr.out_degrees)) =
        (g1.built buf ra).heap.out_degrees :=
      map_getD_range _ _ b7.deg_length
    rw [h3]
    exact b7.deg_sum (fun e he => (b4 e he).1)

/-- C3: after `COOtoCSR`, the out-neighbours of every vertex `v` are the destinations of
the edges of the final COO buffer with source `v`, in buffer order; hence the pairs read
from the CSR are a rearrangement of the edges of the final COO buffer. -/
theorem C3_out_edges_stable_buckets (T : TypeParams) (g0 g1 : GraphStd) (ginfo : GInfo)
    (rnd : Nat → Bool) (junk : Nat → Nat) (junk_coo : Nat → Nat × Nat)
    (buf : List (Nat × Nat)) (ra : List Nat)
    (halloc : g0.allocate T ginfo rnd junk junk_coo = some g1)
    (hlen : buf.length = g1._nE)
    (hb : Bounded g1._nV (buf.take (g1.load buf).native_count))
    (hperm : g1._prop.is_randomize = true → ra.Perm (List.range g1._nV)) :
    (∀ v, v < (g1.built buf ra)._nV →
      (g1.built buf ra).out_neighbours v =
        (((g1.load buf).final_coo ra).filter (fun e => decide (e.1 = v))).map Prod.snd) ∧
    (g1.built buf ra).csr_pairs.Perm ((g1.load buf).final_coo ra) := by
  obtain ⟨b1, _, _, b4, _, ⟨b6, b9, _⟩, b7, _⟩ :=
    built_spec T g0 g1 ginfo rnd junk junk_coo buf ra halloc hlen hb hperm
  have hn : ∀ v, v < (g1.built buf ra)._nV →
      (g1.built buf ra).out_neighbours v = bucket ((g1.load buf).final_coo ra) v := by
    intro v hv
    unfold GraphStd.out_neighbours
    rw [b6, b9]
    exact b7.neighbours v (b1 ▸ hv)
  refine ⟨hn, ?_⟩
  unfold GraphStd.csr_pairs
  have h1 : (List.range (g1.built buf ra)._nV).flatMap
      (fun v => ((g1.built buf ra).out_neighbours v).map (fun d => (v, d))) =
      (List.range (g1.built buf ra)._nV).flatMap
        (fun v => (bucket ((g1.load buf).final_coo ra) v).map (fun d => (v, d))) := by
    simp only [List.flatMap]
    congr 1
    apply List.map_congr_left
    intro v hv
    rw [hn v (List.mem_range.1 hv)]
  rw [h1, b1]
  exact flatMap_bucket_perm _ _ (fun e he => (b4 e he).1)

theorem C1_out_offsets_shape_witness :
    (ex_g1.built ex_buf ex_ra).heap.read (ex_g1.built ex_buf ex_ra)._out_offsets 0 = 0 ∧
    (ex_g1.built ex_buf ex_ra).heap.read (ex_g1.built ex_buf ex_ra)._out_offsets
        (ex_g1.built ex_buf ex_ra)._nV = (ex_g1.built ex_buf ex_ra)._nE ∧
    ∀ i, i < (ex_g1.built ex_buf ex_ra)._nV →
      (ex_g1.built ex_buf ex_ra).heap.read (ex_g1.built ex_buf ex_ra)._out_offsets i ≤
        (ex_g1.built ex_buf ex_ra).heap.read (ex_g1.built ex_buf ex_ra)._out_offsets (i + 1) :=
  C1_out_offsets_shape ex_T ex_g0 ex_g1 ex_ginfo (fun _ => true) (fun _ => 7)
    (fun _ => (9, 9)) ex_buf ex_ra (by rfl) (by decide) (by decide) (fun _ => by decide)

theorem C2_degrees_match_offsets_witness :
    (∀ v, v < (ex_g1.built ex_buf ex_ra)._nV →
      (ex_g1.built ex_buf ex_ra).heap.read (ex_g1.built ex_buf ex_ra)._out_offsets (v + 1) -
          (ex_g1.built ex_buf ex_ra).heap.read (ex_g1.built ex_buf ex_ra)._out_offsets v =
        (ex_g1.built ex_buf ex_ra).heap.read (ex_g1.built ex_buf ex_ra)._out_degrees v) ∧
    (ex_g1.built ex_buf ex_ra).out_degrees.sum = (ex_g1.built ex_buf ex_ra)._nE :=
  C2_degrees_match_offsets ex_T ex_g0 ex_g1 ex_ginfo (fun _ => true) (fun _ => 7)
    (fun _ => (9, 9)) ex_buf ex_ra (by rfl) (by decide) (by decide) (fun _ => by decide)

theorem C3_out_edges_stable_buckets_witness :
    (∀ v, v < (ex_g1.built ex_buf ex_ra)._nV →
      (ex_g1.built ex_buf ex_ra).out_neighbours v =
        (((ex_g1.load ex_buf).final_coo ex_ra).filter
          (fun e => decide (e.1 = v))).map Prod.snd) ∧
    (ex_g1.built ex_buf ex_ra).csr_pairs.Perm ((ex_g1.load ex_buf).final_coo ex_ra) :=
  C3_out_edges_stable_buckets ex_T ex_g0 ex_g1 ex_ginfo (fun _ => true) (fun _ => 7)
    (fun _ => (9, 9)) ex_buf ex_ra (by rfl) (by decide) (by decide) (fun _ => by decide)

theorem bucket_swap (es : List (Nat × Nat)) (v : Nat) :
    bucket (es.map Prod.swap) v = (es.filter (fun e => decide (e.2 = v))).map Prod.fst := by
  induction es with
  | nil => rfl
  | cons e es ih =>
    simp only [bucket, List.map_cons, List.filter_cons, Prod.fst_swap] at ih ⊢
    by_cases h : e.2 = v
    · simp [h, ih]
    · simp [h, ih]

/-- C4: for a directed graph built with a reverse view, the in-offsets are the exclusive
prefix sums of the in-degrees (first 0, last the final edge count, consecutive
differences the in-degrees, which count the final edges by destination), and the
in-neighbours of every vertex `v` are the sources of the final edges with destination `v`,
in buffer order. -/
theorem C4_reverse_view (T : TypeParams) (g0 g1 : GraphStd) (ginfo : GInfo)
    (rnd : Nat → Bool) (junk : Nat → Nat) (junk_coo : Nat → Nat × Nat)
    (buf : List (Nat × Nat)) (ra : List Nat)
    (halloc : g0.allocate T ginfo rnd junk junk_coo = some g1)
    (hlen : buf.length = g1._nE)
    (hb : Bounded g1._nV (buf.take (g1.load buf).native_count))
    (hperm : g1._prop.is_randomize = true → ra.Perm (List.range g1._nV))
    (hd : g1._structure.is_directed = true) (hr : g1._structure.is_reverse = true) :
    (g1.built buf ra).heap.read (g1.built buf ra)._in_offsets 0 = 0 ∧
    (g1.built buf ra).heap.read (g1.built buf ra)._in_offsets (g1.built buf ra)._nV =
      (g1.built buf ra)._nE ∧
    (∀ j, j ≤ (g1.built buf ra)._nV →
      (g1.built buf ra).heap.read (g1.built buf ra)._in_offsets j =
        ((g1.built buf ra).in_degrees.take j).sum) ∧
    (∀ v, v < (g1.built buf ra)._nV →
      (g1.built buf ra).heap.read (g1.built buf ra)._in_offsets (v + 1) -
          (g1.built buf ra).heap.read (g1.built buf ra)._in_offsets v =
        (g1.built buf ra).heap.read (g1.built buf ra)._in_degrees v ∧
      (g1.built buf ra).heap.read (g1.built buf ra)._in_degrees v =
        (((g1.load buf).final_coo ra).filter (fun e => decide (e.2 = v))).length ∧
      (g1.built buf ra).in_neighbours v =
        (((g1.load buf).final_coo ra).filter (fun e => decide (e.2 = v))).map Prod.fst) := by
  obtain ⟨b1, b2, _, b4, _, _, _, bin⟩ :=
    built_spec T g0 g1 ginfo rnd junk junk_coo buf ra halloc hlen hb hperm
  obtain ⟨⟨i1, i2, i3⟩, hcsr⟩ := bin hd hr
  have hk : ∀ e ∈ ((g1.load buf).final_coo ra).map Prod.swap, e.1 < g1._nV := by
    intro e he
    obtain ⟨x, hx, rfl⟩ := List.mem_map.1 he
    exact (b4 x hx).2
  have hcount : ∀ v, ((((g1.load buf).final_coo ra).map Prod.swap).map Prod.fst).count v =
      (((g1.load buf).final_coo ra).filter (fun e => decide (e.2 = v))).length := by
    intro v
    rw [← length_bucket, bucket_swap, List.length_map]
  have hdeg : (g1.built buf ra).in_degrees = (g1.built buf ra).heap.in_degrees := by
    unfold GraphStd.in_degrees
    rw [i3, b1]
    exact map_getD_range _ _ hcsr.deg_length
  unfold GraphStd.in_neighbours
  rw [hdeg, i1, i2, i3, b1, b2]
  refine ⟨hcsr.off_zero, ?_, ?_, ?_⟩
  · have := hcsr.off_last hk
    rw [List.length_map] at this
    exact this
  · intro j hj
    show (g1.built buf ra).heap.in_offsets.getD j 0 = _
    rw [hcsr.2.2.1 j hj, hcsr.1, sum_take_count_keys _ _ _ hj]
  · intro v hv
    have h1 := hcsr.off_succ v hv
    have h2 := hcsr.deg_getD v hv
    have h3 := hcsr.neighbours v hv
    rw [bucket_swap] at h3
    rw [hcount v] at h1 h2
    refine ⟨?_, h2, h3⟩
    show (g1.built buf ra).heap.in_offsets.getD (v + 1) 0 -
        (g1.built buf ra).heap.in_offsets.getD v 0 =
      (g1.built buf ra).heap.in_degrees.getD v 0
    omega

theorem C4_reverse_view_witness :
    (ex_g1.built ex_buf ex_ra).heap.read (ex_g1.built ex_buf ex_ra)._in_offsets 0 = 0 ∧
    (ex_g1.built ex_buf ex_ra).heap.read (ex_g1.built ex_buf ex_ra)._in_offsets
        (ex_g1.built ex_buf ex_ra)._nV = (ex_g1.built ex_buf ex_ra)._nE ∧
    (∀ j, j ≤ (ex_g1.built ex_buf ex_ra)._nV →
      (ex_g1.built ex_buf ex_ra).heap.read (ex_g1.built ex_buf ex_ra)._in_offsets j =
        ((ex_g1.built ex_buf ex_ra).in_degrees.take j).sum) ∧
    (∀ v, v < (ex_g1.built ex_buf ex_ra)._nV →
      (ex_g1.built ex_buf ex_ra).heap.read (ex_g1.built ex_buf ex_ra)._in_offsets (v + 1) -
          (ex_g1.built ex_buf ex_ra).heap.read (ex_g1.built ex_buf ex_ra)._in_offsets v =
        (ex_g1.built ex_buf ex_ra).heap.read (ex_g1.built ex_buf ex_ra)._in_degrees v ∧
      (ex_g1.built ex_buf ex_ra).heap.read (ex_g1.built ex_buf ex_ra)._in_degrees v =
        (((ex_g1.load ex_buf).final_coo ex_ra).filter
          (fun e => decide (e.2 = v))).length ∧
      (ex_g1.built ex_buf ex_ra).in_neighbours v =
        (((ex_g1.load ex_buf).final_coo ex_ra).filter
          (fun e => decide (e.2 = v))).map Prod.fst) :=
  C4_reverse_view ex_T ex_g0 ex_g1 ex_ginfo (fun _ => true) (fun _ => 7)
    (fun _ => (9, 9)) ex_buf ex_ra (by rfl) (by decide) (by decide) (fun _ => by decide)
    (by decide) (by decide)

theorem allocate_alias (T : TypeParams) (g0 g1 : GraphStd) (ginfo : GInfo)
    (rnd : Nat → Bool) (junk : Nat → Nat) (junk_coo : Nat → Nat × Nat)
    (h : g0.allocate T ginfo rnd junk junk_coo = some g1)
    (hu : g1._structure.is_undirected = true) :
    g1._in_offsets = some Addr.out_offsets ∧ g1._in_edges = some Addr.out_edges ∧
      g1._in_degrees = some Addr.out_degrees := by
  simp only [GraphStd.allocate] at h
  split_ifs at h <;> cases h <;> simp_all

theorem allocate_no_in_view (T : TypeParams) (s : StructureProp) (p : ParsingProp)
    (su : Bool) (g1 : GraphStd) (ginfo : GInfo)
    (rnd : Nat → Bool) (junk : Nat → Nat) (junk_coo : Nat → Nat × Nat)
    (h : (GraphStd.create s p su).allocate T ginfo rnd junk junk_coo = some g1)
    (hu : g1._structure.is_undirected = false) (hr : g1._structure.is_reverse = false) :
    g1._in_offsets = none ∧ g1._in_edges = none ∧ g1._in_degrees = none := by
  simp only [GraphStd.allocate, GraphStd.create] at h
  split_ifs at h <;> cases h <;> simp_all

theorem allocate_direction_set (T : TypeParams) (g0 g1 : GraphStd) (ginfo : GInfo)
    (rnd : Nat → Bool) (junk : Nat → Nat) (junk_coo : Nat → Nat × Nat)
    (h : g0.allocate T ginfo rnd junk junk_coo = some g1) :
    (g1._structure.is_undirected = true ∧ g1._structure.is_directed = false) ∨
      (g1._structure.is_undirected = false ∧ g1._structure.is_directed = true) := by
  have hs : g1._structure.direction.isSome = true := by
    simp only [GraphStd.allocate] at h
    split_ifs at h <;> cases h <;>
      simp_all [StructureProp.is_direction_set, StructureProp.add_direction]
  unfold StructureProp.is_undirected StructureProp.is_directed
  rcases hd : g1._structure.direction with _ | _ | _
  · rw [hd] at hs
    exact absurd hs (by decide)
  · exact Or.inl ⟨by decide, by decide⟩
  · exact Or.inr ⟨by decide, by decide⟩

/-- C5: when the structure after `allocate` is undirected, the in-pointers are the
out-pointers (each names an allocated array) after `allocate` and after `COOtoCSR`, so
every cell read through an in-pointer is the cell read through the out-pointer and the
in-neighbours of every vertex are its out-neighbours, whatever the buffer holds;
independent in-arrays exist exactly when the structure is directed with a reverse view,
a directed graph without reverse view has no in-array, and the destructor deletes no
array twice. -/
theorem C5_undirected_in_view_aliases_out_view (T : TypeParams) (s : StructureProp)
    (p : ParsingProp) (su : Bool) (g1 : GraphStd) (ginfo : GInfo)
    (rnd : Nat → Bool) (junk : Nat → Nat) (junk_coo : Nat → Nat × Nat)
    (buf : List (Nat × Nat)) (ra : List Nat)
    (halloc : (GraphStd.create s p su).allocate T ginfo rnd junk junk_coo = some g1) :
    (g1._structure.is_undirected = true →
      (g1._in_offsets = g1._out_offsets ∧ g1._in_edges = g1._out_edges ∧
        g1._in_degrees = g1._out_degrees ∧ g1._out_offsets.isSome = true ∧
        g1._out_edges.isSome = true ∧ g1._out_degrees.isSome = true) ∧
      ((g1.built buf ra)._in_offsets = (g1.built buf ra)._out_offsets ∧
        (g1.built buf ra)._in_edges = (g1.built buf ra)._out_edges ∧
        (g1.built buf ra)._in_degrees = (g1.built buf ra)._out_degrees) ∧
      (∀ i, (g1.built buf ra).heap.read (g1.built buf ra)._in_offsets i =
          (g1.built buf ra).heap.read (g1.built buf ra)._out_offsets i ∧
        (g1.built buf ra).heap.read (g1.built buf ra)._in_edges i =
          (g1.built buf ra).heap.read (g1.built buf ra)._out_edges i ∧
        (g1.built buf ra).heap.read (g1.built buf ra)._in_degrees i =
          (g1.built buf ra).heap.read (g1.built buf ra)._out_degrees i) ∧
      (∀ v, (g1.built buf ra).in_neighbours v = (g1.built buf ra).out_neighbours v)) ∧
    ((g1._in_offsets = some Addr.in_offsets ∧ g1._in_edges = some Addr.in_edges ∧
        g1._in_degrees = some Addr.in_degrees) ↔
      (g1._structure.is_directed = true ∧ g1._structure.is_reverse = true)) ∧
    (g1._structure.is_directed = true → g1._structure.is_reverse = false →
      g1._in_offsets = none ∧ g1._in_edges = none ∧ g1._in_degrees = none) ∧
    (g1.built buf ra).destructor_deletes.Nodup := by
  obtain ⟨⟨o1, o2, o3, _, _⟩, _, _⟩ :=
    allocate_out_ready T _ g1 ginfo rnd junk junk_coo halloc
  have hdir := allocate_direction_set T _ g1 ginfo rnd junk junk_coo halloc
  have halias := allocate_alias T _ g1 ginfo rnd junk junk_coo halloc
  have hnone := allocate_no_in_view T s p su g1 ginfo rnd junk junk_coo halloc
  have hown := allocate_in_ready T _ g1 ginfo rnd junk junk_coo halloc
  have hptr : (g1.built buf ra)._in_offsets = g1._in_offsets ∧
      (g1.built buf ra)._in_edges = g1._in_edges ∧
      (g1.built buf ra)._in_degrees = g1._in_degrees ∧
      (g1.built buf ra)._out_offsets = g1._out_offsets ∧
      (g1.built buf ra)._out_edges = g1._out_edges ∧
      (g1.built buf ra)._out_degrees = g1._out_degrees ∧
      (g1.built buf ra)._structure = g1._structure := ⟨rfl, rfl, rfl, rfl, rfl, rfl, rfl⟩
  obtain ⟨e1, e2, e3, e4, e5, e6, e7⟩ := hptr
  unfold GraphStd.in_neighbours GraphStd.out_neighbours GraphStd.destructor_deletes
  rw [e1, e2, e3, e4, e5, e6, e7, o1, o2, o3]
  refine ⟨?_, ?_, ?_, ?_⟩
  · intro hu
    obtain ⟨a1, a2, a3⟩ := halias hu
    rw [a1, a2, a3]
    exact ⟨⟨rfl, rfl, rfl, rfl, rfl, rfl⟩, ⟨rfl, rfl, rfl⟩, fun _ => ⟨rfl, rfl, rfl⟩,
      fun _ => rfl⟩
  · constructor
    · intro ⟨i1, _, _⟩
      rcases hdir with ⟨hu, _⟩ | ⟨hu, hd⟩
      · rw [(halias hu).1] at i1
        exact absurd i1 (by decide)
      · refine ⟨hd, ?_⟩
        cases hr : g1._structure.is_reverse
        · rw [(hnone hu hr).1] at i1
          exact absurd i1 (by decide)
        · rfl
    · intro ⟨hd, hr⟩
      obtain ⟨⟨i1, i2, i3, _, _⟩, _⟩ := hown hd hr
      exact ⟨i1, i2, i3⟩
  · intro hd hr
    rcases hdir with ⟨_, hd2⟩ | ⟨hu, _⟩
    · rw [hd2] at hd
      exact absurd hd (by decide)
    · exact hnone hu hr
  · cases hd : g1._structure.is_directed <;> cases hr : g1._structure.is_reverse
    · simp
    · simp
    · simp
    · obtain ⟨⟨i1, i2, i3, _, _⟩, _⟩ := hown hd hr
      rw [i1, i2, i3]
      decide

theorem C5_undirected_in_view_aliases_out_view_witness :
    (ex_g1u._structure.is_undirected = true →
      (ex_g1u._in_offsets = ex_g1u._out_offsets ∧ ex_g1u._in_edges = ex_g1u._out_edges ∧
        ex_g1u._in_degrees = ex_g1u._out_degrees ∧ ex_g1u._out_offsets.isSome = true ∧
        ex_g1u._out_edges.isSome = true ∧ ex_g1u._out_degrees.isSome = true) ∧
      ((ex_g1u.built ex_bufu ex_ra)._in_offsets = (ex_g1u.built ex_bufu ex_ra)._out_offsets ∧
        (ex_g1u.built ex_bufu ex_ra)._in_edges = (ex_g1u.built ex_bufu ex_ra)._out_edges ∧
        (ex_g1u.built ex_bufu ex_ra)._in_degrees =
          (ex_g1u.built ex_bufu ex_ra)._out_degrees) ∧
      (∀ i, (ex_g1u.built ex_bufu ex_ra).heap.read (ex_g1u.built ex_bufu ex_ra)._in_offsets i =
          (ex_g1u.built ex_bufu ex_ra).heap.read (ex_g1u.built ex_bufu ex_ra)._out_offsets i ∧
        (ex_g1u.built ex_bufu ex_ra).heap.read (ex_g1u.built ex_bufu ex_ra)._in_edges i =
          (ex_g1u.built ex_bufu ex_ra).heap.read (ex_g1u.built ex_bufu ex_ra)._out_edges i ∧
        (ex_g1u.built ex_bufu ex_ra).heap.read (ex_g1u.built ex_bufu ex_ra)._in_degrees i =
          (ex_g1u.built ex_bufu ex_ra).heap.read (ex_g1u.built ex_bufu ex_ra)._out_degrees i) ∧
      (∀ v, (ex_g1u.built ex_bufu ex_ra).in_neighbours v =
        (ex_g1u.built ex_bufu ex_ra).out_neighbours v)) ∧
    ((ex_g1u._in_offsets = some Addr.in_offsets ∧ ex_g1u._in_edges = some Addr.in_edges ∧
        ex_g1u._in_degrees = some Addr.in_degrees) ↔
      (ex_g1u._structure.is_directed = true ∧ ex_g1u._structure.is_reverse = true)) ∧
    (ex_g1u._structure.is_directed = true → ex_g1u._structure.is_reverse = false →
      ex_g1u._in_offsets = none ∧ ex_g1u._in_edges = none ∧ ex_g1u._in_degrees = none) ∧
    (ex_g1u.built ex_bufu ex_ra).destructor_deletes.Nodup :=
  C5_undirected_in_view_aliases_out_view ex_T
    { direction := some Direction.UNDIRECTED, reverse := false, coo := false }
    { print := false, sort := false, randomize := false } false ex_g1u ex_ginfo
    (fun _ => true) (fun _ => 7) (fun _ => (9, 9)) ex_bufu ex_ra (by rfl)

/-! ## Export -/

theorem read_nums_append (l : List Nat) (rest : List Word) :
    read_nums l.length (l.map Word.num ++ rest) = some (l, rest) := by
  induction l with
  | nil => rfl
  | cons a l ih => simp [read_nums, ih]

theorem Heap.length_cells (h : Heap) (p : Ptr) (n : Nat) : (h.cells p n).length = n := by
  simp [Heap.cells]

theorem read_nums_cells (h : Heap) (p : Ptr) (n : Nat) (rest : List Word) :
    read_nums n ((h.cells p n).map Word.num ++ rest) = some (h.cells p n, rest) := by
  have := read_nums_append (h.cells p n) rest
  rw [Heap.length_cells] at this
  exact this

/-- Counterexample to C6 as stated: for the undirected graph built from `ex_bufu`, the
structure flags decoded from the binary file are not the graph's own structure
descriptor (the file says directed). -/
theorem C6_flags_differ_for_undirected :
    (readBinary ex_T.class_id ((ex_g1u.built ex_bufu ex_ra).writeBinary ex_T)).map
        (fun b => b.flags) = some DIRECTED ∧
      (ex_g1u.built ex_bufu ex_ra)._structure =
        { direction := some Direction.UNDIRECTED, reverse := false, coo := false } ∧
      (readBinary ex_T.class_id ((ex_g1u.built ex_bufu ex_ra).writeBinary ex_T)).map
        (fun b => b.flags) ≠ some (ex_g1u.built ex_bufu ex_ra)._structure := by
  decide

/-- C6 (amended): decoding what `writeBinary` writes, in the documented layout, gives
back the vertex count, the edge count, the out-offsets and the out-edges, and the
in-offsets and in-edges exactly when the graph is directed with a reverse view; the
decoded structure flags are `DIRECTED | REVERSE` in that case and `DIRECTED` otherwise,
which is the graph's own structure descriptor exactly when the graph is directed and
does not retain the COO buffer. -/
theorem C6_binary_roundtrip (T : TypeParams) (g : GraphStd) :
    readBinary T.class_id (g.writeBinary T) = some
      { nV := g._nV, nE := g._nE,
        flags := if g._structure.is_directed && g._structure.is_reverse then
                   DIRECTED_REVERSE else DIRECTED,
        out_offsets := g.heap.cells g._out_offsets (g._nV + 1),
        in_offsets := if g._structure.is_directed && g._structure.is_reverse then
                        some (g.heap.cells g._in_offsets (g._nV + 1)) else none,
        out_edges := g.heap.cells g._out_edges g._nE,
        in_edges := if g._structure.is_directed && g._structure.is_reverse then
                      some (g.heap.cells g._in_edges g._nE) else none } ∧
    ((if g._structure.is_directed && g._structure.is_reverse then
        DIRECTED_REVERSE else DIRECTED) = g._structure ↔
      (g._structure.is_directed = true ∧ g._structure.is_coo = false)) := by
  constructor
  · unfold GraphStd.writeBinary readBinary
    by_cases hrev : (g._structure.is_directed && g._structure.is_reverse) = true
    · simp only [hrev, if_true, List.append_assoc, read_nums_append, List.cons_append,
        List.nil_append, read_arrays, read_nums_cells, DIRECTED_REVERSE]
      have := read_nums_cells g.heap g._in_edges g._nE []
      rw [List.append_nil] at this
      simp [this]
    · simp only [hrev, if_false, List.append_assoc, read_nums_append, List.cons_append,
        List.nil_append, read_arrays, read_nums_cells, DIRECTED, Bool.false_eq_true]
      have := read_nums_cells g.heap g._out_edges g._nE []
      rw [List.append_nil] at this
      simp [this]
  · rcases hs : g._structure with ⟨_ | _ | _, _ | _, _ | _⟩ <;>
      simp [StructureProp.is_directed, StructureProp.is_reverse, StructureProp.is_coo,
        DIRECTED, DIRECTED_REVERSE]

theorem sum_range_diff (f : Nat → Nat) (n : Nat) (hmono : ∀ i, i < n → f i ≤ f (i + 1)) :
    ((List.range n).map (fun i => f (i + 1) - f i)).sum = f n - f 0 ∧ f 0 ≤ f n := by
  induction n with
  | zero => simp
  | succ n ih =>
    obtain ⟨h1, h2⟩ := ih (fun i hi => hmono i (by omega))
    have h3 := hmono n (by omega)
    rw [List.range_succ, List.map_append, List.sum_append, h1]
    simp
    omega

theorem market_lines_eq (g : GraphStd) :
    g.market_lines = (List.range g._nV).flatMap (fun i =>
      (g.out_neighbours i).map
        (fun n => toString (i + 1) ++ " " ++ toString (n + 1) ++ "\n")) := by
  unfold GraphStd.market_lines GraphStd.out_neighbours
  simp only [List.map_map, Function.comp_def]

theorem length_market_lines (g : GraphStd) :
    g.market_lines.length = ((List.range g._nV).map (fun i =>
      g.heap.read g._out_offsets (i + 1) - g.heap.read g._out_offsets i)).sum := by
  unfold GraphStd.market_lines
  rw [List.length_flatMap]
  congr 1
  apply List.map_congr_left
  intro i _
  simp

/-- C7: the text written by `writeMarket` is the banner line, the line `nV nV nE`, then
for each vertex `i` in ascending order and each of its out-neighbours `n` in stored order
the line `i+1 n+1`; with well-formed offsets there are exactly `nE` such lines; for the
graph with 3 vertices and the edges (0,1), (1,2) the text is the one of the scenario. -/
theorem C7_writeMarket_text (g : GraphStd)
    (h0 : g.heap.read g._out_offsets 0 = 0)
    (hmono : ∀ i, i < g._nV → g.heap.read g._out_offsets i ≤ g.heap.read g._out_offsets (i + 1))
    (hlast : g.heap.read g._out_offsets g._nV = g._nE) :
    g.writeMarket = market_text g._nV g._nE g.out_neighbours ∧
    g.market_lines.length = g._nE ∧
    (∀ l, l ∈ g.market_lines → ∃ i n, i < g._nV ∧ n ∈ g.out_neighbours i ∧
      l = toString (i + 1) ++ " " ++ toString (n + 1) ++ "\n") ∧
    ex_g3.writeMarket =
      "%%MatrixMarket matrix coordinate pattern general\n3 3 2\n1 2\n2 3\n" := by
  refine ⟨?_, ?_, ?_, by rfl⟩
  · unfold GraphStd.writeMarket market_text
    rw [market_lines_eq]
  · rw [length_market_lines]
    have := (sum_range_diff (fun i => g.heap.read g._out_offsets i) g._nV hmono).1
    rw [this, h0, hlast]
    rfl
  · intro l hl
    rw [market_lines_eq] at hl
    obtain ⟨i, hi, hl2⟩ := List.mem_flatMap.1 hl
    obtain ⟨n, hn, rfl⟩ := List.mem_map.1 hl2
    exact ⟨i, n, List.mem_range.1 hi, hn, rfl⟩

theorem C7_writeMarket_text_witness :
    ex_g3.writeMarket = market_text ex_g3._nV ex_g3._nE ex_g3.out_neighbours ∧
    ex_g3.market_lines.length = ex_g3._nE ∧
    (∀ l, l ∈ ex_g3.market_lines → ∃ i n, i < ex_g3._nV ∧ n ∈ ex_g3.out_neighbours i ∧
      l = toString (i + 1) ++ " " ++ toString (n + 1) ++ "\n") ∧
    ex_g3.writeMarket =
      "%%MatrixMarket matrix coordinate pattern general\n3 3 2\n1 2\n2 3\n" :=
  C7_writeMarket_text ex_g3 (by decide) (by decide) (by decide)

theorem stream_separated (f : Nat → String) (len : Nat) :
    ∀ lo : Nat,
      stream ((List.range' lo len).map
        (fun j => f j ++ (if j < lo + len - 1 then " " else ""))) =
      join_spaces ((List.range' lo len).map f) := by
  induction len with
  | zero => intro lo; rfl
  | succ len ih =>
    intro lo
    have hbound : lo + (len + 1) - 1 = lo + 1 + len - 1 := by omega
    rw [List.range'_succ, List.map_cons, List.map_cons, stream, hbound, ih (lo + 1)]
    cases len with
    | zero =>
      have : ¬ (lo < lo + 1 + 0 - 1) := by omega
      simp [this, join_spaces]
    | succ k =>
      have : lo < lo + 1 + (k + 1) - 1 := by omega
      rw [if_pos this, List.range'_succ, List.map_cons, join_spaces]

theorem dimacs_line_eq (g : GraphStd) (i : Nat) :
    g.dimacs_line i =
      join_spaces ((g.out_neighbours i).map (fun n => toString (n + 1))) ++ "\n" := by
  unfold GraphStd.dimacs_line GraphStd.out_neighbours
  rw [List.map_map]
  by_cases hle : g.heap.read g._out_offsets i ≤ g.heap.read g._out_offsets (i + 1)
  · have hb : g.heap.read g._out_offsets (i + 1) - 1 =
        g.heap.read g._out_offsets i +
          (g.heap.read g._out_offsets (i + 1) - g.heap.read g._out_offsets i) - 1 := by
      omega
    rw [hb]
    rw [stream_separated (fun j => toString (g.heap.read g._out_edges j + 1))]
    rfl
  · have hz : g.heap.read g._out_offsets (i + 1) - g.heap.read g._out_offsets i = 0 := by
      omega
    rw [hz]
    rfl

theorem intercalate_go (sep : String) (l : List String) :
    ∀ acc : String, String.intercalate.go acc sep l =
      acc ++ stream (l.map (fun s => sep ++ s)) := by
  induction l with
  | nil => intro acc; simp [String.intercalate.go, stream]
  | cons a l ih =>
    intro acc
    simp [String.intercalate.go, stream, ih, String.append_assoc]

theorem join_spaces_cons (a : String) (l : List String) :
    join_spaces (a :: l) = a ++ stream (l.map (fun s => " " ++ s)) := by
  induction l generalizing a with
  | nil => simp [join_spaces, stream]
  | cons b t ih => simp [join_spaces, stream, ih, String.append_assoc]

/-- The separator-joined line of the model is the library's `String.intercalate`. -/
theorem join_spaces_eq_intercalate (l : List String) :
    join_spaces l = String.intercalate " " l := by
  cases l with
  | nil => rfl
  | cons a l => rw [join_spaces_cons, String.intercalate, intercalate_go]

/-- C8: the text written by `writeDimacs10th` is the header line `nV nE 100` followed by
one line per vertex, in ascending order: the neighbours plus one in stored order, joined
by single spaces (no space before the first or after the last); there are exactly `nV`
such lines, and the line of a vertex without neighbours is empty. -/
theorem C8_writeDimacs10th_text (g : GraphStd) :
    g.writeDimacs10th = dimacs_text g._nV g._nE g.out_neighbours ∧
    ((List.range g._nV).map g.dimacs_line).length = g._nV ∧
    (∀ i, g.dimacs_line i =
      String.intercalate " " ((g.out_neighbours i).map (fun n => toString (n + 1))) ++ "\n") ∧
    (∀ i, g.out_neighbours i = [] → g.dimacs_line i = "\n") ∧
    ex_g3.writeDimacs10th = "3 2 100\n2\n3\n\n" := by
  refine ⟨?_, by simp, ?_, ?_, by rfl⟩
  · unfold GraphStd.writeDimacs10th dimacs_text
    congr 2
    apply List.map_congr_left
    intro i _
    exact dimacs_line_eq g i
  · intro i
    rw [dimacs_line_eq, join_spaces_eq_intercalate]
  · intro i hi
    rw [dimacs_line_eq, hi]
    rfl

/-! ## Deduplication and edge counts -/

theorem head_std_unique (x : Nat × Nat) (t : List (Nat × Nat)) :
    (std_unique (x :: t)).head? = some x := by
  induction t generalizing x with
  | nil => rfl
  | cons b t ih =>
    simp only [std_unique]
    split
    · rename_i h
      rw [ih b, h]
    · rfl

theorem chain_std_unique : ∀ l : List (Nat × Nat), List.Chain' (fun a b => a ≠ b) (std_unique l)
  | [] => List.chain'_nil
  | [_] => List.chain'_singleton _
  | a :: b :: t => by
    have ih := chain_std_unique (b :: t)
    simp only [std_unique]
    split
    · exact ih
    · rename_i h
      rw [List.chain'_cons']
      refine ⟨?_, ih⟩
      intro y hy
      rw [head_std_unique] at hy
      cases hy
      exact h

theorem std_unique_of_chain : ∀ l : List (Nat × Nat),
    List.Chain' (fun a b => a ≠ b) l → std_unique l = l
  | [], _ => rfl
  | [_], _ => rfl
  | a :: b :: t, h => by
    have hab : a ≠ b := (List.chain'_cons.1 h).1
    have ih := std_unique_of_chain (b :: t) (List.chain'_cons.1 h).2
    simp only [std_unique, if_neg hab, ih]

theorem take_std_sort_all (n : Nat) (coo : List (Nat × Nat)) :
    (std_sort n coo).take n = (coo.take n).insertionSort coo_le := by
  unfold std_sort
  rw [List.take_append_eq_append_take, List.length_insertionSort, List.length_take]
  by_cases h : n ≤ coo.length
  · rw [Nat.min_eq_left h, Nat.sub_self, List.take_zero, List.append_nil,
      List.take_of_length_le (by rw [List.length_insertionSort, List.length_take]; omega)]
  · rw [List.drop_eq_nil_of_le (by omega), List.take_nil, List.append_nil,
      List.take_of_length_le (by rw [List.length_insertionSort, List.length_take]; omega)]

theorem sorted_std_unique_sorted (n : Nat) (coo : List (Nat × Nat)) :
    List.Sorted coo_le (std_unique ((std_sort n coo).take n)) := by
  rw [take_std_sort_all]
  exact (List.sorted_insertionSort coo_le _).sublist (std_unique_sublist _)

/-- C9: the deduplication pass of directed-to-undirected conversion (sort, collapse equal
neighbours, shrink the edge count) leaves its own output unchanged: a second run removes
no edge and keeps the buffer and the edge count. -/
theorem C9_dedup_fixed_point (c : List (Nat × Nat) × Nat) :
    dedup (dedup c) = dedup c ∧
    (dedup c).2 - (dedup (dedup c)).2 = 0 ∧
    (dedup (dedup c)).1.take (dedup (dedup c)).2 = (dedup c).1.take (dedup c).2 := by
  have hfix : dedup (dedup c) = dedup c := by
    have hsorted := sorted_std_unique_sorted c.2 c.1
    have hchain := chain_std_unique ((std_sort c.2 c.1).take c.2)
    have key : ∀ U D : List (Nat × Nat), List.Sorted coo_le U →
        std_sort U.length (U ++ D) = U ++ D := by
      intro U D hs
      unfold std_sort
      rw [List.take_left' rfl, List.drop_left' rfl, hs.insertionSort_eq]
    have hsort : std_sort (dedup c).2 (dedup c).1 = (dedup c).1 := key _ _ hsorted
    have htake : (dedup c).1.take (dedup c).2 = std_unique ((std_sort c.2 c.1).take c.2) := by
      simp only [dedup]
      rw [List.take_left' rfl]
    have huniq : std_unique ((dedup c).1.take (dedup c).2) = (dedup c).1.take (dedup c).2 := by
      rw [htake]
      exact std_unique_of_chain _ hchain
    have hlen : ((dedup c).1.take (dedup c).2).length = (dedup c).2 := by
      rw [htake]
      rfl
    have hstep : dedup (dedup c) =
        (std_unique ((std_sort (dedup c).2 (dedup c).1).take (dedup c).2) ++
          (std_sort (dedup c).2 (dedup c).1).drop
            (std_unique ((std_sort (dedup c).2 (dedup c).1).take (dedup c).2)).length,
         (std_unique ((std_sort (dedup c).2 (dedup c).1).take (dedup c).2)).length) := rfl
    rw [hstep, hsort, huniq, hlen, List.take_append_drop]
  rw [hfix]
  exact ⟨rfl, Nat.sub_self _, rfl⟩

theorem reverse_fold_count_le (is : List Nat) :
    ∀ st : List (Nat × Nat) × Nat,
      (is.foldl
        (fun (st : List (Nat × Nat) × Nat) i =>
          if (st.1.getD i (0, 0)).1 = (st.1.getD i (0, 0)).2 then st
          else (st.1.set st.2 ((st.1.getD i (0, 0)).2, (st.1.getD i (0, 0)).1), st.2 + 1))
        st).2 ≤ st.2 + is.length := by
  induction is with
  | nil => intro st; simp
  | cons i is ih =>
    intro st
    rw [List.foldl_cons]
    refine Nat.le_trans (ih _) ?_
    rw [List.length_cons]
    split
    · omega
    · show st.2 + 1 + is.length ≤ st.2 + (is.length + 1)
      omega

theorem dedup_count_le (c : List (Nat × Nat) × Nat) : (dedup c).2 ≤ c.2 := by
  have := (std_unique_sublist ((std_sort c.2 c.1).take c.2)).length_le
  rw [List.length_take] at this
  show (std_unique _).length ≤ c.2
  omega

/-- Lines 165-226 never increase the edge count. -/
theorem prepare_coo_count_le (g : GraphStd) (ra : List Nat) :
    (g.prepare_coo ra).2 ≤ g._nE := by
  have h1 : (g.phase_reverse (g._coo_edges.getD [], g._nE)).2 ≤ g._nE := by
    unfold GraphStd.phase_reverse
    split
    · have := reverse_fold_count_le (List.range (g._nE / 2)) (g._coo_edges.getD [], g._nE / 2)
      rw [List.length_range] at this
      show (reverse_loop _ _).2 ≤ g._nE
      unfold reverse_loop
      have h2 : g._nE / 2 + g._nE / 2 ≤ g._nE := by omega
      exact Nat.le_trans this h2
    · exact Nat.le_refl _
  have h2 : ∀ c : List (Nat × Nat) × Nat, (g.phase_convert c).2 ≤ c.2 := by
    intro c
    unfold GraphStd.phase_convert
    split
    · exact dedup_count_le c
    · split <;> exact Nat.le_refl _
  have h3 : ∀ c : List (Nat × Nat) × Nat, (g.phase_randomize ra c).2 = c.2 := by
    intro c
    unfold GraphStd.phase_randomize
    split <;> rfl
  have h4 : ∀ c : List (Nat × Nat) × Nat, (g.phase_sort c).2 = c.2 := by
    intro c
    unfold GraphStd.phase_sort
    split <;> rfl
  unfold GraphStd.prepare_coo
  rw [h4, h3]
  exact Nat.le_trans (h2 _) h1

theorem allocate_u2d_count (T : TypeParams) (g0 g1 : GraphStd) (ginfo : GInfo)
    (rnd : Nat → Bool) (junk : Nat → Nat) (junk_coo : Nat → Nat × Nat)
    (h : g0.allocate T ginfo rnd junk junk_coo = some g1)
    (hu : g1._undirected_to_directed = true) :
    ginfo.direction = Direction.UNDIRECTED ∧ g1._structure.is_directed = true ∧
      g1._directed_to_undirected = false ∧
      g1._bitmask = (List.range ginfo.num_edges).map rnd ∧
      g1._nE = Bitmask_size g1._bitmask := by
  simp only [GraphStd.allocate] at h
  split_ifs at h <;> cases h <;>
    simp_all [StructureProp.is_directed, StructureProp.is_undirected,
      StructureProp.add_direction]

/-- C10: when an undirected edge list of `n` edges is converted to a directed graph, for
every content of the selection bitmask the edge count is at most `n` after `allocate`
and after `COOtoCSR`. -/
theorem C10_undirected_to_directed_count (T : TypeParams) (g0 g1 : GraphStd)
    (ginfo : GInfo) (rnd : Nat → Bool) (junk : Nat → Nat) (junk_coo : Nat → Nat × Nat)
    (buf : List (Nat × Nat)) (ra : List Nat)
    (halloc : g0.allocate T ginfo rnd junk junk_coo = some g1)
    (hu2d : g1._undirected_to_directed = true) :
    g1._nE ≤ ginfo.num_edges ∧ (g1.built buf ra)._nE ≤ ginfo.num_edges := by
  obtain ⟨_, _, _, hbits, hnE⟩ :=
    allocate_u2d_count T g0 g1 ginfo rnd junk junk_coo halloc hu2d
  have h1 : g1._nE ≤ ginfo.num_edges := by
    rw [hnE, hbits]
    unfold Bitmask_size
    have := List.count_le_length true ((List.range ginfo.num_edges).map rnd)
    simpa using this
  refine ⟨h1, ?_⟩
  have h2 := prepare_coo_count_le (g1.load buf) ra
  exact Nat.le_trans h2 h1

theorem C10_undirected_to_directed_count_witness :
    ex_g1d._nE ≤ 4 ∧ (ex_g1d.built [(0, 1), (1, 2)] ex_ra)._nE ≤ 4 :=
  C10_undirected_to_directed_count ex_T
    (GraphStd.create { direction := some Direction.DIRECTED, reverse := false, coo := false }
      { print := false, sort := false, randomize := false } false)
    ex_g1d
    { num_vertices := 3, num_edges := 4, num_lines := 4, direction := Direction.UNDIRECTED }
    (fun i => decide (i % 2 = 0)) (fun _ => 7) (fun _ => (9, 9)) [(0, 1), (1, 2)] ex_ra
    (by rfl) (by rfl)

/-! ## Conversion modes, renaming, sorting and statistics -/

theorem allocate_basic (T : TypeParams) (g0 g1 : GraphStd) (ginfo : GInfo)
    (rnd : Nat → Bool) (junk : Nat → Nat) (junk_coo : Nat → Nat × Nat)
    (h : g0.allocate T ginfo rnd junk junk_coo = some g1) :
    g1._nV = ginfo.num_vertices ∧ g1._prop = g0._prop ∧
    g1._stored_undirected = g0._stored_undirected ∧
    0 < ginfo.num_vertices ∧ 0 < ginfo.num_edges ∧
    g1._nV ≤ T.vid_max ∧ g1._nE ≤ T.eoff_max := by
  simp only [GraphStd.allocate] at h
  split_ifs at h <;> cases h <;> simp_all <;> omega

theorem allocate_structure (T : TypeParams) (g0 g1 : GraphStd) (ginfo : GInfo)
    (rnd : Nat → Bool) (junk : Nat → Nat) (junk_coo : Nat → Nat × Nat)
    (h : g0.allocate T ginfo rnd junk junk_coo = some g1) :
    (g0._structure.is_direction_set = true → g1._structure = g0._structure) ∧
    (g0._structure.is_direction_set = false →
      g1._structure = g0._structure.add_direction ginfo.direction) := by
  simp only [GraphStd.allocate] at h
  split_ifs at h <;> cases h <;> simp_all

theorem allocate_flags (T : TypeParams) (g0 g1 : GraphStd) (ginfo : GInfo)
    (rnd : Nat → Bool) (junk : Nat → Nat) (junk_coo : Nat → Nat × Nat)
    (h : g0.allocate T ginfo rnd junk junk_coo = some g1) :
    g1._undirected_to_directed =
      (decide (ginfo.direction = Direction.UNDIRECTED) && g1._structure.is_directed) ∧
    g1._directed_to_undirected =
      (decide (ginfo.direction = Direction.DIRECTED) && g1._structure.is_undirected) := by
  simp only [GraphStd.allocate] at h
  split_ifs at h <;> cases h <;> simp_all

theorem allocate_count (T : TypeParams) (g0 g1 : GraphStd) (ginfo : GInfo)
    (rnd : Nat → Bool) (junk : Nat → Nat) (junk_coo : Nat → Nat × Nat)
    (h : g0.allocate T ginfo rnd junk junk_coo = some g1) :
    (g1._directed_to_undirected = true → g1._nE = ginfo.num_edges * 2) ∧
    (g1._directed_to_undirected = false → g1._undirected_to_directed = true →
      g1._nE = Bitmask_size ((List.range ginfo.num_edges).map rnd) ∧
      g1._bitmask = (List.range ginfo.num_edges).map rnd) ∧
    (g1._directed_to_undirected = false → g1._undirected_to_directed = false →
      g1._nE = ginfo.num_edges) := by
  simp only [GraphStd.allocate] at h
  split_ifs at h <;> cases h <;>
    simp_all [StructureProp.is_directed, StructureProp.is_undirected,
      StructureProp.add_direction] <;>
    (cases hd : ginfo.direction <;> simp_all)

/-- C14: `allocate` sets the undirected-to-directed flag exactly when the native
direction is undirected and the requested structure is directed, and the
directed-to-undirected flag exactly when the native direction is directed and the
requested structure is undirected; when no direction is requested the graph takes the
native direction and neither flag is set; the two flags are never both set. -/
theorem C14_conversion_mode (T : TypeParams) (g0 g1 : GraphStd) (ginfo : GInfo)
    (rnd : Nat → Bool) (junk : Nat → Nat) (junk_coo : Nat → Nat × Nat)
    (h : g0.allocate T ginfo rnd junk junk_coo = some g1) :
    (g1._undirected_to_directed = true ↔
      (ginfo.direction = Direction.UNDIRECTED ∧ g0._structure.is_directed = true)) ∧
    (g1._directed_to_undirected = true ↔
      (ginfo.direction = Direction.DIRECTED ∧ g0._structure.is_undirected = true)) ∧
    (g0._structure.is_direction_set = false →
      g1._structure.direction = some ginfo.direction ∧
      g1._undirected_to_directed = false ∧ g1._directed_to_undirected = false) ∧
    ¬ (g1._undirected_to_directed = true ∧ g1._directed_to_undirected = true) := by
  obtain ⟨hu, hd⟩ := allocate_flags T g0 g1 ginfo rnd junk junk_coo h
  obtain ⟨hs1, hs2⟩ := allocate_structure T g0 g1 ginfo rnd junk junk_coo h
  rw [hu, hd]
  rcases hsd : g0._structure.direction with _ | _ | _
  · have hset : g0._structure.is_direction_set = false := by
      simp [StructureProp.is_direction_set, hsd]
    rw [hs2 hset]
    cases hgd : ginfo.direction <;>
      simp [StructureProp.is_directed, StructureProp.is_undirected,
        StructureProp.add_direction, StructureProp.is_direction_set, hsd]
  · have hset : g0._structure.is_direction_set = true := by
      simp [StructureProp.is_direction_set, hsd]
    rw [hs1 hset]
    cases hgd : ginfo.direction <;>
      simp [StructureProp.is_directed, StructureProp.is_undirected,
        StructureProp.is_direction_set, hsd]
  · have hset : g0._structure.is_direction_set = true := by
      simp [StructureProp.is_direction_set, hsd]
    rw [hs1 hset]
    cases hgd : ginfo.direction <;>
      simp [StructureProp.is_directed, StructureProp.is_undirected,
        StructureProp.is_direction_set, hsd]

theorem C14_conversion_mode_witness :
    (ex_g1d._undirected_to_directed = true ↔
      (Direction.UNDIRECTED = Direction.UNDIRECTED ∧
        (StructureProp.mk (some Direction.DIRECTED) false false).is_directed = true)) ∧
    (ex_g1d._directed_to_undirected = true ↔
      (Direction.UNDIRECTED = Direction.DIRECTED ∧
        (StructureProp.mk (some Direction.DIRECTED) false false).is_undirected = true)) ∧
    ((StructureProp.mk (some Direction.DIRECTED) false false).is_direction_set = false →
      ex_g1d._structure.direction = some Direction.UNDIRECTED ∧
      ex_g1d._undirected_to_directed = false ∧ ex_g1d._directed_to_undirected = false) ∧
    ¬ (ex_g1d._undirected_to_directed = true ∧ ex_g1d._directed_to_undirected = true) :=
  C14_conversion_mode ex_T
    (GraphStd.create { direction := some Direction.DIRECTED, reverse := false, coo := false }
      { print := false, sort := false, randomize := false } false)
    ex_g1d
    { num_vertices := 3, num_edges := 4, num_lines := 4, direction := Direction.UNDIRECTED }
    (fun i => decide (i % 2 = 0)) (fun _ => 7) (fun _ => (9, 9)) (by rfl)

theorem allocate_flags_exclusive (T : TypeParams) (g0 g1 : GraphStd) (ginfo : GInfo)
    (rnd : Nat → Bool) (junk : Nat → Nat) (junk_coo : Nat → Nat × Nat)
    (h : g0.allocate T ginfo rnd junk junk_coo = some g1) :
    ¬ (g1._undirected_to_directed = true ∧ g1._directed_to_undirected = true) := by
  obtain ⟨hu, hd⟩ := allocate_flags T g0 g1 ginfo rnd junk junk_coo h
  rw [hu, hd]
  cases hgd : ginfo.direction <;> simp

theorem allocate_coo_length (T : TypeParams) (g0 g1 : GraphStd) (ginfo : GInfo)
    (rnd : Nat → Bool) (junk : Nat → Nat) (junk_coo : Nat → Nat × Nat)
    (h : g0.allocate T ginfo rnd junk junk_coo = some g1) :
    g1._coo_edges.map List.length = some g1._nE := by
  simp only [GraphStd.allocate] at h
  split_ifs at h <;> cases h <;> simp

theorem take_remap (ra : List Nat) (nE : Nat) (coo : List (Nat × Nat)) :
    (remap ra nE coo).take nE =
      (coo.take nE).map (fun e => (ra.getD e.1 0, ra.getD e.2 0)) := by
  unfold remap
  rw [List.take_append_eq_append_take, List.length_map, List.length_take]
  by_cases h : nE ≤ coo.length
  · rw [Nat.min_eq_left h, Nat.sub_self, List.take_zero, List.append_nil,
      List.take_of_length_le (by rw [List.length_map, List.length_take]; omega)]
  · rw [List.drop_eq_nil_of_le (by omega), List.take_nil, List.append_nil,
      List.take_of_length_le (by rw [List.length_map, List.length_take]; omega)]

theorem drop_remap (ra : List Nat) (nE : Nat) (coo : List (Nat × Nat)) :
    (remap ra nE coo).drop nE = coo.drop nE := by
  unfold remap
  by_cases h : nE ≤ coo.length
  · rw [List.drop_left' (by rw [List.length_map, List.length_take]; omega)]
  · have hd : coo.drop nE = [] := List.drop_eq_nil_of_le (by omega)
    rw [hd, List.append_nil]
    exact List.drop_eq_nil_of_le (by rw [List.length_map, List.length_take]; omega)

theorem length_remap (ra : List Nat) (nE : Nat) (coo : List (Nat × Nat)) :
    (remap ra nE coo).length = coo.length := by
  simp [remap]
  omega

theorem inverse_perm_getD (ra : List Nat) (nV : Nat) (hperm : ra.Perm (List.range nV))
    (i : Nat) (hi : i < nV) : (inverse_perm ra).getD (ra.getD i 0) 0 = i := by
  have hlen : ra.length = nV := by simpa using hperm.length_eq
  have hnd : ra.Nodup := hperm.nodup_iff.2 (List.nodup_range nV)
  have hlt := getD_lt_of_perm_range ra nV hperm i hi
  have hget : ra.getD i 0 = ra[i] := by
    rw [List.getD_eq_getElem?_getD, List.getElem?_eq_getElem (by omega)]
    rfl
  unfold inverse_perm
  rw [List.getD_eq_getElem?_getD, List.getElem?_map,
    List.getElem?_range (by rw [hlen]; exact hlt)]
  simp only [Option.map_some', Option.getD_some]
  rw [hget]
  exact List.indexOf_getElem hnd i (by omega)

theorem inverse_perm_perm (ra : List Nat) (nV : Nat) (hperm : ra.Perm (List.range nV)) :
    (inverse_perm ra).Perm (List.range nV) := by
  have hlen : ra.length = nV := by simpa using hperm.length_eq
  have hnd : ra.Nodup := hperm.nodup_iff.2 (List.nodup_range nV)
  have hmem : ∀ j, j < nV → j ∈ ra := fun j hj => hperm.mem_iff.2 (List.mem_range.2 hj)
  have hnd2 : (inverse_perm ra).Nodup := by
    unfold inverse_perm
    rw [hlen]
    apply List.Nodup.map_on _ (List.nodup_range nV)
    intro a ha b hb hab
    have ha2 := hmem a (List.mem_range.1 ha)
    have hb2 := hmem b (List.mem_range.1 hb)
    have := List.getElem_indexOf (List.indexOf_lt_length.2 ha2)
    rw [← this, ← List.getElem_indexOf (List.indexOf_lt_length.2 hb2)]
    simp only [hab]
  rw [List.perm_ext_iff_of_nodup hnd2 (List.nodup_range nV)]
  intro x
  unfold inverse_perm
  rw [hlen, List.mem_map, List.mem_range]
  constructor
  · rintro ⟨j, hj, rfl⟩
    rw [← hlen]
    exact List.indexOf_lt_length.2 (hmem j (List.mem_range.1 hj))
  · intro hx
    refine ⟨ra[x], List.mem_range.2 ?_, List.indexOf_getElem hnd x (by omega)⟩
    exact List.mem_range.1 (hperm.mem_iff.1 (List.getElem_mem _))

/-- C11: for a permutation `ra` of the vertex ids below `nV` and a buffer whose first `nE`
edges have endpoints below `nV`, the remap of the randomization phase followed by the
remap through the inverse permutation gives back the buffer (so also the same edges with
the same multiplicities); the inverse is itself a permutation; the remap keeps the
buffer length and the phase keeps the edge count. -/
theorem C11_remap_inverse_restores (g : GraphStd) (ra : List Nat) (nV nE : Nat)
    (coo : List (Nat × Nat))
    (hperm : ra.Perm (List.range nV)) (hb : Bounded nV (coo.take nE)) :
    remap (inverse_perm ra) nE (remap ra nE coo) = coo ∧
    ((remap (inverse_perm ra) nE (remap ra nE coo)).take nE).Perm (coo.take nE) ∧
    (inverse_perm ra).Perm (List.range nV) ∧
    (remap ra nE coo).length = coo.length ∧
    (g.phase_randomize ra (coo, nE)).2 = nE ∧
    (g.phase_randomize ra (coo, nE)).1.length = coo.length := by
  have hback : remap (inverse_perm ra) nE (remap ra nE coo) = coo := by
    have h1 : remap (inverse_perm ra) nE (remap ra nE coo) =
        ((remap ra nE coo).take nE).map
          (fun e => ((inverse_perm ra).getD e.1 0, (inverse_perm ra).getD e.2 0)) ++
        (remap ra nE coo).drop nE := rfl
    rw [h1, take_remap, drop_remap, List.map_map]
    have h2 : (coo.take nE).map
        ((fun e : Nat × Nat => ((inverse_perm ra).getD e.1 0, (inverse_perm ra).getD e.2 0)) ∘
          (fun e : Nat × Nat => (ra.getD e.1 0, ra.getD e.2 0))) = coo.take nE := by
      conv_rhs => rw [← List.map_id (coo.take nE)]
      apply List.map_congr_left
      intro e he
      simp only [Function.comp_apply, id_eq]
      rw [inverse_perm_getD ra nV hperm e.1 (hb e he).1,
        inverse_perm_getD ra nV hperm e.2 (hb e he).2]
    rw [h2, List.take_append_drop]
  refine ⟨hback, by rw [hback], inverse_perm_perm ra nV hperm, length_remap ra nE coo, ?_, ?_⟩
  · unfold GraphStd.phase_randomize
    split <;> rfl
  · unfold GraphStd.phase_randomize
    split
    · exact length_remap ra nE coo
    · rfl

theorem C11_remap_inverse_restores_witness :
    remap (inverse_perm ex_ra) 4 (remap ex_ra 4 ex_buf) = ex_buf ∧
    ((remap (inverse_perm ex_ra) 4 (remap ex_ra 4 ex_buf)).take 4).Perm (ex_buf.take 4) ∧
    (inverse_perm ex_ra).Perm (List.range 3) ∧
    (remap ex_ra 4 ex_buf).length = ex_buf.length ∧
    (ex_g1.phase_randomize ex_ra (ex_buf, 4)).2 = 4 ∧
    (ex_g1.phase_randomize ex_ra (ex_buf, 4)).1.length = ex_buf.length :=
  C11_remap_inverse_restores ex_g1 ex_ra 3 4 ex_buf (by decide) (by decide)

theorem std_sort_of_sorted (U D : List (Nat × Nat)) (hs : List.Sorted coo_le U) :
    std_sort U.length (U ++ D) = U ++ D := by
  unfold std_sort
  rw [List.take_left' rfl, List.drop_left' rfl, hs.insertionSort_eq]

theorem take_dedup (c : List (Nat × Nat) × Nat) :
    (dedup c).1.take (dedup c).2 = std_unique ((std_sort c.2 c.1).take c.2) := by
  simp only [dedup]
  rw [List.take_left' rfl]

theorem std_sort_dedup (c : List (Nat × Nat) × Nat) :
    std_sort (dedup c).2 (dedup c).1 = (dedup c).1 :=
  std_sort_of_sorted _ _ (sorted_std_unique_sorted c.2 c.1)

/-- In directed-to-undirected mode without randomization, lines 165-226 end with the
deduplication of the buffer left by the reverse pass. -/
theorem prepare_coo_d2u (g : GraphStd) (ra : List Nat)
    (hd : g._directed_to_undirected = true) (hr : g._prop.is_randomize = false) :
    g.prepare_coo ra = dedup (reverse_loop (g._coo_edges.getD []) (g._nE / 2)) := by
  unfold GraphStd.prepare_coo GraphStd.phase_sort GraphStd.phase_randomize
    GraphStd.phase_convert GraphStd.phase_reverse
  simp [hd, hr]

/-- C18: when the sort flag is set, in every conversion mode and with or without
randomization, the edges from which `COOtoCSR` counts degrees and fills buckets are in
non-decreasing lexicographic order; in directed-to-undirected mode without randomization,
where the final sort is skipped, performing it would leave the buffer as it is. -/
theorem C18_sorted_when_sort_flag_set (g : GraphStd) (ra : List Nat)
    (hsort : g._prop.is_sort = true) :
    List.Sorted coo_le (g.final_coo ra) ∧
    (g._directed_to_undirected = true → g._prop.is_randomize = false →
      std_sort (g.prepare_coo ra).2 (g.prepare_coo ra).1 = (g.prepare_coo ra).1) := by
  constructor
  · by_cases hcase : (!g._directed_to_undirected || g._prop.is_randomize) = true
    · have hcond : (g._prop.is_sort && (!g._directed_to_undirected || g._prop.is_randomize))
          = true := by rw [hsort, hcase]; rfl
      unfold GraphStd.final_coo GraphStd.prepare_coo GraphStd.phase_sort
      rw [if_pos hcond]
      show List.Sorted coo_le (List.take _ (std_sort _ _))
      rw [take_std_sort_all]
      exact List.sorted_insertionSort coo_le _
    · have hd : g._directed_to_undirected = true := by
        cases h1 : g._directed_to_undirected <;> simp_all
      have hr : g._prop.is_randomize = false := by
        cases h1 : g._prop.is_randomize <;> simp_all
      unfold GraphStd.final_coo
      rw [prepare_coo_d2u g ra hd hr, take_dedup]
      exact sorted_std_unique_sorted _ _
  · intro hd hr
    rw [prepare_coo_d2u g ra hd hr]
    exact std_sort_dedup _

theorem C18_sorted_when_sort_flag_set_witness :
    List.Sorted coo_le ((ex_g1.load ex_buf).final_coo ex_ra) ∧
    ((ex_g1.load ex_buf)._directed_to_undirected = true →
      (ex_g1.load ex_buf)._prop.is_randomize = false →
      std_sort ((ex_g1.load ex_buf).prepare_coo ex_ra).2
          ((ex_g1.load ex_buf).prepare_coo ex_ra).1 =
        ((ex_g1.load ex_buf).prepare_coo ex_ra).1) :=
  C18_sorted_when_sort_flag_set (ex_g1.load ex_buf) ex_ra (by rfl)

theorem mem_std_unique : ∀ (l : List (Nat × Nat)) (e : Nat × Nat),
    e ∈ std_unique l ↔ e ∈ l
  | [], _ => Iff.rfl
  | [_], _ => Iff.rfl
  | a :: b :: t, e => by
    have ih := mem_std_unique (b :: t) e
    simp only [std_unique]
    split
    · rename_i hab
      rw [ih, hab]
      simp
    · rw [List.mem_cons, ih, List.mem_cons (a := e) (b := a)]

theorem coo_lt_of_le_of_ne (a b : Nat × Nat) (h1 : coo_le a b) (h2 : a ≠ b) : coo_lt a b := by
  unfold coo_le at h1
  unfold coo_lt
  rcases h1 with h | ⟨h, h'⟩
  · exact Or.inl h
  · refine Or.inr ⟨h, ?_⟩
    rcases Nat.lt_or_ge a.2 b.2 with h3 | h3
    · exact h3
    · exact absurd (Prod.ext h (Nat.le_antisymm h' h3)) h2

theorem chain_and {α : Type} {R S : α → α → Prop} :
    ∀ l : List α, List.Chain' R l → List.Chain' S l →
      List.Chain' (fun a b => R a b ∧ S a b) l
  | [], _, _ => List.chain'_nil
  | [_], _, _ => List.chain'_singleton _
  | a :: b :: t, h1, h2 => by
    rw [List.chain'_cons] at h1 h2 ⊢
    exact ⟨⟨h1.1, h2.1⟩, chain_and (b :: t) h1.2 h2.2⟩

/-- A sorted list without equal neighbours is strictly increasing. -/
theorem sorted_lt_of_sorted_chain (l : List (Nat × Nat)) (hs : List.Sorted coo_le l)
    (hc : List.Chain' (fun a b => a ≠ b) l) : List.Sorted coo_lt l := by
  have h1 : List.Chain' coo_le l := List.Pairwise.chain' hs
  have h2 := chain_and l h1 hc
  have h3 : List.Chain' coo_lt l := h2.imp (fun {a b} h => coo_lt_of_le_of_ne a b h.1 h.2)
  exact List.chain'_iff_pairwise.1 h3

/-- Final COO buffer in directed-to-undirected mode without randomization: the native
edges and the reverses of those that are not self-loops, sorted, one of each kept. -/
theorem final_coo_d2u (g : GraphStd) (ra : List Nat) (buf : List (Nat × Nat)) (n : Nat)
    (hcoo : g._coo_edges = some buf) (hnE : g._nE = n * 2) (hlen : buf.length = g._nE)
    (hd : g._directed_to_undirected = true) (hr : g._prop.is_randomize = false) :
    g.final_coo ra =
      std_unique ((buf.take n ++ reversed_edges (buf.take n)).insertionSort coo_le) := by
  have hhalf : g._nE / 2 = n := by omega
  unfold GraphStd.final_coo
  rw [prepare_coo_d2u g ra hd hr, take_dedup, hcoo, hhalf]
  simp only [Option.getD_some]
  rw [reverse_loop_eq buf n (by omega)]
  simp only []
  rw [take_std_sort_all, List.take_left' (by
    have := length_reversed_edges_le (buf.take n)
    simp
    omega)]

theorem mem_reversed_edges (es : List (Nat × Nat)) (u v : Nat) :
    (v, u) ∈ reversed_edges es ↔ ((u, v) ∈ es ∧ u ≠ v) := by
  unfold reversed_edges
  simp only [List.mem_map, List.mem_filter, decide_eq_true_eq, Prod.mk.injEq]
  constructor
  · rintro ⟨⟨a, b⟩, ⟨h1, h2⟩, h3, h4⟩
    simp only at h2 h3 h4
    subst h3 h4
    exact ⟨h1, h2⟩
  · rintro ⟨h1, h2⟩
    exact ⟨(u, v), ⟨h1, h2⟩, rfl, rfl⟩

theorem built_count_d2u (g : GraphStd) (buf : List (Nat × Nat)) (ra : List Nat)
    (hd : g._directed_to_undirected = true) (hr : g._prop.is_randomize = false) :
    (g.built buf ra)._nE = ((g.load buf).final_coo ra).length := by
  have h1 : (g.built buf ra)._nE = ((g.load buf).prepare_coo ra).2 := rfl
  rw [h1]
  unfold GraphStd.final_coo
  rw [prepare_coo_d2u (g.load buf) ra hd hr, take_dedup]
  rfl

/-- C17: in directed-to-undirected mode without randomization the final COO buffer is
strictly increasing in the lexicographic order, its edges are the native edges and the
reverses of the native edges that are not self-loops, and the final edge count is the
number of distinct such pairs; for `u ≠ v` with `(u, v)` native both `(u, v)` and `(v, u)`
are in the final buffer. -/
theorem C17_d2u_final_buffer (T : TypeParams) (g0 g1 : GraphStd) (ginfo : GInfo)
    (rnd : Nat → Bool) (junk : Nat → Nat) (junk_coo : Nat → Nat × Nat)
    (buf : List (Nat × Nat)) (ra : List Nat)
    (halloc : g0.allocate T ginfo rnd junk junk_coo = some g1)
    (hd : g1._directed_to_undirected = true) (hr : g1._prop.is_randomize = false)
    (hlen : buf.length = g1._nE) :
    List.Sorted coo_lt ((g1.load buf).final_coo ra) ∧
    (∀ e, e ∈ (g1.load buf).final_coo ra ↔
      (e ∈ buf.take ginfo.num_edges ∨ e ∈ reversed_edges (buf.take ginfo.num_edges))) ∧
    (g1.built buf ra)._nE = ((g1.load buf).final_coo ra).length ∧
    ((g1.load buf).final_coo ra).length =
      (buf.take ginfo.num_edges ++ reversed_edges (buf.take ginfo.num_edges)).dedup.length ∧
    (∀ u v, u ≠ v → (u, v) ∈ buf.take ginfo.num_edges →
      (u, v) ∈ (g1.load buf).final_coo ra ∧ (v, u) ∈ (g1.load buf).final_coo ra) := by
  have hnE := (allocate_count T g0 g1 ginfo rnd junk junk_coo halloc).1 hd
  have hfinal := final_coo_d2u (g1.load buf) ra buf ginfo.num_edges rfl hnE hlen hd hr
  have hsorted : List.Sorted coo_lt ((g1.load buf).final_coo ra) := by
    rw [hfinal]
    apply sorted_lt_of_sorted_chain
    · exact (List.sorted_insertionSort coo_le _).sublist (std_unique_sublist _)
    · exact chain_std_unique _
  have hmem : ∀ e, e ∈ (g1.load buf).final_coo ra ↔
      (e ∈ buf.take ginfo.num_edges ∨ e ∈ reversed_edges (buf.take ginfo.num_edges)) := by
    intro e
    rw [hfinal, mem_std_unique, (List.perm_insertionSort coo_le _).mem_iff, List.mem_append]
  refine ⟨hsorted, hmem, built_count_d2u g1 buf ra hd hr, ?_, ?_⟩
  · apply List.Perm.length_eq
    rw [List.perm_ext_iff_of_nodup hsorted.nodup (List.nodup_dedup _)]
    intro e
    rw [hmem e, List.mem_dedup, List.mem_append]
  · intro u v huv he
    exact ⟨(hmem _).2 (Or.inl he),
      (hmem _).2 (Or.inr ((mem_reversed_edges _ u v).2 ⟨he, huv⟩))⟩

theorem C17_d2u_final_buffer_witness :
    List.Sorted coo_lt ((ex_g1u.load ex_bufu).final_coo ex_ra) ∧
    (∀ e, e ∈ (ex_g1u.load ex_bufu).final_coo ex_ra ↔
      (e ∈ ex_bufu.take 4 ∨ e ∈ reversed_edges (ex_bufu.take 4))) ∧
    (ex_g1u.built ex_bufu ex_ra)._nE = ((ex_g1u.load ex_bufu).final_coo ex_ra).length ∧
    ((ex_g1u.load ex_bufu).final_coo ex_ra).length =
      (ex_bufu.take 4 ++ reversed_edges (ex_bufu.take 4)).dedup.length ∧
    (∀ u v, u ≠ v → (u, v) ∈ ex_bufu.take 4 →
      (u, v) ∈ (ex_g1u.load ex_bufu).final_coo ex_ra ∧
      (v, u) ∈ (ex_g1u.load ex_bufu).final_coo ex_ra) :=
  C17_d2u_final_buffer ex_T
    (GraphStd.create { direction := some Direction.UNDIRECTED, reverse := false, coo := false }
      { print := false, sort := false, randomize := false } false)
    ex_g1u ex_ginfo (fun _ => true) (fun _ => 7) (fun _ => (9, 9)) ex_bufu ex_ra
    (by rfl) (by rfl) (by rfl) (by rfl)

theorem take_dedup_reverse (buf : List (Nat × Nat)) (n : Nat) (h2 : 2 * n ≤ buf.length) :
    (dedup (reverse_loop buf n)).1.take (dedup (reverse_loop buf n)).2 =
      std_unique ((buf.take n ++ reversed_edges (buf.take n)).insertionSort coo_le) := by
  rw [take_dedup, reverse_loop_eq buf n h2]
  simp only []
  rw [take_std_sort_all, List.take_left' (by
    have := length_reversed_edges_le (buf.take n)
    simp
    omega)]

/-- In directed-to-undirected mode the final COO buffer is, up to the order fixed by the
optional sort, the deduplicated list of native and reversed edges with both endpoints
renamed. -/
theorem final_coo_d2u_perm (g : GraphStd) (ra : List Nat) (buf : List (Nat × Nat)) (n : Nat)
    (hcoo : g._coo_edges = some buf) (hnE : g._nE = n * 2) (hlen : buf.length = g._nE)
    (hd : g._directed_to_undirected = true) :
    (g.final_coo ra).Perm
      ((std_unique ((buf.take n ++ reversed_edges (buf.take n)).insertionSort coo_le)).map
        (fun e => (g.renamed ra e.1, g.renamed ra e.2))) := by
  have hhalf : g._nE / 2 = n := by omega
  cases hr : g._prop.is_randomize
  · rw [final_coo_d2u g ra buf n hcoo hnE hlen hd hr]
    have : (fun e : Nat × Nat => (g.renamed ra e.1, g.renamed ra e.2)) = id := by
      funext e
      simp [GraphStd.renamed, hr]
    rw [this, List.map_id]
  · have hren : (fun e : Nat × Nat => (g.renamed ra e.1, g.renamed ra e.2)) =
        (fun e : Nat × Nat => (ra.getD e.1 0, ra.getD e.2 0)) := by
      funext e
      simp [GraphStd.renamed, hr]
    rw [hren, ← take_dedup_reverse buf n (by omega), ← take_remap]
    have hpre : g.prepare_coo ra = g.phase_sort
        (remap ra (dedup (reverse_loop buf n)).2 (dedup (reverse_loop buf n)).1,
         (dedup (reverse_loop buf n)).2) := by
      unfold GraphStd.prepare_coo GraphStd.phase_randomize GraphStd.phase_convert
        GraphStd.phase_reverse
      simp [hd, hr, hcoo, hhalf]
    unfold GraphStd.final_coo
    rw [hpre]
    unfold GraphStd.phase_sort
    split
    · show (List.take _ (std_sort _ _)).Perm _
      rw [take_std_sort_all]
      exact List.perm_insertionSort coo_le _
    · exact List.Perm.refl _

theorem renamed_lt (g : GraphStd) (ra : List Nat) (nV : Nat)
    (hperm : g._prop.is_randomize = true → ra.Perm (List.range nV)) (i : Nat) (hi : i < nV) :
    g.renamed ra i < nV := by
  unfold GraphStd.renamed
  split
  · rename_i hr
    exact getD_lt_of_perm_range ra nV (hperm hr) i hi
  · exact hi

theorem renamed_inj (g : GraphStd) (ra : List Nat) (nV : Nat)
    (hperm : g._prop.is_randomize = true → ra.Perm (List.range nV)) (i j : Nat)
    (hi : i < nV) (hj : j < nV) (h : g.renamed ra i = g.renamed ra j) : i = j := by
  unfold GraphStd.renamed at h
  split at h
  · rename_i hr
    have h1 := inverse_perm_getD ra nV (hperm hr) i hi
    have h2 := inverse_perm_getD ra nV (hperm hr) j hj
    rw [h] at h1
    omega
  · exact h

/-- Out-neighbours of the built graph: the destinations of the final edges with the given
source, in buffer order. -/
theorem built_out_neighbours (T : TypeParams) (g0 g1 : GraphStd) (ginfo : GInfo)
    (rnd : Nat → Bool) (junk : Nat → Nat) (junk_coo : Nat → Nat × Nat)
    (buf : List (Nat × Nat)) (ra : List Nat)
    (halloc : g0.allocate T ginfo rnd junk junk_coo = some g1)
    (hlen : buf.length = g1._nE)
    (hb : Bounded g1._nV (buf.take (g1.load buf).native_count))
    (hperm : g1._prop.is_randomize = true → ra.Perm (List.range g1._nV))
    (v : Nat) (hv : v < g1._nV) :
    (g1.built buf ra).out_neighbours v = bucket ((g1.load buf).final_coo ra) v := by
  obtain ⟨_, _, _, _, _, ⟨b6, b9, _⟩, b7, _⟩ :=
    built_spec T g0 g1 ginfo rnd junk junk_coo buf ra halloc hlen hb hperm
  unfold GraphStd.out_neighbours
  rw [b6, b9]
  exact b7.neighbours v hv

theorem mem_bucket (es : List (Nat × Nat)) (u v : Nat) :
    v ∈ bucket es u ↔ (u, v) ∈ es := by
  unfold bucket
  simp only [List.mem_map, List.mem_filter, decide_eq_true_eq]
  constructor
  · rintro ⟨⟨a, b⟩, ⟨h1, h2⟩, h3⟩
    simp only at h2 h3
    subst h2 h3
    exact h1
  · intro h
    exact ⟨(u, v), ⟨h, rfl⟩, rfl⟩

theorem native_count_d2u (g : GraphStd) (n : Nat) (hnE : g._nE = n * 2)
    (hd : g._directed_to_undirected = true) : g.native_count = n := by
  unfold GraphStd.native_count
  rw [hd]
  simp
  omega

theorem count_pair_eq (a : Nat × Nat) (l : List (Nat × Nat)) :
    List.count a l = @List.count (Nat × Nat) instBEqOfDecidableEq a l := by
  unfold List.count
  apply List.countP_congr
  intro x _
  simp
  constructor
  · intro h
    exact decide_eq_true h
  · intro h
    exact of_decide_eq_true h

/-- Counterexample to C12 as stated: with the randomize option on and the shuffled array
`[2, 0, 1]`, the native self-loop (0,0) is not in the final COO buffer (its image (2,2)
is) and vertex 0 is not among its own neighbours. -/
theorem C12_self_loop_renamed_by_randomization :
    ex_g1r._directed_to_undirected = true ∧
    (0, 0) ∈ ex_bufr.take 2 ∧
    (ex_g1r.load ex_bufr).final_coo ex_ra = [(2, 2), (0, 1), (1, 0)] ∧
    ((ex_g1r.load ex_bufr).final_coo ex_ra).count (0, 0) = 0 ∧
    (ex_g1r.built ex_bufr ex_ra).out_neighbours 0 = [1] ∧
    ¬ (((ex_g1r.load ex_bufr).final_coo ex_ra).count (0, 0) = 1 ∧
        0 ∈ (ex_g1r.built ex_bufr ex_ra).out_neighbours 0) := by
  decide

/-- C12 (amended): in directed-to-undirected mode the reverse pass adds no copy of a
self-loop, and for every native self-loop `(v, v)` the final COO buffer holds exactly one
edge `(w, w)` and the final CSR has `w` among the neighbours of `w`, where `w` is `v`
itself when the randomize option is off and the image of `v` in the shuffled array when
it is on; for the native list (0,1), (1,0), (2,2) on 3 vertices the final buffer is
(0,1), (1,0), (2,2), with the self-loop once. -/
theorem C12_self_loops_kept_once (T : TypeParams) (g0 g1 : GraphStd) (ginfo : GInfo)
    (rnd : Nat → Bool) (junk : Nat → Nat) (junk_coo : Nat → Nat × Nat)
    (buf : List (Nat × Nat)) (ra : List Nat) (v : Nat)
    (halloc : g0.allocate T ginfo rnd junk junk_coo = some g1)
    (hd : g1._directed_to_undirected = true)
    (hlen : buf.length = g1._nE)
    (hb : Bounded g1._nV (buf.take ginfo.num_edges))
    (hperm : g1._prop.is_randomize = true → ra.Perm (List.range g1._nV))
    (hv : (v, v) ∈ buf.take ginfo.num_edges) :
    (reversed_edges (buf.take ginfo.num_edges)).count (v, v) = 0 ∧
    ((g1.load buf).final_coo ra).count (g1.renamed ra v, g1.renamed ra v) = 1 ∧
    g1.renamed ra v ∈ (g1.built buf ra).out_neighbours (g1.renamed ra v) ∧
    (g1._prop.is_randomize = false → g1.renamed ra v = v) ∧
    ((ex_g1l.load ex_bufl).final_coo [] = [(0, 1), (1, 0), (2, 2)] ∧
      ((ex_g1l.load ex_bufl).final_coo []).count (2, 2) = 1 ∧
      2 ∈ (ex_g1l.built ex_bufl []).out_neighbours 2) := by
  have hnE := (allocate_count T g0 g1 ginfo rnd junk junk_coo halloc).1 hd
  have hperm' := final_coo_d2u_perm (g1.load buf) ra buf ginfo.num_edges rfl hnE hlen hd
  have hnat : (g1.load buf).native_count = ginfo.num_edges :=
    native_count_d2u (g1.load buf) ginfo.num_edges hnE hd
  have hvlt : v < g1._nV := (hb _ hv).1
  -- the deduplicated list of native and reversed edges
  have hUmem : ∀ e, e ∈ std_unique ((buf.take ginfo.num_edges ++
      reversed_edges (buf.take ginfo.num_edges)).insertionSort coo_le) ↔
      (e ∈ buf.take ginfo.num_edges ∨ e ∈ reversed_edges (buf.take ginfo.num_edges)) := by
    intro e
    rw [mem_std_unique, (List.perm_insertionSort coo_le _).mem_iff, List.mem_append]
  have hUb : Bounded g1._nV (std_unique ((buf.take ginfo.num_edges ++
      reversed_edges (buf.take ginfo.num_edges)).insertionSort coo_le)) := by
    intro e he
    rcases (hUmem e).1 he with h | h
    · exact hb e h
    · exact bounded_reversed_edges hb e h
  have hUnd : (std_unique ((buf.take ginfo.num_edges ++
      reversed_edges (buf.take ginfo.num_edges)).insertionSort coo_le)).Nodup :=
    (sorted_lt_of_sorted_chain _
      ((List.sorted_insertionSort coo_le _).sublist (std_unique_sublist _))
      (chain_std_unique _)).nodup
  have hmapnd := List.Nodup.map_on (f := fun e : Nat × Nat =>
      ((g1.load buf).renamed ra e.1, (g1.load buf).renamed ra e.2))
    (fun a ha b hb2 hab => by
      simp only [Prod.mk.injEq] at hab
      exact Prod.ext
        (renamed_inj _ ra g1._nV hperm _ _ (hUb a ha).1 (hUb b hb2).1 hab.1)
        (renamed_inj _ ra g1._nV hperm _ _ (hUb a ha).2 (hUb b hb2).2 hab.2)) hUnd
  have hin : (g1.renamed ra v, g1.renamed ra v) ∈ (g1.load buf).final_coo ra := by
    rw [hperm'.mem_iff]
    exact List.mem_map.2 ⟨(v, v), (hUmem _).2 (Or.inl hv), rfl⟩
  refine ⟨?_, ?_, ?_, ?_, by decide⟩
  · rw [List.count_eq_zero]
    intro h
    exact ((mem_reversed_edges _ v v).1 h).2 rfl
  · rw [count_pair_eq]
    exact (hperm'.count_eq _).trans
      (List.count_eq_one_of_mem hmapnd (hperm'.mem_iff.1 hin))
  · rw [built_out_neighbours T g0 g1 ginfo rnd junk junk_coo buf ra halloc hlen
      (by rw [hnat]; exact hb) hperm _ (renamed_lt g1 ra g1._nV hperm v hvlt), mem_bucket]
    exact hin
  · intro hr
    simp [GraphStd.renamed, hr]

theorem C12_self_loops_kept_once_witness :
    (reversed_edges (ex_bufr.take 2)).count (0, 0) = 0 ∧
    ((ex_g1r.load ex_bufr).final_coo ex_ra).count
      (ex_g1r.renamed ex_ra 0, ex_g1r.renamed ex_ra 0) = 1 ∧
    ex_g1r.renamed ex_ra 0 ∈ (ex_g1r.built ex_bufr ex_ra).out_neighbours
      (ex_g1r.renamed ex_ra 0) ∧
    (ex_g1r._prop.is_randomize = false → ex_g1r.renamed ex_ra 0 = 0) ∧
    ((ex_g1l.load ex_bufl).final_coo [] = [(0, 1), (1, 0), (2, 2)] ∧
      ((ex_g1l.load ex_bufl).final_coo []).count (2, 2) = 1 ∧
      2 ∈ (ex_g1l.built ex_bufl []).out_neighbours 2) :=
  C12_self_loops_kept_once ex_T
    (GraphStd.create { direction := some Direction.UNDIRECTED, reverse := false, coo := false }
      { print := false, sort := false, randomize := true } false)
    ex_g1r
    { num_vertices := 3, num_edges := 2, num_lines := 2, direction := Direction.DIRECTED }
    (fun _ => true) (fun _ => 7) (fun _ => (9, 9)) ex_bufr ex_ra 0
    (by rfl) (by rfl) (by rfl) (by decide) (fun _ => by decide) (by decide)

/-- C16 (defect in the code): for the undirected list `ex_edges4` and the bitmask 0101,
`allocate` sets the edge count to the 2 set bits and creates 2 cells, and the selection
loop of `COOtoCSR` runs over `i < 2` only: it never reads bit 3 nor edge 3, and the first
2 cells end as (1,2), (1,2) instead of the selected edges (1,2), (0,2). -/
theorem C16_selection_stops_at_popcount :
    ex_g1m._undirected_to_directed = true ∧
    ex_g1m._bitmask = [false, true, false, true] ∧
    ex_g1m._nE = 2 ∧
    ex_g1m._coo_edges.map List.length = some 2 ∧
    (ex_g1m.load (ex_edges4.take 2)).final_coo [] = [(1, 2), (1, 2)] ∧
    selected_edges ex_g1m._bitmask ex_edges4 = [(1, 2), (0, 2)] ∧
    (ex_g1m.built (ex_edges4.take 2) [])._nE = 2 ∧
    (ex_g1m.load (ex_edges4.take 2)).final_coo [] ≠
      selected_edges ex_g1m._bitmask ex_edges4 := by
  decide

theorem length_writeBinary (T : TypeParams) (g : GraphStd) :
    (g.writeBinary T).length = ((g.writeBinary_items T).map Prod.fst).sum := by
  unfold GraphStd.writeBinary GraphStd.writeBinary_items
  split <;> simp [Heap.length_cells] <;> omega

/-- C19: the size that `writeBinary` computes for the mapped region is the number of
bytes of the items it writes: the length of the type tag, the sizes of the vertex count,
of the edge count and of the structure flags, and `(nV + 1) * sizeof(eoff_t) +
nE * sizeof(vid_t)`, the latter twice exactly when the graph is directed with a reverse
view; the items are as many as the words of the file. -/
theorem C19_binary_file_size (T : TypeParams) (g : GraphStd) :
    g.writeBinary_file_size T = bytes_of (g.writeBinary_items T) ∧
    g.writeBinary_file_size T =
      T.class_id.length + T.sizeof_vid + T.sizeof_eoff + T.sizeof_structure +
        (if g._structure.is_directed = true ∧ g._structure.is_reverse = true then 2 else 1) *
          ((g._nV + 1) * T.sizeof_eoff + g._nE * T.sizeof_vid) ∧
    ((g.writeBinary_items T).map Prod.fst).sum = (g.writeBinary T).length := by
  refine ⟨?_, ?_, (length_writeBinary T g).symm⟩
  · unfold GraphStd.writeBinary_file_size GraphStd.writeBinary_items bytes_of
    cases hd : g._structure.is_directed <;> cases hr : g._structure.is_reverse <;>
      simp <;> omega
  · unfold GraphStd.writeBinary_file_size
    cases hd : g._structure.is_directed <;> cases hr : g._structure.is_reverse <;>
      simp <;> omega

theorem log2_halving_succ (fuel n : Nat) :
    log2_halving (fuel + 1) n = if n < 2 then 0 else log2_halving fuel (n / 2) + 1 := rfl

theorem log2_halving_eq (fuel n : Nat) (h : n ≤ fuel) : log2_halving fuel n = Nat.log 2 n := by
  induction fuel generalizing n with
  | zero =>
    have : n = 0 := by omega
    subst this
    simp [log2_halving]
  | succ fuel ih =>
    rw [log2_halving_succ]
    by_cases h2 : n < 2
    · rw [if_pos h2, Nat.log_of_lt h2]
    · rw [if_neg h2, ih (n / 2) (by omega),
        @Nat.log_of_one_lt_of_le 2 n (by omega) (by omega)]

/-- The modelled `xlib::log2` is the floor of the base-2 logarithm. -/
theorem xlib_log2_eq (n : Nat) : xlib_log2 n = Nat.log 2 n :=
  log2_halving_eq n n (Nat.le_refl n)

theorem scan_back_succ (d : List Nat) (junk fuel : Nat) (pos : Int) (reads : List Int) :
    scan_back d junk (fuel + 1) pos reads =
      if 0 ≤ pos then
        if read_bucket d junk (pos - 1) = 0 then
          scan_back d junk fuel (pos - 1) (reads ++ [pos - 1])
        else some (pos - 1, reads ++ [pos - 1])
      else some (pos, reads) := rfl

theorem read_bucket_nat (d : List Nat) (junk n : Nat) (h : n < d.length) :
    read_bucket d junk (((n + 1 : Nat) : Int) - 1) = d.getD n 0 := by
  unfold read_bucket
  have e : ((n + 1 : Nat) : Int) - 1 = (n : Int) := by push_cast; ring
  rw [e, if_pos ⟨by omega, by omega⟩]
  simp

theorem read_bucket_minus_one (d : List Nat) (junk : Nat) :
    read_bucket d junk (((0 : Nat) : Int) - 1) = junk := by
  unfold read_bucket
  rw [if_neg (by omega)]

/-- The scan over buckets that are all empty below `n`: it reads the indices `n - 1` down
to `0`, then the index `-1`, and ends with `pos = -1`. -/
theorem scan_back_all_zero (d : List Nat) (junk : Nat) :
    ∀ (n fuel : Nat) (reads : List Int), n ≤ d.length → n + 2 ≤ fuel →
      (∀ i, i < n → d.getD i 0 = 0) →
      scan_back d junk fuel (n : Int) reads =
        some (-1, reads ++ ((List.range n).reverse.map Int.ofNat ++ [-1])) := by
  intro n
  induction n with
  | zero =>
    intro fuel reads _ hf _
    obtain ⟨f, rfl⟩ : ∃ f, fuel = f + 1 + 1 := ⟨fuel - 2, by omega⟩
    rw [scan_back_succ, if_pos (by omega), read_bucket_minus_one]
    by_cases hj : junk = 0
    · rw [if_pos hj, scan_back_succ, if_neg (by omega)]
      simp
    · rw [if_neg hj]
      simp
  | succ n ih =>
    intro fuel reads hn hf hz
    obtain ⟨f, rfl⟩ : ∃ f, fuel = f + 1 := ⟨fuel - 1, by omega⟩
    rw [scan_back_succ, if_pos (by omega), read_bucket_nat d junk n (by omega),
      if_pos (hz n (by omega))]
    have e : ((n + 1 : Nat) : Int) - 1 = (n : Int) := by push_cast; ring
    rw [e, ih f _ (by omega) (by omega) (fun i hi => hz i (by omega))]
    simp [List.range_succ]

/-- The scan when bucket `k` is not empty and the buckets above it, below `n`, are: it
reads the indices `n - 1` down to `k` and ends with `pos = k`. -/
theorem scan_back_highest (d : List Nat) (junk k : Nat) (hk : d.getD k 0 ≠ 0) :
    ∀ (n fuel : Nat) (reads : List Int), k < n → n ≤ d.length → n + 2 ≤ fuel →
      (∀ i, k < i → i < n → d.getD i 0 = 0) →
      scan_back d junk fuel (n : Int) reads =
        some ((k : Int), reads ++ (List.range' k (n - k)).reverse.map Int.ofNat) := by
  intro n
  induction n with
  | zero => intro _ _ h; omega
  | succ n ih =>
    intro fuel reads hkn hn hf hz
    obtain ⟨f, rfl⟩ : ∃ f, fuel = f + 1 := ⟨fuel - 1, by omega⟩
    have e : ((n + 1 : Nat) : Int) - 1 = (n : Int) := by push_cast; ring
    rw [scan_back_succ, if_pos (by omega), read_bucket_nat d junk n (by omega)]
    by_cases hkn2 : k = n
    · subst hkn2
      rw [if_neg hk, e]
      have : k + 1 - k = 1 := by omega
      rw [this]
      simp
    · rw [if_pos (hz n (by omega) (by omega)), e,
        ih f _ (by omega) (by omega) (by omega) (fun i h1 h2 => hz i h1 (by omega))]
      have : n + 1 - k = (n - k) + 1 := by omega
      rw [this, List.range'_concat]
      have : k + 1 * (n - k) = n := by omega
      rw [this]
      simp

theorem exists_highest_bucket (d : List Nat) :
    ∀ n, (∃ i, i < n ∧ d.getD i 0 ≠ 0) →
      ∃ k, k < n ∧ d.getD k 0 ≠ 0 ∧ ∀ i, k < i → i < n → d.getD i 0 = 0 := by
  intro n
  induction n with
  | zero => rintro ⟨i, hi, _⟩; omega
  | succ n ih =>
    rintro ⟨i, hi, hne⟩
    by_cases hn : d.getD n 0 = 0
    · have hin : i ≠ n := fun e => hne (e ▸ hn)
      obtain ⟨k, hk, hk0, hkz⟩ := ih ⟨i, by omega, hne⟩
      refine ⟨k, by omega, hk0, fun j h1 h2 => ?_⟩
      by_cases hj : j = n
      · rw [hj]; exact hn
      · exact hkz j h1 (by omega)
    · exact ⟨n, by omega, hn, fun j h1 h2 => by omega⟩

/-! ## Symmetry, bucket fill, CSR constructor and degree analysis -/

theorem nodup_bucket (es : List (Nat × Nat)) (u : Nat) (h : es.Nodup) : (bucket es u).Nodup := by
  unfold bucket
  refine List.Nodup.map_on ?_ (h.filter _)
  intro a ha b hb hab
  have h1 := (List.mem_filter.1 ha).2
  have h2 := (List.mem_filter.1 hb).2
  simp only [decide_eq_true_eq] at h1 h2
  exact Prod.ext (h1.trans h2.symm) hab

/-- The deduplicated list of the native edges and the reverses of the native non-loop
edges holds an edge exactly when it holds its reverse. -/
theorem mem_symmetric_closure (es : List (Nat × Nat)) (a b : Nat)
    (h : (a, b) ∈ es ∨ (a, b) ∈ reversed_edges es) :
    (b, a) ∈ es ∨ (b, a) ∈ reversed_edges es := by
  rcases h with h | h
  · by_cases hab : a = b
    · subst hab; exact Or.inl h
    · exact Or.inr ((mem_reversed_edges es a b).2 ⟨h, hab⟩)
  · exact Or.inl ((mem_reversed_edges es b a).1 h).1

/-- C21: after a directed-to-undirected conversion of a native edge list with endpoints
below `nV` (with or without randomization and sorting), `v` is among the neighbours of `u`
in the built CSR exactly when `u` is among the neighbours of `v`, for all vertices `u` and
`v`, and no neighbour occurs twice in a vertex's list. -/
theorem C21_d2u_adjacency_symmetric (T : TypeParams) (g0 g1 : GraphStd) (ginfo : GInfo)
    (rnd : Nat → Bool) (junk : Nat → Nat) (junk_coo : Nat → Nat × Nat)
    (buf : List (Nat × Nat)) (ra : List Nat)
    (halloc : g0.allocate T ginfo rnd junk junk_coo = some g1)
    (hd : g1._directed_to_undirected = true)
    (hlen : buf.length = g1._nE)
    (hb : Bounded g1._nV (buf.take ginfo.num_edges))
    (hperm : g1._prop.is_randomize = true → ra.Perm (List.range g1._nV)) :
    (∀ u v, u < g1._nV → v < g1._nV →
      (v ∈ (g1.built buf ra).out_neighbours u ↔ u ∈ (g1.built buf ra).out_neighbours v)) ∧
    (∀ u, u < g1._nV → ((g1.built buf ra).out_neighbours u).Nodup) ∧
    (g1.built buf ra)._nV = g1._nV := by
  have hnE := (allocate_count T g0 g1 ginfo rnd junk junk_coo halloc).1 hd
  have hperm' := final_coo_d2u_perm (g1.load buf) ra buf ginfo.num_edges rfl hnE hlen hd
  have hnat : (g1.load buf).native_count = ginfo.num_edges :=
    native_count_d2u (g1.load buf) ginfo.num_edges hnE hd
  have hUmem : ∀ e, e ∈ std_unique ((buf.take ginfo.num_edges ++
      reversed_edges (buf.take ginfo.num_edges)).insertionSort coo_le) ↔
      (e ∈ buf.take ginfo.num_edges ∨ e ∈ reversed_edges (buf.take ginfo.num_edges)) := by
    intro e
    rw [mem_std_unique, (List.perm_insertionSort coo_le _).mem_iff, List.mem_append]
  have hUb : Bounded g1._nV (std_unique ((buf.take ginfo.num_edges ++
      reversed_edges (buf.take ginfo.num_edges)).insertionSort coo_le)) := by
    intro e he
    rcases (hUmem e).1 he with h | h
    · exact hb e h
    · exact bounded_reversed_edges hb e h
  have hUnd : (std_unique ((buf.take ginfo.num_edges ++
      reversed_edges (buf.take ginfo.num_edges)).insertionSort coo_le)).Nodup :=
    (sorted_lt_of_sorted_chain _
      ((List.sorted_insertionSort coo_le _).sublist (std_unique_sublist _))
      (chain_std_unique _)).nodup
  have hmapnd := List.Nodup.map_on (f := fun e : Nat × Nat =>
      ((g1.load buf).renamed ra e.1, (g1.load buf).renamed ra e.2))
    (fun a ha b hb2 hab => by
      simp only [Prod.mk.injEq] at hab
      exact Prod.ext
        (renamed_inj _ ra g1._nV hperm _ _ (hUb a ha).1 (hUb b hb2).1 hab.1)
        (renamed_inj _ ra g1._nV hperm _ _ (hUb a ha).2 (hUb b hb2).2 hab.2)) hUnd
  have hfnd : ((g1.load buf).final_coo ra).Nodup := hperm'.nodup_iff.2 hmapnd
  have hsym : ∀ u v, (u, v) ∈ (g1.load buf).final_coo ra →
      (v, u) ∈ (g1.load buf).final_coo ra := by
    intro u v h
    rw [hperm'.mem_iff] at h ⊢
    obtain ⟨⟨a, b⟩, hab, he⟩ := List.mem_map.1 h
    simp only [Prod.mk.injEq] at he
    refine List.mem_map.2 ⟨(b, a), ?_, ?_⟩
    · exact (hUmem _).2 (mem_symmetric_closure _ a b ((hUmem _).1 hab))
    · simp only [Prod.mk.injEq]
      exact ⟨he.2, he.1⟩
  have hout : ∀ u, u < g1._nV →
      (g1.built buf ra).out_neighbours u = bucket ((g1.load buf).final_coo ra) u :=
    fun u hu => built_out_neighbours T g0 g1 ginfo rnd junk junk_coo buf ra halloc hlen
      (by rw [hnat]; exact hb) hperm u hu
  refine ⟨?_, ?_, ?_⟩
  · intro u v hu hv
    rw [hout u hu, hout v hv, mem_bucket, mem_bucket]
    exact ⟨hsym u v, hsym v u⟩
  · intro u hu
    rw [hout u hu]
    exact nodup_bucket _ u hfnd
  · exact (built_spec T g0 g1 ginfo rnd junk junk_coo buf ra halloc hlen
      (by rw [hnat]; exact hb) hperm).1

theorem C21_d2u_adjacency_symmetric_witness :
    (∀ u v, u < ex_g1r._nV → v < ex_g1r._nV →
      (v ∈ (ex_g1r.built ex_bufr ex_ra).out_neighbours u ↔
        u ∈ (ex_g1r.built ex_bufr ex_ra).out_neighbours v)) ∧
    (∀ u, u < ex_g1r._nV → ((ex_g1r.built ex_bufr ex_ra).out_neighbours u).Nodup) ∧
    (ex_g1r.built ex_bufr ex_ra)._nV = ex_g1r._nV :=
  C21_d2u_adjacency_symmetric ex_T
    (GraphStd.create { direction := some Direction.UNDIRECTED, reverse := false, coo := false }
      { print := false, sort := false, randomize := true } false) ex_g1r
    { num_vertices := 3, num_edges := 2, num_lines := 2, direction := Direction.DIRECTED }
    (fun _ => true) (fun _ => 7) (fun _ => (9, 9)) ex_bufr ex_ra
    (by rfl) (by rfl) (by rfl) (by decide) (fun _ => by decide)

theorem foldl_fill_writes {ao ae : Addr} (hne : ae ≠ ao) (kv : List (Nat × Nat)) :
    ∀ (h : Heap) (tmp : List Nat) (w : List Nat),
    (kv.foldl
      (fun (st : (Heap × List Nat) × List Nat) e =>
        ((st.1.1.write (some ae) (st.1.1.read (some ao) e.1 + st.1.2.getD e.1 0) e.2,
          st.1.2.set e.1 (st.1.2.getD e.1 0 + 1)),
         st.2 ++ [st.1.1.read (some ao) e.1 + st.1.2.getD e.1 0])) ((h, tmp), w)).2 =
    w ++ fill_writes (h.get ao) kv tmp := by
  induction kv with
  | nil => intro h tmp w; simp [fill_writes]
  | cons e t ih =>
    intro h tmp w
    rw [List.foldl_cons, ih]
    simp only [fill_writes, Heap.get_write_ne _ hne, Heap.read_some, List.append_assoc,
      List.singleton_append]

theorem fill_writes_eq (off : List Nat) (kv : List (Nat × Nat)) :
    ∀ tmp : List Nat, (∀ e ∈ kv, e.1 < tmp.length) →
      fill_writes off kv tmp = (List.range kv.length).map (fun i =>
        off.getD ((kv.map Prod.fst).getD i 0) 0 + tmp.getD ((kv.map Prod.fst).getD i 0) 0 +
          ((kv.map Prod.fst).take i).count ((kv.map Prod.fst).getD i 0)) := by
  induction kv with
  | nil => intro tmp _; rfl
  | cons e t ih =>
    intro tmp hk
    have he : e.1 < tmp.length := hk e (List.mem_cons_self _ _)
    rw [fill_writes, ih _ (fun x hx => by
      rw [List.length_set]; exact hk x (List.mem_cons_of_mem _ hx))]
    rw [List.length_cons, List.range_succ_eq_map, List.map_cons, List.map_map]
    refine congr (congrArg List.cons ?_) ?_
    · simp
    · apply List.map_congr_left
      intro i _
      simp only [Function.comp_apply, List.map_cons, Nat.succ_eq_add_one, List.take_succ_cons,
        List.getD_cons_succ]
      rw [getD_set_nat, List.count_cons]
      by_cases hx : (t.map Prod.fst).getD i 0 = e.1
      · rw [hx]
        simp only [he, and_self, if_true, beq_self_eq_true]
        omega
      · have hx2 : ¬ (e.1 = (t.map Prod.fst).getD i 0) := fun h => hx h.symm
        simp only [hx2, false_and, if_false, beq_iff_eq]
        simp

theorem count_take_succ (ks : List Nat) (i : Nat) (hi : i < ks.length) :
    (ks.take (i + 1)).count (ks.getD i 0) = (ks.take i).count (ks.getD i 0) + 1 := by
  rw [List.take_succ, List.getElem?_eq_getElem hi, List.getD_eq_getElem _ _ hi,
    List.count_append]
  simp only [Option.toList, List.count_cons_self, List.count_nil]

theorem count_take_le (ks : List Nat) (k : Nat) {i j : Nat} (hij : i ≤ j) :
    (ks.take i).count k ≤ (ks.take j).count k :=
  (List.take_sublist_take_left ks hij).count_le k

theorem count_take_le_all (ks : List Nat) (k i : Nat) : (ks.take i).count k ≤ ks.count k :=
  (List.take_sublist i ks).count_le k

theorem count_take_lt (ks : List Nat) (i : Nat) (hi : i < ks.length) :
    (ks.take i).count (ks.getD i 0) < ks.count (ks.getD i 0) := by
  have h1 := count_take_succ ks i hi
  have h2 := count_take_le_all ks (ks.getD i 0) (i + 1)
  omega

/-- The position of a key in the stable counting sort lies in the range of its bucket. -/
theorem stable_rank_lt (ks : List Nat) (i : Nat) (hi : i < ks.length) :
    stable_rank ks i < ks.countP (fun x => decide (x < ks.getD i 0 + 1)) := by
  unfold stable_rank
  rw [countP_lt_succ]
  have := count_take_lt ks i hi
  omega

theorem stable_rank_ne (ks : List Nat) (i j : Nat) (hij : i < j) (hj : j < ks.length) :
    stable_rank ks i ≠ stable_rank ks j := by
  have hi : i < ks.length := by omega
  have hli := stable_rank_lt ks i hi
  have hlj := stable_rank_lt ks j hj
  rcases Nat.lt_trichotomy (ks.getD i 0) (ks.getD j 0) with h | h | h
  · have := @countP_lt_mono ks (ks.getD i 0 + 1) (ks.getD j 0) (by omega)
    unfold stable_rank at *
    omega
  · have h1 := count_take_succ ks i hi
    have h2 := @count_take_le ks (ks.getD i 0) (i + 1) j (by omega)
    unfold stable_rank
    rw [← h]
    omega
  · have := @countP_lt_mono ks (ks.getD j 0 + 1) (ks.getD i 0) (by omega)
    unfold stable_rank at *
    omega

theorem perm_range_of_nodup (l : List Nat) (hnd : l.Nodup) (hlt : ∀ x ∈ l, x < l.length) :
    l.Perm (List.range l.length) :=
  (hnd.subperm (fun x hx => List.mem_range.2 (hlt x hx))).perm_of_length_le
    (by rw [List.length_range])

/-- The positions assigned by the stable counting sort are a rearrangement of
`0 .. n - 1`. -/
theorem stable_rank_perm (ks : List Nat) :
    ((List.range ks.length).map (stable_rank ks)).Nodup ∧
    ((List.range ks.length).map (stable_rank ks)).Perm (List.range ks.length) := by
  have hnd : ((List.range ks.length).map (stable_rank ks)).Nodup := by
    refine List.Nodup.map_on ?_ (List.nodup_range _)
    intro x hx y hy hxy
    rw [List.mem_range] at hx hy
    rcases Nat.lt_trichotomy x y with h | h | h
    · exact absurd hxy (stable_rank_ne ks x y h hy)
    · exact h
    · exact absurd hxy.symm (stable_rank_ne ks y x h hx)
  refine ⟨hnd, ?_⟩
  have := perm_range_of_nodup _ hnd (by
    intro x hx
    obtain ⟨i, hi, rfl⟩ := List.mem_map.1 hx
    rw [List.mem_range] at hi
    rw [List.length_map, List.length_range]
    exact Nat.lt_of_lt_of_le (stable_rank_lt ks i hi) (List.countP_le_length _))
  rwa [List.length_map, List.length_range] at this

theorem count_degrees_out (g : GraphStd) (es : List (Nat × Nat)) (hout : OutReady g)
    (hin : g._structure.is_directed = true → g._structure.is_reverse = true → InReady g) :
    (g.count_degrees es g.heap).get Addr.out_degrees =
        count_keys (new_array_zero g._nV) (es.map Prod.fst) ∧
      ((g.count_degrees es g.heap).get Addr.out_offsets).length = g._nV + 1 := by
  obtain ⟨p1, p2, p3, hd0, ho0⟩ := hout
  by_cases hrev : g._structure.is_directed = true ∧ g._structure.is_reverse = true
  · obtain ⟨hd, hr⟩ := hrev
    obtain ⟨q1, q2, q3, hd1, ho1⟩ := hin hd hr
    rw [count_degrees_rev g es g.heap p3 q3 hd hr]
    refine ⟨?_, ho0⟩
    rw [Heap.get_put_ne _ (by decide), Heap.get_put_same]
    show count_keys g.heap.out_degrees _ = _
    rw [hd0]
  · rw [count_degrees_plain g es g.heap p3 hrev]
    refine ⟨?_, ho0⟩
    rw [Heap.get_put_same]
    show count_keys g.heap.out_degrees _ = _
    rw [hd0]

/-- The bucket fill of lines 245-250 writes the edge at position `i` of the buffer to the
cell whose index is the position of its source in the stable counting sort of the
sources. -/
theorem build_csr_writes_eq (g : GraphStd) (es : List (Nat × Nat)) (hout : OutReady g)
    (hin : g._structure.is_directed = true → g._structure.is_reverse = true → InReady g)
    (hb : Bounded g._nV es) :
    g.build_csr_writes es g.heap =
      (List.range es.length).map (stable_rank (es.map Prod.fst)) := by
  obtain ⟨hdeg, hofflen⟩ := count_degrees_out g es hout hin
  obtain ⟨p1, p2, p3, _, _⟩ := hout
  unfold GraphStd.build_csr_writes GraphStd.fill_out_writes
  rw [p1, p2, p3, foldl_fill_writes (by decide : Addr.out_edges ≠ Addr.out_offsets),
    List.nil_append,
    fill_writes_eq _ _ _ (by intro e he; simpa [new_array_zero] using (hb e he).1)]
  apply List.map_congr_left
  intro i hi
  rw [List.mem_range] at hi
  have hk : (es.map Prod.fst).getD i 0 < g._nV := by
    have hi2 : i < (es.map Prod.fst).length := by rw [List.length_map]; exact hi
    rw [List.getD_eq_getElem _ _ hi2, List.getElem_map]
    exact (hb _ (List.getElem_mem _)).1
  rw [offsets_getD (by decide) _ g._nV _ hofflen (Nat.le_of_lt hk), hdeg,
    sum_take_count_keys _ _ _ (Nat.le_of_lt hk)]
  unfold stable_rank
  have hz : (new_array_zero g._nV).getD ((es.map Prod.fst).getD i 0) 0 = 0 := by
    simp [new_array_zero, List.getD_eq_getElem?_getD, hk]
  rw [hz, Nat.add_zero]

/-- C22: during the bucket fill of `COOtoCSR` the edge at position `i` of the final COO
buffer is written to index `out_offsets[src] + tmp[src]`, where `tmp[src]` is the number of
earlier edges with the same source; this index lies in
`[out_offsets[src], out_offsets[src + 1])` and below `nE`, no index is written twice, and
the indices written are exactly `0 .. nE - 1`, each once. -/
theorem C22_bucket_fill_bijection (T : TypeParams) (g0 g1 : GraphStd) (ginfo : GInfo)
    (rnd : Nat → Bool) (junk : Nat → Nat) (junk_coo : Nat → Nat × Nat)
    (buf : List (Nat × Nat)) (ra : List Nat)
    (halloc : g0.allocate T ginfo rnd junk junk_coo = some g1)
    (hlen : buf.length = g1._nE)
    (hb : Bounded g1._nV (buf.take (g1.load buf).native_count))
    (hperm : g1._prop.is_randomize = true → ra.Perm (List.range g1._nV)) :
    ((g1.load buf).COOtoCSR_writes ra).length = (g1.built buf ra)._nE ∧
    ((g1.load buf).final_coo ra).length = (g1.built buf ra)._nE ∧
    (∀ i, i < (g1.built buf ra)._nE →
      ((g1.load buf).COOtoCSR_writes ra).getD i 0 =
        (g1.built buf ra).heap.read (g1.built buf ra)._out_offsets
            (((g1.load buf).final_coo ra).getD i (0, 0)).1 +
          ((((g1.load buf).final_coo ra).take i).map Prod.fst).count
            (((g1.load buf).final_coo ra).getD i (0, 0)).1 ∧
      (g1.built buf ra).heap.read (g1.built buf ra)._out_offsets
          (((g1.load buf).final_coo ra).getD i (0, 0)).1 ≤
        ((g1.load buf).COOtoCSR_writes ra).getD i 0 ∧
      ((g1.load buf).COOtoCSR_writes ra).getD i 0 <
        (g1.built buf ra).heap.read (g1.built buf ra)._out_offsets
          ((((g1.load buf).final_coo ra).getD i (0, 0)).1 + 1) ∧
      ((g1.load buf).COOtoCSR_writes ra).getD i 0 < (g1.built buf ra)._nE) ∧
    ((g1.load buf).COOtoCSR_writes ra).Nodup ∧
    ((g1.load buf).COOtoCSR_writes ra).Perm (List.range (g1.built buf ra)._nE) ∧
    ((ex_g1p.load ex_bufp).final_coo [] = ex_bufp ∧
      (ex_g1p.built ex_bufp []).out_offsets = [0, 2, 2, 4] ∧
      (ex_g1p.load ex_bufp).COOtoCSR_writes [] = [2, 0, 3, 1]) := by
  obtain ⟨hout, _, _⟩ := allocate_out_ready T g0 g1 ginfo rnd junk junk_coo halloc
  obtain ⟨_, hnE, _, hbf, _, ⟨po, _, _⟩, hcsr, _⟩ :=
    built_spec T g0 g1 ginfo rnd junk junk_coo buf ra halloc hlen hb hperm
  have hW : (g1.load buf).COOtoCSR_writes ra =
      (List.range ((g1.load buf).final_coo ra).length).map
        (stable_rank (((g1.load buf).final_coo ra).map Prod.fst)) :=
    build_csr_writes_eq ((g1.load buf).prepare ra) ((g1.load buf).final_coo ra) hout
      (fun hd hr => (allocate_in_ready T g0 g1 ginfo rnd junk junk_coo halloc hd hr).1) hbf
  have hperm2 := stable_rank_perm (((g1.load buf).final_coo ra).map Prod.fst)
  rw [List.length_map] at hperm2
  rw [hW, hnE]
  refine ⟨by simp, rfl, ?_, hperm2.1, hperm2.2, by decide⟩
  intro i hi
  have hi2 : i < (((g1.load buf).final_coo ra).map Prod.fst).length := by
    rw [List.length_map]; exact hi
  have hkey : (((g1.load buf).final_coo ra).map Prod.fst).getD i 0 =
      (((g1.load buf).final_coo ra).getD i (0, 0)).1 := by
    rw [List.getD_eq_getElem _ _ hi2, List.getD_eq_getElem _ _ hi, List.getElem_map]
  have hsrc : (((g1.load buf).final_coo ra).getD i (0, 0)).1 < g1._nV := by
    rw [List.getD_eq_getElem _ _ hi]
    exact (hbf _ (List.getElem_mem _)).1
  have hget : ((List.range ((g1.load buf).final_coo ra).length).map
      (stable_rank (((g1.load buf).final_coo ra).map Prod.fst))).getD i 0 =
      stable_rank (((g1.load buf).final_coo ra).map Prod.fst) i := by
    rw [List.getD_eq_getElem _ _ (by simpa using hi), List.getElem_map, List.getElem_range]
  have hoff : ∀ j, j ≤ g1._nV →
      (g1.built buf ra).heap.read (g1.built buf ra)._out_offsets j =
        (((g1.load buf).final_coo ra).map Prod.fst).countP (fun x => decide (x < j)) := by
    intro j hj
    rw [po]
    exact hcsr.2.2.1 j hj
  have hlt := stable_rank_lt _ i hi2
  rw [hget, hoff _ (Nat.le_of_lt hsrc), hoff _ hsrc]
  rw [hkey] at hlt
  have hdef : stable_rank (((g1.load buf).final_coo ra).map Prod.fst) i =
      (((g1.load buf).final_coo ra).map Prod.fst).countP
          (fun x => decide (x < (((g1.load buf).final_coo ra).getD i (0, 0)).1)) +
        ((((g1.load buf).final_coo ra).take i).map Prod.fst).count
          (((g1.load buf).final_coo ra).getD i (0, 0)).1 := by
    unfold stable_rank
    rw [hkey, List.map_take]
  refine ⟨hdef, ?_, hlt, ?_⟩
  · rw [hdef]; omega
  · exact Nat.lt_of_lt_of_le hlt (by
      have := @List.countP_le_length Nat (fun x => decide (x <
        (((g1.load buf).final_coo ra).getD i (0, 0)).1 + 1))
        (((g1.load buf).final_coo ra).map Prod.fst)
      rwa [List.length_map] at this)

theorem C22_bucket_fill_bijection_witness :
    ((ex_g1p.load ex_bufp).COOtoCSR_writes []).length = (ex_g1p.built ex_bufp [])._nE ∧
    ((ex_g1p.load ex_bufp).final_coo []).length = (ex_g1p.built ex_bufp [])._nE ∧
    (∀ i, i < (ex_g1p.built ex_bufp [])._nE →
      ((ex_g1p.load ex_bufp).COOtoCSR_writes []).getD i 0 =
        (ex_g1p.built ex_bufp []).heap.read (ex_g1p.built ex_bufp [])._out_offsets
            (((ex_g1p.load ex_bufp).final_coo []).getD i (0, 0)).1 +
          ((((ex_g1p.load ex_bufp).final_coo []).take i).map Prod.fst).count
            (((ex_g1p.load ex_bufp).final_coo []).getD i (0, 0)).1 ∧
      (ex_g1p.built ex_bufp []).heap.read (ex_g1p.built ex_bufp [])._out_offsets
          (((ex_g1p.load ex_bufp).final_coo []).getD i (0, 0)).1 ≤
        ((ex_g1p.load ex_bufp).COOtoCSR_writes []).getD i 0 ∧
      ((ex_g1p.load ex_bufp).COOtoCSR_writes []).getD i 0 <
        (ex_g1p.built ex_bufp []).heap.read (ex_g1p.built ex_bufp [])._out_offsets
          ((((ex_g1p.load ex_bufp).final_coo []).getD i (0, 0)).1 + 1) ∧
      ((ex_g1p.load ex_bufp).COOtoCSR_writes []).getD i 0 < (ex_g1p.built ex_bufp [])._nE) ∧
    ((ex_g1p.load ex_bufp).COOtoCSR_writes []).Nodup ∧
    ((ex_g1p.load ex_bufp).COOtoCSR_writes []).Perm
      (List.range (ex_g1p.built ex_bufp [])._nE) ∧
    ((ex_g1p.load ex_bufp).final_coo [] = ex_bufp ∧
      (ex_g1p.built ex_bufp []).out_offsets = [0, 2, 2, 4] ∧
      (ex_g1p.load ex_bufp).COOtoCSR_writes [] = [2, 0, 3, 1]) :=
  C22_bucket_fill_bijection ex_T
    (GraphStd.create { direction := none, reverse := false, coo := false }
      { print := false, sort := false, randomize := false } false)
    ex_g1p ex_ginfo (fun _ => true) (fun _ => 7)
    (fun _ => (9, 9)) ex_bufp [] (by rfl) (by rfl) (by decide) (fun h => by cases h)

theorem foldl_write_range (a : Addr) (f : Nat → Nat) (n : Nat) (h : Heap) :
    (((List.range n).foldl (fun h i => h.write (some a) i (f i)) h).get a).length =
        (h.get a).length ∧
      (∀ j, (((List.range n).foldl (fun h i => h.write (some a) i (f i)) h).get a).getD j 0 =
        if j < n ∧ j < (h.get a).length then f j else (h.get a).getD j 0) ∧
      (∀ c, c ≠ a →
        ((List.range n).foldl (fun h i => h.write (some a) i (f i)) h).get c = h.get c) := by
  induction n with
  | zero => simp
  | succ n ih =>
    obtain ⟨i1, i2, i3⟩ := ih
    rw [List.range_succ, List.foldl_append]
    simp only [List.foldl_cons, List.foldl_nil]
    refine ⟨?_, ?_, ?_⟩
    · rw [Heap.get_write_same, List.length_set, i1]
    · intro j
      rw [Heap.get_write_same, getD_set_nat, i1, i2]
      by_cases hj : n = j
      · subst hj
        by_cases hl : n < (h.get a).length
        · simp [hl]
        · simp [hl]
      · have h1 : ¬ (n = j ∧ n < (h.get a).length) := fun hh => hj hh.1
        rw [if_neg h1]
        by_cases hjn : j < n
        · have : j < n + 1 := by omega
          simp [hjn, this]
        · have : ¬ j < n + 1 := by omega
          simp [hjn, this]
    · intro c hc
      rw [Heap.get_write_ne _ (Ne.symm hc), i3 c hc]

theorem std_copy_spec (src : List Nat) (n : Nat) (a : Addr) (h : Heap) :
    ((std_copy src n (some a) h).get a).length = (h.get a).length ∧
      (∀ j, ((std_copy src n (some a) h).get a).getD j 0 =
        if j < n ∧ j < (h.get a).length then src.getD j 0 else (h.get a).getD j 0) ∧
      (∀ c, c ≠ a → (std_copy src n (some a) h).get c = h.get c) :=
  foldl_write_range a (fun i => src.getD i 0) n h

theorem create_csr_allocate (T : TypeParams) (p : ParsingProp) (nV nE : Nat)
    (rnd : Nat → Bool) (junk : Nat → Nat) (junk_coo : Nat → Nat × Nat)
    (hnV : 0 < nV) (hnE : 0 < nE) (hvid : nV ≤ T.vid_max) (heoff : nE ≤ T.eoff_max) :
    ∃ g1, ({ (GraphStd.create UNDIRECTED p false) with _nV := nV, _nE := nE }).allocate T
      { num_vertices := nV, num_edges := nE, num_lines := nE,
        direction := Direction.UNDIRECTED } rnd junk junk_coo = some g1 := by
  simp only [GraphStd.allocate, GraphStd.create, UNDIRECTED, StructureProp.is_direction_set,
    StructureProp.is_directed, StructureProp.is_undirected]
  rw [if_neg (by omega)]
  simp
  omega

theorem mem_degree_analysis_reads (g : GraphStd) (r : Ptr × Nat) :
    r ∈ g.degree_analysis_reads ↔
      ∃ i, i < g._nV ∧ (r = (g._out_degrees, i) ∨ r = (g._in_degrees, i)) := by
  unfold GraphStd.degree_analysis_reads
  simp only [List.mem_flatMap, List.mem_range, List.mem_cons, List.mem_singleton,
    List.not_mem_nil, or_false]

/-- C24 (defect in the code): the loop of lines 447-465 of `print_degree_analysis` reads
`_in_degrees[i]` for every vertex without testing the structure. For a graph built as
undirected, or as directed with a reverse view, every read of the loop is within an array
that `allocate` created. For a directed graph built without a reverse view `allocate`
created no in-degree array: `_in_degrees` is `nullptr`, and the loop reads through it for
every vertex, as on the 3-vertex graph `ex_g3`. -/
theorem C24_in_degrees_read_without_array (T : TypeParams) (s : StructureProp)
    (p : ParsingProp) (su : Bool) (g1 : GraphStd) (ginfo : GInfo)
    (rnd : Nat → Bool) (junk : Nat → Nat) (junk_coo : Nat → Nat × Nat)
    (buf : List (Nat × Nat)) (ra : List Nat) :
    ((GraphStd.create s p su).allocate T ginfo rnd junk junk_coo = some g1 →
      g1._structure.is_undirected = false → g1._structure.is_reverse = false →
      g1._structure.is_directed = true ∧
      (g1.built buf ra)._in_degrees = none ∧
      0 < (g1.built buf ra)._nV ∧
      (∀ i, i < (g1.built buf ra)._nV →
        ((g1.built buf ra)._in_degrees, i) ∈ (g1.built buf ra).degree_analysis_reads ∧
        ¬ (g1.built buf ra).heap.valid_read (g1.built buf ra)._in_degrees i)) ∧
    ((GraphStd.create s p su).allocate T ginfo rnd junk junk_coo = some g1 →
      buf.length = g1._nE →
      Bounded g1._nV (buf.take (g1.load buf).native_count) →
      (g1._prop.is_randomize = true → ra.Perm (List.range g1._nV)) →
      (g1._structure.is_undirected = true ∨
        (g1._structure.is_directed = true ∧ g1._structure.is_reverse = true)) →
      ∀ r ∈ (g1.built buf ra).degree_analysis_reads,
        (g1.built buf ra).heap.valid_read r.1 r.2) ∧
    (ex_g3._structure.is_directed = true ∧ ex_g3._structure.is_reverse = false ∧
      ex_g3._nV = 3 ∧ ex_g3._in_degrees = none ∧
      ex_g3.degree_analysis_reads =
        [(some Addr.out_degrees, 0), (none, 0), (some Addr.out_degrees, 1), (none, 1),
         (some Addr.out_degrees, 2), (none, 2)] ∧
      ¬ (∀ r ∈ ex_g3.degree_analysis_reads, ex_g3.heap.valid_read r.1 r.2)) ∧
    (ex_g3r._in_degrees = some Addr.in_degrees ∧
      ∀ r ∈ ex_g3r.degree_analysis_reads, ex_g3r.heap.valid_read r.1 r.2) := by
  refine ⟨?_, ?_, by decide, by decide⟩
  · intro halloc hu hr
    obtain ⟨_, _, hin⟩ := allocate_no_in_view T s p su g1 ginfo rnd junk junk_coo halloc hu hr
    obtain ⟨_, _, hnV⟩ := allocate_out_ready T _ g1 ginfo rnd junk junk_coo halloc
    have hset := allocate_direction_set T _ g1 ginfo rnd junk junk_coo halloc
    have hptr : (g1.built buf ra)._in_degrees = none := hin
    refine ⟨?_, hptr, hnV, ?_⟩
    · rcases hset with h | h
      · rw [h.1] at hu; cases hu
      · exact h.2
    · intro i hi
      refine ⟨(mem_degree_analysis_reads _ _).2 ⟨i, hi, Or.inr rfl⟩, ?_⟩
      rw [hptr]
      exact fun h => h
  · intro halloc hlen hb hperm hcase r hr
    obtain ⟨hnV, _, _, hbf, _, ⟨_, _, po⟩, hcsr, hrev⟩ :=
      built_spec T _ g1 ginfo rnd junk junk_coo buf ra halloc hlen hb hperm
    obtain ⟨i, hi, hri⟩ := (mem_degree_analysis_reads _ _).1 hr
    rw [hnV] at hi
    have hout : (g1.built buf ra).heap.valid_read (some Addr.out_degrees) i := by
      show i < (g1.built buf ra).heap.out_degrees.length
      rw [hcsr.deg_length]
      exact hi
    rcases hri with h | h
    · rw [h, po]
      exact hout
    · rw [h]
      rcases hcase with hu | ⟨hd, hr2⟩
      · have hal : (g1.built buf ra)._in_degrees = some Addr.out_degrees :=
          (allocate_alias T _ g1 ginfo rnd junk junk_coo halloc hu).2.2
        rw [hal]
        exact hout
      · obtain ⟨⟨_, _, pi⟩, hcsri⟩ := hrev hd hr2
        rw [pi]
        show i < (g1.built buf ra).heap.in_degrees.length
        rw [hcsri.deg_length]
        exact hi

/-! ## allocate in `size_t` arithmetic -/

theorem allocate_counts_basic (T : TypeParams) (g0 g1 : GraphStd) (ginfo : GInfo)
    (rnd : Nat → Bool) (bm : Bool)
    (h : g0.allocate_counts T ginfo rnd bm = some g1) :
    g1._nV = ginfo.num_vertices ∧ g1._nE ≤ T.eoff_max := by
  simp only [GraphStd.allocate_counts] at h
  split_ifs at h <;> cases h <;> simp_all

theorem allocate_counts_flags (T : TypeParams) (g0 g1 : GraphStd) (ginfo : GInfo)
    (rnd : Nat → Bool) (bm : Bool)
    (h : g0.allocate_counts T ginfo rnd bm = some g1) :
    g1._undirected_to_directed =
      (decide (ginfo.direction = Direction.UNDIRECTED) && g1._structure.is_directed) ∧
    g1._directed_to_undirected =
      (decide (ginfo.direction = Direction.DIRECTED) && g1._structure.is_undirected) := by
  simp only [GraphStd.allocate_counts] at h
  split_ifs at h <;> cases h <;> simp

theorem allocate_counts_count (T : TypeParams) (g0 g1 : GraphStd) (ginfo : GInfo)
    (rnd : Nat → Bool) (bm : Bool)
    (h : g0.allocate_counts T ginfo rnd bm = some g1) :
    (g1._directed_to_undirected = true → g1._nE = (ginfo.num_edges * 2) % SIZE_RANGE) ∧
    (g1._directed_to_undirected = false → g1._undirected_to_directed = true →
      g1._nE = Bitmask_size ((List.range ginfo.num_edges).map rnd) ∧
      g1._bitmask = (List.range ginfo.num_edges).map rnd) ∧
    (g1._directed_to_undirected = false → g1._undirected_to_directed = false →
      g1._nE = ginfo.num_edges) := by
  simp only [GraphStd.allocate_counts] at h
  split_ifs at h <;> cases h <;>
    simp_all [StructureProp.is_directed, StructureProp.is_undirected,
      StructureProp.add_direction] <;>
    (cases hd : ginfo.direction <;> simp_all)

theorem allocate_arrays_spec (g : GraphStd) (junk : Nat → Nat) (junk_coo : Nat → Nat × Nat) :
    (g.allocate_arrays junk junk_coo)._nV = g._nV ∧
    (g.allocate_arrays junk junk_coo)._nE = g._nE ∧
    (g.allocate_arrays junk junk_coo)._undirected_to_directed = g._undirected_to_directed ∧
    (g.allocate_arrays junk junk_coo)._directed_to_undirected = g._directed_to_undirected ∧
    (g.allocate_arrays junk junk_coo)._bitmask = g._bitmask ∧
    (g.allocate_arrays junk junk_coo).heap.out_offsets.length = g._nV + 1 ∧
    (g.allocate_arrays junk junk_coo).heap.out_edges.length = g._nE ∧
    (g.allocate_arrays junk junk_coo).heap.out_degrees.length = g._nV ∧
    (g.allocate_arrays junk junk_coo)._coo_edges.map List.length = some g._nE := by
  unfold GraphStd.allocate_arrays
  split_ifs <;> simp [new_array, new_array_zero]

theorem allocate_size_t_cases (T : TypeParams) (g0 : GraphStd) (ginfo : GInfo)
    (rnd : Nat → Bool) (junk : Nat → Nat) (junk_coo : Nat → Nat × Nat) (bm am : Bool)
    (g : GraphStd) :
    ((g0.allocate_size_t T ginfo rnd junk junk_coo bm am).stored = some g →
      ∃ g1, g0.allocate_counts T ginfo rnd bm = some g1 ∧
        (g = g1 ∨ g = g1.allocate_arrays junk junk_coo)) ∧
    ((g0.allocate_size_t T ginfo rnd junk junk_coo bm am).graph = some g →
      ∃ g1, g0.allocate_counts T ginfo rnd bm = some g1 ∧
        g = g1.allocate_arrays junk junk_coo) := by
  unfold GraphStd.allocate_size_t
  cases hc : g0.allocate_counts T ginfo rnd bm with
  | none => simp [AllocateResult.stored, AllocateResult.graph]
  | some g1 =>
    simp only
    split_ifs
    · simp only [AllocateResult.stored, AllocateResult.graph, Option.some.injEq]
      exact ⟨fun h => ⟨g1, rfl, Or.inl h.symm⟩, fun h => by cases h⟩
    · simp only [AllocateResult.stored, AllocateResult.graph, Option.some.injEq]
      exact ⟨fun h => ⟨g1, rfl, Or.inr h.symm⟩, fun h => ⟨g1, rfl, h.symm⟩⟩

/-- On the runs that `GraphStd.allocate` covers, with an edge offset type of at most 8
bytes and fewer vertices than the largest `vid_t`, the run in `size_t` arithmetic with
memory for every array creates the same graph. -/
theorem allocate_size_t_of_allocate (T : TypeParams) (g0 g1 : GraphStd) (ginfo : GInfo)
    (rnd : Nat → Bool) (junk : Nat → Nat) (junk_coo : Nat → Nat × Nat)
    (h : g0.allocate T ginfo rnd junk junk_coo = some g1)
    (hT : T.eoff_max < SIZE_RANGE) (hv : ginfo.num_vertices < T.vid_max) :
    g0.allocate_size_t T ginfo rnd junk junk_coo true true = AllocateResult.allocated g1 := by
  have h0 : ¬ (ginfo.num_vertices = 0 ∨ ginfo.num_edges = 0) := by
    intro hc
    simp only [GraphStd.allocate, if_pos hc] at h
    cases h
  simp only [GraphStd.allocate, if_neg h0] at h
  simp only [GraphStd.allocate_size_t, GraphStd.allocate_counts, if_neg h0]
  generalize hs : (if g0._structure.is_direction_set = true then g0._structure
      else g0._structure.add_direction ginfo.direction) = s at h ⊢
  generalize hu : (decide (ginfo.direction = Direction.UNDIRECTED) && s.is_directed) = u2d at h ⊢
  generalize hd : (decide (ginfo.direction = Direction.DIRECTED) && s.is_undirected) = d2u at h ⊢
  generalize hB : (if d2u = true then g0._bitmask
      else if u2d = true then List.map rnd (List.range ginfo.num_edges) else g0._bitmask) = B
    at h ⊢
  generalize hN : (if d2u = true then ginfo.num_edges * 2
      else if u2d = true then Bitmask_size B else ginfo.num_edges) = N at h
  have hov : ¬ (T.vid_max < ginfo.num_vertices ∨ T.eoff_max < N) := by
    intro hc
    rw [if_pos hc] at h
    cases h
  rw [if_neg hov] at h
  have hM : (if d2u = true then (ginfo.num_edges * 2) % SIZE_RANGE
      else if u2d = true then Bitmask_size B else ginfo.num_edges) = N := by
    rw [← hN]
    by_cases hdd : d2u = true
    · rw [if_pos hdd, if_pos hdd]
      rw [← hN, if_pos hdd] at hov
      exact Nat.mod_eq_of_lt (by omega)
    · rw [if_neg hdd, if_neg hdd]
  rw [hM]
  have hbm : ¬ ((!d2u && u2d && !true) = true) := by simp
  rw [if_neg hbm, if_neg hov]
  simp only []
  rw [if_neg (by simp; omega)]
  congr 1
  unfold GraphStd.allocate_arrays
  simp only []
  by_cases h1 : s.is_undirected = true
  · rw [if_pos h1] at h ⊢
    exact Option.some.inj h
  · rw [if_neg h1] at h ⊢
    by_cases h2 : s.is_reverse = true
    · rw [if_pos h2] at h ⊢
      exact Option.some.inj h
    · rw [if_neg h2] at h ⊢
      exact Option.some.inj h

/-- C15 (defect in the code): `allocate` stores the given vertex count, and as edge count
the number of set bits of the bitmask of `n` bits in undirected-to-directed mode, the
native count `n` when there is no conversion, and in directed-to-undirected mode the
product `n * 2` formed in `size_t`, that is modulo 2^64, which is what
`xlib::check_overflow` then tests and what sizes the edge and COO arrays. The stored count
is `2 * n` when the product does not wrap. For the header that announces `n = 2^63 + 1`
directed edges the product wraps to 2: the check passes, the stored edge count is 2 and
the arrays have 2 cells, instead of the program ending with an overflow report. On the
runs that `GraphStd.allocate` covers the two definitions give the same graph. -/
theorem C15_doubled_count_wraps (T : TypeParams) (g0 g1 : GraphStd) (ginfo : GInfo)
    (rnd : Nat → Bool) (junk : Nat → Nat) (junk_coo : Nat → Nat × Nat) (bm am : Bool) :
    ((g0.allocate_size_t T ginfo rnd junk junk_coo bm am).stored = some g1 →
      g1._nV = ginfo.num_vertices ∧ g1._nE ≤ T.eoff_max ∧
      (g1._directed_to_undirected = true →
        g1._nE = (ginfo.num_edges * 2) % SIZE_RANGE ∧
        (ginfo.num_edges * 2 < SIZE_RANGE → g1._nE = ginfo.num_edges * 2) ∧
        (SIZE_RANGE ≤ ginfo.num_edges * 2 → g1._nE < ginfo.num_edges * 2)) ∧
      (g1._undirected_to_directed = true →
        g1._bitmask.length = ginfo.num_edges ∧ g1._nE = g1._bitmask.count true) ∧
      (g1._directed_to_undirected = false → g1._undirected_to_directed = false →
        g1._nE = ginfo.num_edges)) ∧
    ((g0.allocate_size_t T ginfo rnd junk junk_coo bm am).graph = some g1 →
      g1.heap.out_edges.length = g1._nE ∧
      g1._coo_edges.map List.length = some g1._nE) ∧
    (g0.allocate T ginfo rnd junk junk_coo = some g1 → T.eoff_max < SIZE_RANGE →
      ginfo.num_vertices < T.vid_max →
      g0.allocate_size_t T ginfo rnd junk junk_coo true true =
        AllocateResult.allocated g1) ∧
    (ex_ginfo_wrap.num_edges = 2 ^ 63 + 1 ∧
      ex_ginfo_wrap.num_edges < SIZE_RANGE ∧
      ex_ginfo_wrap.num_edges * 2 = SIZE_RANGE + 2 ∧
      ex_alloc_wrap.graph.map
          (fun g => (g._directed_to_undirected, g._nV, g._nE, g.heap.out_edges.length,
            g._coo_edges.map List.length)) =
        some (true, 3, 2, 2, some 2) ∧
      (2 : Nat) ≠ ex_ginfo_wrap.num_edges * 2 ∧
      ex_T64.eoff_max < ex_ginfo_wrap.num_edges * 2) := by
  refine ⟨?_, ?_,
    fun h hT hv => allocate_size_t_of_allocate T g0 g1 ginfo rnd junk junk_coo h hT hv, ?_⟩
  · intro h
    obtain ⟨gc, hc, hg⟩ :=
      (allocate_size_t_cases T g0 ginfo rnd junk junk_coo bm am g1).1 h
    obtain ⟨b1, b2⟩ := allocate_counts_basic T g0 gc ginfo rnd bm hc
    obtain ⟨f1, f2⟩ := allocate_counts_flags T g0 gc ginfo rnd bm hc
    obtain ⟨c1, c2, c3⟩ := allocate_counts_count T g0 gc ginfo rnd bm hc
    obtain ⟨a1, a2, a3, a4, a5, _⟩ := allocate_arrays_spec gc junk junk_coo
    have key : g1._nV = gc._nV ∧ g1._nE = gc._nE ∧
        g1._undirected_to_directed = gc._undirected_to_directed ∧
        g1._directed_to_undirected = gc._directed_to_undirected ∧
        g1._bitmask = gc._bitmask := by
      rcases hg with hg | hg
      · rw [hg]; exact ⟨rfl, rfl, rfl, rfl, rfl⟩
      · rw [hg]; exact ⟨a1, a2, a3, a4, a5⟩
    obtain ⟨k1, k2, k3, k4, k5⟩ := key
    rw [k1, k2, k3, k4, k5]
    refine ⟨b1, b2, ?_, ?_, c3⟩
    · intro hd
      have e := c1 hd
      refine ⟨e, ?_, ?_⟩
      · intro hlt
        rw [e, Nat.mod_eq_of_lt hlt]
      · intro hge
        rw [e]
        exact Nat.lt_of_lt_of_le (Nat.mod_lt _ (by decide)) hge
    · intro hu
      have hd : gc._directed_to_undirected = false := by
        rw [f2]
        rw [f1] at hu
        cases hdir : ginfo.direction <;> simp_all [StructureProp.is_directed,
          StructureProp.is_undirected]
      obtain ⟨e1, e2⟩ := c2 hd hu
      rw [e2]
      exact ⟨by simp, e1⟩
  · intro h
    obtain ⟨gc, hc, hg⟩ :=
      (allocate_size_t_cases T g0 ginfo rnd junk junk_coo bm am g1).2 h
    obtain ⟨_, a2, _, _, _, _, a7, _, a9⟩ := allocate_arrays_spec gc junk junk_coo
    rw [hg, a2]
    exact ⟨a7, a9⟩
  · decide

/-! ## CSR constructor and degree distribution in `int` cells -/

/-- The graph that the CSR constructor yields: structure, counts, arrays, degrees and the
aliasing of the in-view. -/
theorem create_csr_spec (T : TypeParams) (p : ParsingProp) (csr_offsets : List Nat)
    (nV : Nat) (csr_edges : List Nat) (nE : Nat) (rnd : Nat → Bool) (junk : Nat → Nat)
    (junk_coo : Nat → Nat × Nat)
    (hnV : 0 < nV) (hnE : 0 < nE) (hvid : nV ≤ T.vid_max) (heoff : nE ≤ T.eoff_max)
    (hoff : csr_offsets.length = nV + 1) (hed : csr_edges.length = nE) :
    ∃ g, GraphStd.create_csr T p csr_offsets nV csr_edges nE rnd junk junk_coo = some g ∧
      g._structure.is_undirected = true ∧ g._structure.is_directed = false ∧
      g._nV = nV ∧ g._nE = nE ∧
      g.out_offsets = csr_offsets ∧
      g.heap.cells g._out_edges g._nE = csr_edges ∧
      (∀ v, v < nV → csr_offsets.getD v 0 ≤ csr_offsets.getD (v + 1) 0 →
        g.heap.read g._out_degrees v + csr_offsets.getD v 0 = csr_offsets.getD (v + 1) 0) ∧
      (g._out_offsets = some Addr.out_offsets ∧ g._out_edges = some Addr.out_edges ∧
        g._out_degrees = some Addr.out_degrees) ∧
      (g._in_offsets = g._out_offsets ∧ g._in_edges = g._out_edges ∧
        g._in_degrees = g._out_degrees) ∧
      (∀ v, g.in_neighbours v = g.out_neighbours v) ∧
      g.in_degrees = g.out_degrees := by
  obtain ⟨g1, halloc⟩ := create_csr_allocate T p nV nE rnd junk junk_coo hnV hnE hvid heoff
  obtain ⟨⟨p1, p2, p3, hd0, ho0⟩, hE, _⟩ := allocate_out_ready T _ g1 _ rnd junk junk_coo halloc
  have hnV1 : g1._nV = nV := (allocate_basic T _ g1 _ rnd junk junk_coo halloc).1
  have hs : g1._structure = UNDIRECTED :=
    (allocate_structure T _ g1 _ rnd junk junk_coo halloc).1 rfl
  have hflags := allocate_flags T _ g1 _ rnd junk junk_coo halloc
  have hu : g1._structure.is_undirected = true := by rw [hs]; rfl
  have hdir : g1._structure.is_directed = false := by rw [hs]; rfl
  have hnE1 : g1._nE = nE :=
    (allocate_count T _ g1 _ rnd junk junk_coo halloc).2.2
      (by rw [hflags.2, hu]; rfl) (by rw [hflags.1, hdir]; rfl)
  obtain ⟨a1, a2, a3⟩ := allocate_alias T _ g1 _ rnd junk junk_coo halloc hu
  rw [hnV1] at hd0 ho0
  rw [hnE1] at hE
  have hres : GraphStd.create_csr T p csr_offsets nV csr_edges nE rnd junk junk_coo =
      some { g1 with heap := ((List.range nV).foldl
        (fun h i =>
          h.write (some Addr.out_degrees) i
            (csr_offsets.getD (i + 1) 0 - csr_offsets.getD i 0))
        (std_copy csr_edges nE (some Addr.out_edges)
          (std_copy csr_offsets (nV + 1) (some Addr.out_offsets) g1.heap))) } := by
    unfold GraphStd.create_csr
    rw [halloc]
    simp only [p1, p2, p3]
  obtain ⟨o1, o2, o3⟩ := std_copy_spec csr_offsets (nV + 1) Addr.out_offsets g1.heap
  obtain ⟨e1, e2, e3⟩ := std_copy_spec csr_edges nE Addr.out_edges
    (std_copy csr_offsets (nV + 1) (some Addr.out_offsets) g1.heap)
  obtain ⟨d1, d2, d3⟩ := foldl_write_range Addr.out_degrees
    (fun i => csr_offsets.getD (i + 1) 0 - csr_offsets.getD i 0) nV
    (std_copy csr_edges nE (some Addr.out_edges)
      (std_copy csr_offsets (nV + 1) (some Addr.out_offsets) g1.heap))
  refine ⟨_, hres, hu, hdir, hnV1, hnE1, ?_, ?_, ?_, ⟨p1, p2, p3⟩,
    ⟨a1.trans p1.symm, a2.trans p2.symm, a3.trans p3.symm⟩, ?_, ?_⟩
  · show (List.range (g1._nV + 1)).map (Heap.read _ g1._out_offsets) = csr_offsets
    rw [hnV1, p1]
    conv_rhs => rw [← map_getD_range csr_offsets (nV + 1) hoff]
    apply List.map_congr_left
    intro j hj
    rw [List.mem_range] at hj
    rw [Heap.read_some, d3 _ (by decide), e3 _ (by decide), o2 j, if_pos ⟨hj, by
      show j < g1.heap.out_offsets.length
      omega⟩]
  · show (List.range g1._nE).map (Heap.read _ g1._out_edges) = csr_edges
    rw [hnE1, p2]
    conv_rhs => rw [← map_getD_range csr_edges nE hed]
    apply List.map_congr_left
    intro j hj
    rw [List.mem_range] at hj
    rw [Heap.read_some, d3 _ (by decide), e2 j, if_pos ⟨hj, by
      rw [o3 _ (by decide)]
      show j < g1.heap.out_edges.length
      omega⟩]
  · intro v hv hmono
    show Heap.read _ g1._out_degrees v + _ = _
    rw [p3, Heap.read_some, d2 v, if_pos ⟨hv, by
      rw [e3 _ (by decide), o3 _ (by decide)]
      show v < g1.heap.out_degrees.length
      rw [hd0]
      simpa [new_array_zero] using hv⟩]
    omega
  · intro v
    show (List.range' (Heap.read _ g1._in_offsets v) _).map (Heap.read _ g1._in_edges) =
      (List.range' (Heap.read _ g1._out_offsets v) _).map (Heap.read _ g1._out_edges)
    rw [a1, a2, p1, p2]
  · show (List.range g1._nV).map (Heap.read _ g1._in_degrees) =
      (List.range g1._nV).map (Heap.read _ g1._out_degrees)
    rw [a3, p3]

/-- C23: for offsets of length `nV + 1` and edges of length `nE`, with `nV > 0` and
`nE > 0` within the ranges of `vid_t` and `eoff_t`, the CSR constructor yields a graph
that is undirected, with the given counts, whose out-offsets and out-edges equal the
inputs cell by cell, whose out-degree of `v` is `csr_offsets[v + 1] - csr_offsets[v]`
(wherever the offsets do not decrease), and whose in-pointers are the out-pointers, so
that the in-view is the out-view. -/
theorem C23_csr_constructor (T : TypeParams) (p : ParsingProp) (csr_offsets : List Nat)
    (nV : Nat) (csr_edges : List Nat) (nE : Nat) (rnd : Nat → Bool) (junk : Nat → Nat)
    (junk_coo : Nat → Nat × Nat)
    (hnV : 0 < nV) (hnE : 0 < nE) (hvid : nV ≤ T.vid_max) (heoff : nE ≤ T.eoff_max)
    (hoff : csr_offsets.length = nV + 1) (hed : csr_edges.length = nE) :
    (∃ g, GraphStd.create_csr T p csr_offsets nV csr_edges nE rnd junk junk_coo = some g ∧
      g._structure.is_undirected = true ∧ g._structure.is_directed = false ∧
      g._nV = nV ∧ g._nE = nE ∧
      g.out_offsets = csr_offsets ∧
      g.heap.cells g._out_edges g._nE = csr_edges ∧
      (∀ v, v < nV → csr_offsets.getD v 0 ≤ csr_offsets.getD (v + 1) 0 →
        g.heap.read g._out_degrees v + csr_offsets.getD v 0 = csr_offsets.getD (v + 1) 0) ∧
      (g._out_offsets = some Addr.out_offsets ∧ g._out_edges = some Addr.out_edges ∧
        g._out_degrees = some Addr.out_degrees) ∧
      (g._in_offsets = g._out_offsets ∧ g._in_edges = g._out_edges ∧
        g._in_degrees = g._out_degrees) ∧
      (∀ v, g.in_neighbours v = g.out_neighbours v) ∧
      g.in_degrees = g.out_degrees) ∧
    ((GraphStd.create_csr ex_T { print := false, sort := false, randomize := false }
        ex_csr_offsets 3 ex_csr_edges 4 (fun _ => true) (fun _ => 7) (fun _ => (9, 9))).map
      (fun g => (g.out_offsets, g.heap.cells g._out_edges g._nE, g.out_degrees,
        g.in_degrees, g.in_neighbours 0)) =
      some ([0, 2, 3, 4], [1, 2, 0, 0], [2, 1, 1], [2, 1, 1], [1, 2])) :=
  ⟨create_csr_spec T p csr_offsets nV csr_edges nE rnd junk junk_coo hnV hnE hvid heoff hoff
    hed, by decide⟩

theorem C23_csr_constructor_witness :
    (∃ g, GraphStd.create_csr ex_T { print := false, sort := false, randomize := false }
        ex_csr_offsets 3 ex_csr_edges 4 (fun _ => true) (fun _ => 7) (fun _ => (9, 9)) =
          some g ∧
      g._structure.is_undirected = true ∧ g._structure.is_directed = false ∧
      g._nV = 3 ∧ g._nE = 4 ∧
      g.out_offsets = ex_csr_offsets ∧
      g.heap.cells g._out_edges g._nE = ex_csr_edges ∧
      (∀ v, v < 3 → ex_csr_offsets.getD v 0 ≤ ex_csr_offsets.getD (v + 1) 0 →
        g.heap.read g._out_degrees v + ex_csr_offsets.getD v 0 =
          ex_csr_offsets.getD (v + 1) 0) ∧
      (g._out_offsets = some Addr.out_offsets ∧ g._out_edges = some Addr.out_edges ∧
        g._out_degrees = some Addr.out_degrees) ∧
      (g._in_offsets = g._out_offsets ∧ g._in_edges = g._out_edges ∧
        g._in_degrees = g._out_degrees) ∧
      (∀ v, g.in_neighbours v = g.out_neighbours v) ∧
      g.in_degrees = g.out_degrees) ∧
    ((GraphStd.create_csr ex_T { print := false, sort := false, randomize := false }
        ex_csr_offsets 3 ex_csr_edges 4 (fun _ => true) (fun _ => 7) (fun _ => (9, 9))).map
      (fun g => (g.out_offsets, g.heap.cells g._out_edges g._nE, g.out_degrees,
        g.in_degrees, g.in_neighbours 0)) =
      some ([0, 2, 3, 4], [1, 2, 0, 0], [2, 1, 1], [2, 1, 1], [1, 2])) :=
  C23_csr_constructor ex_T { print := false, sort := false, randomize := false }
    ex_csr_offsets 3 ex_csr_edges 4 (fun _ => true) (fun _ => 7) (fun _ => (9, 9))
    (by decide) (by decide) (by decide) (by decide) (by rfl) (by rfl)



/-- The loop of lines 380-386 over a list of degrees, from arbitrary arrays of `int`
cells: bucket `k` gains, modulo `INT_RANGE`, the number and the total of the degrees at
least 1 whose logarithm is `k`. -/
theorem distrib_fold (ds : List Nat) (k : Nat) :
    ∀ st : List Nat × List Nat, k < st.1.length → k < st.2.length →
      ((ds.foldl
        (fun (st : List Nat × List Nat) d =>
          if d = 0 then st
          else (st.1.set (xlib_log2 d) ((st.1.getD (xlib_log2 d) 0 + 1) % INT_RANGE),
                st.2.set (xlib_log2 d) ((st.2.getD (xlib_log2 d) 0 + d) % INT_RANGE)))
          st).1.getD k 0 % INT_RANGE =
        (st.1.getD k 0 + (ds.filter (fun d => decide (1 ≤ d ∧ xlib_log2 d = k))).length)
          % INT_RANGE) ∧
      ((ds.foldl
        (fun (st : List Nat × List Nat) d =>
          if d = 0 then st
          else (st.1.set (xlib_log2 d) ((st.1.getD (xlib_log2 d) 0 + 1) % INT_RANGE),
                st.2.set (xlib_log2 d) ((st.2.getD (xlib_log2 d) 0 + d) % INT_RANGE)))
          st).2.getD k 0 % INT_RANGE =
        (st.2.getD k 0 + (ds.filter (fun d => decide (1 ≤ d ∧ xlib_log2 d = k))).sum)
          % INT_RANGE) := by
  induction ds with
  | nil => intro st _ _; simp
  | cons d ds ih =>
    intro st h1 h2
    rw [List.foldl_cons]
    by_cases hd : d = 0
    · rw [if_pos hd]
      have hf : ¬ (1 ≤ d ∧ xlib_log2 d = k) := by omega
      rw [List.filter_cons_of_neg (by simpa using hf)]
      exact ih st h1 h2
    · rw [if_neg hd]
      have := ih (st.1.set (xlib_log2 d) ((st.1.getD (xlib_log2 d) 0 + 1) % INT_RANGE),
                st.2.set (xlib_log2 d) ((st.2.getD (xlib_log2 d) 0 + d) % INT_RANGE))
        (by simpa using h1) (by simpa using h2)
      rw [this.1, this.2, getD_set_nat, getD_set_nat]
      by_cases hk : xlib_log2 d = k
      · have hp : (1 ≤ d ∧ xlib_log2 d = k) := ⟨by omega, hk⟩
        rw [List.filter_cons_of_pos (by simpa using hp)]
        subst hk
        rw [if_pos ⟨rfl, h1⟩, if_pos ⟨rfl, h2⟩]
        simp only [List.length_cons, List.sum_cons, INT_RANGE]
        omega
      · have hf : ¬ (1 ≤ d ∧ xlib_log2 d = k) := fun h => hk h.2
        rw [List.filter_cons_of_neg (by simpa using hf)]
        rw [if_neg (fun h => hk h.1), if_neg (fun h => hk h.1)]
        exact ⟨rfl, rfl⟩

theorem distrib_fold_lt (ds : List Nat) :
    ∀ st : List Nat × List Nat,
      (∀ j, st.1.getD j 0 < INT_RANGE) → (∀ j, st.2.getD j 0 < INT_RANGE) →
      (∀ j, (ds.foldl
        (fun (st : List Nat × List Nat) d =>
          if d = 0 then st
          else (st.1.set (xlib_log2 d) ((st.1.getD (xlib_log2 d) 0 + 1) % INT_RANGE),
                st.2.set (xlib_log2 d) ((st.2.getD (xlib_log2 d) 0 + d) % INT_RANGE)))
          st).1.getD j 0 < INT_RANGE) ∧
      (∀ j, (ds.foldl
        (fun (st : List Nat × List Nat) d =>
          if d = 0 then st
          else (st.1.set (xlib_log2 d) ((st.1.getD (xlib_log2 d) 0 + 1) % INT_RANGE),
                st.2.set (xlib_log2 d) ((st.2.getD (xlib_log2 d) 0 + d) % INT_RANGE)))
          st).2.getD j 0 < INT_RANGE) := by
  induction ds with
  | nil => intro st h1 h2; exact ⟨h1, h2⟩
  | cons d ds ih =>
    intro st h1 h2
    rw [List.foldl_cons]
    by_cases hd : d = 0
    · rw [if_pos hd]
      exact ih st h1 h2
    · rw [if_neg hd]
      apply ih
      · intro j
        show (st.1.set _ _).getD j 0 < INT_RANGE
        rw [getD_set_nat]
        split
        · exact Nat.mod_lt _ (by decide)
        · exact h1 j
      · intro j
        show (st.2.set _ _).getD j 0 < INT_RANGE
        rw [getD_set_nat]
        split
        · exact Nat.mod_lt _ (by decide)
        · exact h2 j

theorem degree_distrib_eq (g : GraphStd) :
    g.degree_distrib = g.out_degrees.foldl
      (fun (st : List Nat × List Nat) d =>
        if d = 0 then st
        else (st.1.set (xlib_log2 d) ((st.1.getD (xlib_log2 d) 0 + 1) % INT_RANGE),
              st.2.set (xlib_log2 d) ((st.2.getD (xlib_log2 d) 0 + d) % INT_RANGE)))
      (List.replicate MAX_LOG 0, List.replicate MAX_LOG 0) := by
  unfold GraphStd.degree_distrib GraphStd.out_degrees
  rw [List.foldl_map]

theorem getD_replicate_zero (n j : Nat) : (List.replicate n 0).getD j 0 = 0 := by
  rw [List.getD_eq_getElem?_getD]
  by_cases h : j < n
  · simp [h]
  · rw [List.getElem?_eq_none (by simpa using h)]
    rfl

/-- The arrays of `print_degree_distrib` after the loop: cell `k` of `distribution` holds,
modulo `INT_RANGE`, the number of out-degrees at least 1 whose logarithm is `k`, and
cell `k` of `cumulative` their total. -/
theorem degree_distrib_getD (g : GraphStd) (k : Nat) (hk : k < MAX_LOG) :
    g.degree_distrib.1.getD k 0 =
        (g.out_degrees.filter (fun d => decide (1 ≤ d ∧ xlib_log2 d = k))).length
          % INT_RANGE ∧
      g.degree_distrib.2.getD k 0 =
        (g.out_degrees.filter (fun d => decide (1 ≤ d ∧ xlib_log2 d = k))).sum
          % INT_RANGE := by
  have h := distrib_fold g.out_degrees k (List.replicate MAX_LOG 0, List.replicate MAX_LOG 0)
    (by simpa using hk) (by simpa using hk)
  have hlt := distrib_fold_lt g.out_degrees (List.replicate MAX_LOG 0, List.replicate MAX_LOG 0)
    (fun j => by
      show (List.replicate MAX_LOG 0).getD j 0 < INT_RANGE
      rw [getD_replicate_zero]; decide)
    (fun j => by
      show (List.replicate MAX_LOG 0).getD j 0 < INT_RANGE
      rw [getD_replicate_zero]; decide)
  rw [← degree_distrib_eq] at h hlt
  obtain ⟨h1, h2⟩ := h
  rw [Nat.mod_eq_of_lt (hlt.1 k)] at h1
  rw [Nat.mod_eq_of_lt (hlt.2 k)] at h2
  have z1 : (List.replicate MAX_LOG 0, List.replicate MAX_LOG 0).1.getD k 0 = 0 :=
    getD_replicate_zero _ _
  have z2 : (List.replicate MAX_LOG 0, List.replicate MAX_LOG 0).2.getD k 0 = 0 :=
    getD_replicate_zero _ _
  rw [z1, Nat.zero_add] at h1
  rw [z2, Nat.zero_add] at h2
  exact ⟨h1, h2⟩

theorem int_value_of_lt (n : Nat) (h : n < 2 ^ 31) : int_value (n % INT_RANGE) = (n : Int) := by
  have h2 : n % INT_RANGE = n := Nat.mod_eq_of_lt (by
    have : (2 : Nat) ^ 31 < INT_RANGE := by decide
    omega)
  rw [h2]
  unfold int_value
  rw [if_pos h]

theorem length_filter_le_sum (l : List Nat) (p : Nat → Bool) (hp : ∀ d, p d = true → 1 ≤ d) :
    (l.filter p).length ≤ (l.filter p).sum := by
  induction l with
  | nil => simp
  | cons a l ih =>
    by_cases ha : p a = true
    · rw [List.filter_cons_of_pos ha]
      have := hp a ha
      simp only [List.length_cons, List.sum_cons]
      omega
    · rw [List.filter_cons_of_neg ha]
      exact ih

theorem length_degree_distrib (g : GraphStd) : g.degree_distrib.1.length = MAX_LOG := by
  unfold GraphStd.degree_distrib
  generalize List.range g._nV = l
  have : ∀ (st : List Nat × List Nat), st.1.length = MAX_LOG →
      (l.foldl
        (fun st i =>
          if g.heap.read g._out_degrees i = 0 then st
          else
            (st.1.set (xlib_log2 (g.heap.read g._out_degrees i))
                ((st.1.getD (xlib_log2 (g.heap.read g._out_degrees i)) 0 + 1) % INT_RANGE),
             st.2.set (xlib_log2 (g.heap.read g._out_degrees i))
                ((st.2.getD (xlib_log2 (g.heap.read g._out_degrees i)) 0 +
                  g.heap.read g._out_degrees i) % INT_RANGE))) st).1.length = MAX_LOG := by
    induction l with
    | nil => intro st h; simpa using h
    | cons a l ih =>
      intro st h
      rw [List.foldl_cons]
      apply ih
      split
      · exact h
      · simpa using h
  exact this _ (by simp)

theorem degree_distrib_all_zero (g : GraphStd)
    (h : ∀ v, v < g._nV → g.heap.read g._out_degrees v = 0) (k : Nat) :
    g.degree_distrib.1.getD k 0 = 0 := by
  by_cases hk : k < MAX_LOG
  · rw [(degree_distrib_getD g k hk).1]
    have : g.out_degrees.filter (fun d => decide (1 ≤ d ∧ xlib_log2 d = k)) = [] := by
      rw [List.filter_eq_nil_iff]
      intro d hd
      unfold GraphStd.out_degrees at hd
      rw [List.mem_map] at hd
      obtain ⟨v, hv, rfl⟩ := hd
      rw [h v (List.mem_range.mp hv)]
      simp
    rw [this]
    rfl
  · rw [List.getD_eq_getElem?_getD, List.getElem?_eq_none (by rw [length_degree_distrib]; omega)]
    rfl

/-- C20 (defect in the code): the scan `while (pos >= 0 && distribution[--pos] == 0);`
ends for every graph. When some bucket is not empty it reads only the indices from 31 down
to the highest non-empty bucket `k`, ends with `pos = k` and the buckets `0..k` are
reported. When every out-degree is zero, as for the 1-vertex graph `ex_gz`, no bucket is
filled: after index 0 the scan reads `distribution[-1]`, outside the array, and ends with
`pos = -1` whatever that cell holds, so no bucket is reported. -/
theorem C20_scan_reads_below_first_bucket (g : GraphStd) (junk : Nat) :
    (∃ r, g.degree_scan junk = some r) ∧
    (∀ k, k < MAX_LOG → g.degree_distrib.1.getD k 0 ≠ 0 →
      (∀ i, k < i → i < MAX_LOG → g.degree_distrib.1.getD i 0 = 0) →
      g.degree_scan junk =
          some ((k : Int), (List.range' k (MAX_LOG - k)).reverse.map Int.ofNat) ∧
        (∀ i ∈ (List.range' k (MAX_LOG - k)).reverse.map Int.ofNat,
          (0 : Int) ≤ i ∧ i < (MAX_LOG : Int)) ∧
        reported_buckets k = List.range (k + 1)) ∧
    ((∀ v, v < g._nV → g.heap.read g._out_degrees v = 0) →
      g.degree_scan junk =
          some (-1, (List.range MAX_LOG).reverse.map Int.ofNat ++ [-1]) ∧
        (-1 : Int) ∈ (List.range MAX_LOG).reverse.map Int.ofNat ++ [-1] ∧
        reported_buckets (-1) = []) ∧
    (ex_gz._nV = 1 ∧ ex_gz.out_degrees = [0] ∧
      ex_gz.degree_distrib.1 = List.replicate 32 0 ∧
      ex_gz.degree_scan junk =
        some (-1, (List.range MAX_LOG).reverse.map Int.ofNat ++ [-1]) ∧
      ¬ ((0 : Int) ≤ -1 ∧ (-1 : Int) < (MAX_LOG : Int))) ∧
    (ex_g5.degree_scan junk = some (2, (List.range' 2 30).reverse.map Int.ofNat)) := by
  have hpos : ∀ (g : GraphStd) (k : Nat), k < MAX_LOG → g.degree_distrib.1.getD k 0 ≠ 0 →
      (∀ i, k < i → i < MAX_LOG → g.degree_distrib.1.getD i 0 = 0) →
      g.degree_scan junk =
        some ((k : Int), (List.range' k (MAX_LOG - k)).reverse.map Int.ofNat) := by
    intro g k hk hne hz
    have := scan_back_highest g.degree_distrib.1 junk k hne MAX_LOG (MAX_LOG + 2) [] hk
      (by rw [length_degree_distrib]) (Nat.le_refl _) hz
    simpa [GraphStd.degree_scan] using this
  have hzero : ∀ g : GraphStd, (∀ v, v < g._nV → g.heap.read g._out_degrees v = 0) →
      g.degree_scan junk =
        some (-1, (List.range MAX_LOG).reverse.map Int.ofNat ++ [-1]) := by
    intro g h
    have := scan_back_all_zero g.degree_distrib.1 junk MAX_LOG (MAX_LOG + 2) []
      (by rw [length_degree_distrib]) (Nat.le_refl _)
      (fun i _ => degree_distrib_all_zero g h i)
    simpa [GraphStd.degree_scan] using this
  refine ⟨?_, ?_, ?_, ?_, ?_⟩
  · by_cases hall : ∀ i, i < MAX_LOG → g.degree_distrib.1.getD i 0 = 0
    · have := scan_back_all_zero g.degree_distrib.1 junk MAX_LOG (MAX_LOG + 2) []
        (by rw [length_degree_distrib]) (Nat.le_refl _) hall
      exact ⟨_, this⟩
    · obtain ⟨k, hk, hne, hz⟩ := exists_highest_bucket g.degree_distrib.1 MAX_LOG
        (by
          by_contra hc
          exact hall (fun i hi => by
            by_contra h0
            exact hc ⟨i, hi, h0⟩))
      exact ⟨_, hpos g k hk hne hz⟩
  · intro k hk hne hz
    refine ⟨hpos g k hk hne hz, ?_, ?_⟩
    · intro i hi
      simp only [List.mem_map, List.mem_reverse, List.mem_range'_1] at hi
      obtain ⟨a, ha, rfl⟩ := hi
      simp only [Int.ofNat_eq_coe]
      omega
    · unfold reported_buckets
      congr 1
  · intro h
    exact ⟨hzero g h, by simp, by decide⟩
  · refine ⟨by decide, by decide, by decide, ?_, by decide⟩
    apply hzero
    decide
  · have hz : ∀ i, i < MAX_LOG → 2 < i → ex_g5.degree_distrib.1.getD i 0 = 0 := by decide
    exact hpos ex_g5 2 (by decide) (by decide) (fun i h1 h2 => hz i h2 h1)


theorem degree_distrib_congr (g h : GraphStd) (e : g.out_degrees = h.out_degrees) :
    g.degree_distrib = h.degree_distrib := by
  rw [degree_distrib_eq, degree_distrib_eq, e]

/-- C13 (defect in the code): `print_degree_distrib` puts each vertex of out-degree at
least 1 into the bucket of its base-2 logarithm and skips the vertices of degree 0, but it
counts in `int distribution[32]` and totals in `int cumulative[32]`: cell `k` holds the
number of the vertices of bucket `k`, and the total of their degrees, modulo 2^32, which
are the exact number and total as long as the total is below 2^31 (as for the out-degrees
0, 1, 1, 2, 4). For 2 vertices of out-degree 2^30 each, as the CSR constructor of
`GraphStd<int64_t, int64_t>` builds from the offsets 0, 2^30, 2^31, the total 2^31 of
bucket 30 is not a value of `int`: the cell ends with the bit pattern of -2^31. -/
theorem C13_degree_totals_overflow_int (g : GraphStd) :
    (g._nV < 2 ^ 31 → (∀ v, v < g._nV → g.heap.read g._out_degrees v < 2 ^ 32) →
      ∀ k, k < MAX_LOG →
        g.degree_distrib.1.getD k 0 =
          (g.out_degrees.filter (fun d => decide (1 ≤ d ∧ Nat.log 2 d = k))).length
            % INT_RANGE ∧
        g.degree_distrib.2.getD k 0 =
          (g.out_degrees.filter (fun d => decide (1 ≤ d ∧ Nat.log 2 d = k))).sum
            % INT_RANGE ∧
        ((g.out_degrees.filter (fun d => decide (1 ≤ d ∧ Nat.log 2 d = k))).sum < 2 ^ 31 →
          int_value (g.degree_distrib.1.getD k 0) =
            ((g.out_degrees.filter (fun d => decide (1 ≤ d ∧ Nat.log 2 d = k))).length : Int) ∧
          int_value (g.degree_distrib.2.getD k 0) =
            ((g.out_degrees.filter (fun d => decide (1 ≤ d ∧ Nat.log 2 d = k))).sum : Int))) ∧
    (ex_g5.out_degrees = [0, 1, 1, 2, 4] ∧
      ex_g5.degree_distrib.1.take 3 = [2, 1, 1] ∧
      ex_g5.degree_distrib.1.drop 3 = List.replicate 29 0 ∧
      ex_g5.degree_distrib.2.take 3 = [2, 2, 4] ∧
      ex_g5.degree_distrib.1.sum + 1 = ex_g5._nV) ∧
    (ex_gbig._nV = 2 ∧ ex_gbig.out_degrees = [2 ^ 30, 2 ^ 30] ∧
      (ex_gbig.out_degrees.filter (fun d => decide (1 ≤ d ∧ Nat.log 2 d = 30))).sum = 2 ^ 31 ∧
      ex_gbig.degree_distrib.1.getD 30 0 = 2 ∧
      ex_gbig.degree_distrib.2.getD 30 0 = 2 ^ 31 ∧
      int_value (ex_gbig.degree_distrib.2.getD 30 0) = -(2 ^ 31) ∧
      int_value (ex_gbig.degree_distrib.2.getD 30 0) ≠
        ((ex_gbig.out_degrees.filter (fun d => decide (1 ≤ d ∧ Nat.log 2 d = 30))).sum : Int)) ∧
    (∃ gc, GraphStd.create_csr ex_T64 { print := false, sort := false, randomize := false }
        ex_big_offsets 2 (List.replicate (2 ^ 31) 0) (2 ^ 31) (fun _ => true) (fun _ => 7)
        (fun _ => (9, 9)) = some gc ∧
      gc._nV = 2 ∧ gc._nE = 2 ^ 31 ∧ gc.out_degrees = ex_gbig.out_degrees ∧
      gc.degree_distrib = ex_gbig.degree_distrib) := by
  have hfun : ∀ k, (fun d => decide (1 ≤ d ∧ xlib_log2 d = k)) =
      (fun d => decide (1 ≤ d ∧ Nat.log 2 d = k)) := by
    intro k
    funext d
    rw [xlib_log2_eq]
  have hdeg : ex_gbig.out_degrees = [2 ^ 30, 2 ^ 30] := by decide
  have hsum : (ex_gbig.out_degrees.filter (fun d => decide (1 ≤ d ∧ Nat.log 2 d = 30))).sum
      = 2 ^ 31 := by
    rw [← hfun 30, hdeg]
    decide
  have hcell : ex_gbig.degree_distrib.2.getD 30 0 = 2 ^ 31 := by decide
  refine ⟨?_, by decide, ⟨by decide, hdeg, hsum, by decide, hcell, ?_, ?_⟩, ?_⟩
  · intro _ _ k hk
    obtain ⟨h1, h2⟩ := degree_distrib_getD g k hk
    rw [hfun k] at h1 h2
    refine ⟨h1, h2, ?_⟩
    intro hs
    have hle := length_filter_le_sum g.out_degrees
      (fun d => decide (1 ≤ d ∧ Nat.log 2 d = k)) (fun d hd => by
        simp only [decide_eq_true_eq] at hd
        exact hd.1)
    rw [h1, h2]
    exact ⟨int_value_of_lt _ (by omega), int_value_of_lt _ hs⟩
  · rw [hcell]
    decide
  · rw [hcell, hsum]
    decide
  · obtain ⟨gc, hgc, _, _, hnV, hnE, _, _, hdg, ⟨_, _, pd⟩, _⟩ :=
      create_csr_spec ex_T64 { print := false, sort := false, randomize := false }
        ex_big_offsets 2 (List.replicate (2 ^ 31) 0) (2 ^ 31) (fun _ => true) (fun _ => 7)
        (fun _ => (9, 9)) (by decide) (by decide) (by decide) (by decide) (by rfl)
        (List.length_replicate _ _)
    have hout : gc.out_degrees = ex_gbig.out_degrees := by
      rw [hdeg]
      unfold GraphStd.out_degrees
      rw [hnV]
      have e0 := hdg 0 (by decide) (by decide)
      have e1 := hdg 1 (by decide) (by decide)
      have o0 : ex_big_offsets.getD 0 0 = 0 := by decide
      have o1 : ex_big_offsets.getD 1 0 = 2 ^ 30 := by decide
      have o2 : ex_big_offsets.getD 2 0 = 2 ^ 31 := by decide
      rw [o0, o1] at e0
      rw [o1, o2] at e1
      have r0 : gc.heap.read gc._out_degrees 0 = 2 ^ 30 := by omega
      have r1 : gc.heap.read gc._out_degrees 1 = 2 ^ 30 := by omega
      show [gc.heap.read gc._out_degrees 0, gc.heap.read gc._out_degrees 1] = _
      rw [r0, r1]
    exact ⟨gc, hgc, hnV, hnE, hout, degree_distrib_congr gc ex_gbig hout⟩

end graph
